import Mathlib

/-!
Audio output mixer: queue model and mixing engine.

A shallow embedding of `modules/pins/i2s/audioout.c` (configuration
`MODDEF_AUDIOOUT_STREAMS = 4`, `MODDEF_AUDIOOUT_BITSPERSAMPLE = 16`,
`MODDEF_AUDIOOUT_QUEUELENGTH = 8`, so `OUTPUTSAMPLETYPE` is `int16_t`).

Conventions of the embedding:

* C `int` values are `Int`; 16-bit sample arithmetic is reduced with `wrap16`.
* Sample memory is a read-only function from byte addresses to the `int16_t`
  stored there; `samples` pointers (and callback identifiers stored in the same
  field) are `Int` addresses.
* `out->stream[i]` is the `i`-th entry of the list `stream`; a stream pointer held
  in `activeStream` is the index of the stream it points to.  `streamCount`,
  `activeStreamCount` and `pendingCallbackCount` are the lengths of the lists
  holding the entries that the C code can read (`stream`, `activeStream`,
  `pendingCallbacks`); array slots beyond these counts are never read by any
  function of the file.
* The element slots of a stream are kept in full (all
  `MODDEF_AUDIOOUT_QUEUELENGTH` of them, also the ones at or beyond
  `elementCount`), because `audioMix` reads slot 0 of every stream listed in
  `activeStream` whatever its `elementCount`.
* Operations that C leaves undefined (a `memcpy` or a copy loop with a negative
  or out-of-range length) yield `Outcome.undefinedBehaviour`; loops whose
  termination depends on the state take a fuel argument and yield
  `Outcome.outOfFuel` when it is exhausted.
-/

namespace AudioOut

/-! ## Configuration constants -/

def MODDEF_AUDIOOUT_STREAMS : Nat := 4

def MODDEF_AUDIOOUT_BITSPERSAMPLE : Nat := 16

def MODDEF_AUDIOOUT_QUEUELENGTH : Nat := 8

/-! ## Results of operations -/

/-- Result of running a piece of the C code: normal completion, a script error raised
with `xsRangeError`/`xsUnknownError`, C undefined behaviour, or fuel exhausted. -/
inductive Outcome (α : Type) where
  | done (a : α)
  | thrown (msg : String)
  | undefinedBehaviour
  | outOfFuel
deriving DecidableEq, Repr

/-- Sequencing: continue with `f` after normal completion, propagate anything else. -/
def Outcome.bind {α β : Type} (r : Outcome α) (f : α → Outcome β) : Outcome β :=
  match r with
  | .done a => f a
  | .thrown msg => .thrown msg
  | .undefinedBehaviour => .undefinedBehaviour
  | .outOfFuel => .outOfFuel

/-! ## Samples and memory -/

/-- Conversion of an `int` to `int16_t` (two's complement wraparound). -/
def wrap16 (x : Int) : Int := (x + 32768) % 65536 - 32768

/-- Conversion of an integer to `int` (32-bit two's complement wraparound). -/
def wrap32 (x : Int) : Int := (x + 2147483648) % 4294967296 - 2147483648

/-- Read-only sample memory: the 16-bit value stored at each byte address. -/
abbrev Memory := Int → Int

/-- Value of `*(int16_t *)a`. -/
def readSample (mem : Memory) (a : Int) : Int := wrap16 (mem a)

/-! ## Data model -/

/-- The C struct `modAudioQueueElementRecord`; `repeatCount` is the C field `repeat`. -/
structure modAudioQueueElementRecord where
  samples : Int
  sampleCount : Int
  position : Int
  repeatCount : Int
deriving DecidableEq, Repr, Inhabited

/-- The C struct `modAudioOutStreamRecord`: `element` holds all the slots of the array. -/
structure modAudioOutStreamRecord where
  elementCount : Int
  element : List modAudioQueueElementRecord
deriving DecidableEq, Repr, Inhabited

/-- The fields of the C struct `modAudioOutRecord` that the queue model and the mixer use. -/
structure modAudioOutRecord where
  sampleRate : Nat
  numChannels : Nat
  bitsPerSample : Nat
  bytesPerFrame : Nat
  activeStream : List Nat
  pendingCallbacks : List Int
  stream : List modAudioOutStreamRecord
deriving DecidableEq, Repr, Inhabited

def modAudioOutRecord.streamCount (out : modAudioOutRecord) : Nat := out.stream.length

def modAudioOutRecord.activeStreamCount (out : modAudioOutRecord) : Nat :=
  out.activeStream.length

def modAudioOutRecord.pendingCallbackCount (out : modAudioOutRecord) : Nat :=
  out.pendingCallbacks.length

/-- The stream `out->stream[i]`. -/
def modAudioOutRecord.streamAt (out : modAudioOutRecord) (i : Nat) : modAudioOutStreamRecord :=
  out.stream.getD i default

/-- Assignment to `out->stream[i]`. -/
def modAudioOutRecord.setStream (out : modAudioOutRecord) (i : Nat)
    (s : modAudioOutStreamRecord) : modAudioOutRecord :=
  { out with stream := out.stream.set i s }

/-- The slot `stream->element[0]`. -/
def modAudioOutStreamRecord.front (s : modAudioOutStreamRecord) : modAudioQueueElementRecord :=
  s.element.getD 0 default

/-- Assignment to `stream->element[0]`. -/
def modAudioOutStreamRecord.setFront (s : modAudioOutStreamRecord)
    (e : modAudioQueueElementRecord) : modAudioOutStreamRecord :=
  { s with element := s.element.set 0 e }

/-- The slot `out->stream[i].element[0]`. -/
def modAudioOutRecord.frontOf (out : modAudioOutRecord) (i : Nat) : modAudioQueueElementRecord :=
  (out.streamAt i).front

/-- Assignment to `out->stream[i].element[0]`. -/
def modAudioOutRecord.setFrontOf (out : modAudioOutRecord) (i : Nat)
    (e : modAudioQueueElementRecord) : modAudioOutRecord :=
  out.setStream i ((out.streamAt i).setFront e)

/-! ## updateActiveStreams -/

/-- The C function `updateActiveStreams`: the streams with a non-zero `elementCount`,
in index order. -/
def updateActiveStreams (out : modAudioOutRecord) : modAudioOutRecord :=
  { out with
    activeStream :=
      (List.range out.streamCount).filter fun i => decide ((out.streamAt i).elementCount ≠ 0) }

/-! ## Pending callbacks -/

/-- The C function `queueCallback`: append the identifier unless the pending queue is
full (the request to run `deliverCallbacks` and the diagnostic are external effects). -/
def queueCallback (out : modAudioOutRecord) (id : Int) : modAudioOutRecord :=
  if out.pendingCallbackCount < MODDEF_AUDIOOUT_QUEUELENGTH then
    { out with pendingCallbacks := out.pendingCallbacks ++ [id] }
  else
    out

/-- The loop of `deliverCallbacks` on the pending identifiers: take the first one, shift
the rest down, invoke the handler with it; `calls` lists the handler invocations so far. -/
def deliverLoop : List Int → List Int → List Int × List Int
  | [], calls => ([], calls)
  | id :: rest, calls => deliverLoop rest (calls ++ [id])

/-- The C function `deliverCallbacks`: the state afterwards and the identifiers the
handler was invoked with, in order of invocation. -/
def deliverCallbacks (out : modAudioOutRecord) : modAudioOutRecord × List Int :=
  let r := deliverLoop out.pendingCallbacks []
  ({ out with pendingCallbacks := r.1 }, r.2)

/-! ## endOfElement -/

/-- Effect of `c_memcpy(element, element + 1, sizeof(modAudioQueueElementRecord) * count)` on
the slots: slots `0 .. count-1` receive the former slots `1 .. count` (the two regions
overlap; the copy is taken in ascending address order), the other slots keep their
content. -/
def memcpyElements (els : List modAudioQueueElementRecord) (count : Nat) :
    List modAudioQueueElementRecord :=
  (els.drop 1).take count ++ els.drop count

/-- The loop `while (0 == element->repeat)` of `endOfElement` on stream `i`; a `memcpy`
whose length is negative or reaches beyond the slot array is undefined. -/
def retireLoop : Nat → modAudioOutRecord → Nat → Outcome modAudioOutRecord
  | 0, _, _ => .outOfFuel
  | fuel + 1, out, i =>
    let stream := out.streamAt i
    let element := stream.front
    if element.repeatCount ≠ 0 then .done out
    else
      let out := if element.sampleCount = 0 then queueCallback out element.samples else out
      let count := stream.elementCount - 1
      if count ≠ 0 then
        if count < 0 ∨ (MODDEF_AUDIOOUT_QUEUELENGTH : Int) ≤ count then .undefinedBehaviour
        else
          retireLoop fuel
            (out.setStream i
              { elementCount := count, element := memcpyElements stream.element count.toNat }) i
      else
        .done (updateActiveStreams (out.setStream i { stream with elementCount := 0 }))

/-- The scan `for (i = 1; i < stream->elementCount; i++) if (stream->element[i].sampleCount)`
of `endOfElement`: whether a slot `1 .. elementCount-1` has a non-zero `sampleCount`. -/
def laterSamplesQueued (s : modAudioOutStreamRecord) : Bool :=
  ((s.element.take s.elementCount.toNat).drop 1).any fun e => decide (e.sampleCount ≠ 0)

/-- The C function `endOfElement` for the stream `out->stream[i]`.  The loop runs at most
`MODDEF_AUDIOOUT_QUEUELENGTH` times before it stops or leaves the array. -/
def endOfElement (out : modAudioOutRecord) (i : Nat) : Outcome modAudioOutRecord :=
  let stream := out.streamAt i
  let element : modAudioQueueElementRecord := { stream.front with position := 0 }
  let element : modAudioQueueElementRecord :=
    if element.repeatCount < 0 then
      if laterSamplesQueued stream then { element with repeatCount := 0 } else element
    else
      { element with repeatCount := element.repeatCount - 1 }
  retireLoop (MODDEF_AUDIOOUT_QUEUELENGTH + 1) (out.setFrontOf i element) i

/-! ## audioMix -/

/-- The statement `if (element->position == element->sampleCount) endOfElement(out, stream);`. -/
def completeIfDone (out : modAudioOutRecord) (i : Nat) : Outcome modAudioOutRecord :=
  if (out.frontOf i).position = (out.frontOf i).sampleCount then endOfElement out i
  else .done out

/-- The statement `element->position += use;` for the front slot of stream `i`. -/
def advance (out : modAudioOutRecord) (i : Nat) (use : Int) : modAudioOutRecord :=
  out.setFrontOf i { out.frontOf i with position := (out.frontOf i).position + use }

/-- Address `(element->position * bytesPerFrame) + (uint8_t *)element->samples`. -/
def sourceOf (out : modAudioOutRecord) (i : Nat) : Int :=
  (out.frontOf i).position * out.bytesPerFrame + (out.frontOf i).samples

/-- Available run `element->sampleCount - element->position` of the front slot of stream `i`. -/
def availableRun (out : modAudioOutRecord) (i : Nat) : Int :=
  (out.frontOf i).sampleCount - (out.frontOf i).position

/-- One pass of the `switch` with `activeStreamCount == 0`: silence for the whole request. -/
def mixCase0 (out : modAudioOutRecord) (samplesToGenerate : Int) :
    Outcome (modAudioOutRecord × Int × List Int) :=
  let count := samplesToGenerate * out.numChannels
  if count < 0 then .undefinedBehaviour
  else .done (out, 0, List.replicate count.toNat 0)

/-- One pass of the `switch` with `activeStreamCount == 1`: a `memcpy` of
`use * bytesPerFrame` bytes, that is of `use * bytesPerFrame / 2` samples. -/
def mixCase1 (mem : Memory) (out : modAudioOutRecord) (samplesToGenerate : Int) :
    Outcome (modAudioOutRecord × Int × List Int) :=
  let stream := out.activeStream.getD 0 0
  let use := availableRun out stream
  let use := if use > samplesToGenerate then samplesToGenerate else use
  if use * out.bytesPerFrame < 0 then .undefinedBehaviour
  else
    let s := sourceOf out stream
    let output := (List.range (use * out.bytesPerFrame / 2).toNat).map fun (j : Nat) =>
      readSample mem (s + 2 * (j : Int))
    let out := advance out stream use
    (completeIfDone out stream).bind fun out =>
    .done (out, samplesToGenerate - use, output)

/-- One pass of the `switch` with `activeStreamCount == 2`. -/
def mixCase2 (mem : Memory) (out : modAudioOutRecord) (samplesToGenerate : Int) :
    Outcome (modAudioOutRecord × Int × List Int) :=
  let stream0 := out.activeStream.getD 0 0
  let stream1 := out.activeStream.getD 1 0
  let use0 := availableRun out stream0
  let use1 := availableRun out stream1
  let use := if use0 < use1 then use0 else use1
  let use := if use > samplesToGenerate then samplesToGenerate else use
  let s0 := sourceOf out stream0
  let s1 := sourceOf out stream1
  let count := use * out.numChannels
  if count < 0 then .undefinedBehaviour
  else
    let output := (List.range count.toNat).map fun (j : Nat) =>
      wrap16 (readSample mem (s0 + 2 * (j : Int)) + readSample mem (s1 + 2 * (j : Int)))
    let out := advance out stream0 use
    let out := advance out stream1 use
    (completeIfDone out stream0).bind fun out =>
    (completeIfDone out stream1).bind fun out =>
    .done (out, samplesToGenerate - use, output)

/-- One pass of the `switch` with `activeStreamCount == 3`. -/
def mixCase3 (mem : Memory) (out : modAudioOutRecord) (samplesToGenerate : Int) :
    Outcome (modAudioOutRecord × Int × List Int) :=
  let stream0 := out.activeStream.getD 0 0
  let stream1 := out.activeStream.getD 1 0
  let stream2 := out.activeStream.getD 2 0
  let use0 := availableRun out stream0
  let use1 := availableRun out stream1
  let use2 := availableRun out stream2
  let use := if use0 < use1 then use0 else use1
  let use := if use > use2 then use2 else use
  let use := if use > samplesToGenerate then samplesToGenerate else use
  let s0 := sourceOf out stream0
  let s1 := sourceOf out stream1
  let s2 := sourceOf out stream2
  let count := use * out.numChannels
  if count < 0 then .undefinedBehaviour
  else
    let output := (List.range count.toNat).map fun (j : Nat) =>
      wrap16 (readSample mem (s0 + 2 * (j : Int)) + readSample mem (s1 + 2 * (j : Int))
        + readSample mem (s2 + 2 * (j : Int)))
    let out := advance out stream0 use
    let out := advance out stream1 use
    let out := advance out stream2 use
    (completeIfDone out stream0).bind fun out =>
    (completeIfDone out stream1).bind fun out =>
    (completeIfDone out stream2).bind fun out =>
    .done (out, samplesToGenerate - use, output)

/-- One pass of the `switch` with `activeStreamCount == 4`. -/
def mixCase4 (mem : Memory) (out : modAudioOutRecord) (samplesToGenerate : Int) :
    Outcome (modAudioOutRecord × Int × List Int) :=
  let stream0 := out.activeStream.getD 0 0
  let stream1 := out.activeStream.getD 1 0
  let stream2 := out.activeStream.getD 2 0
  let stream3 := out.activeStream.getD 3 0
  let use0 := availableRun out stream0
  let use1 := availableRun out stream1
  let use2 := availableRun out stream2
  let use3 := availableRun out stream3
  let use := if use0 < use1 then use0 else use1
  let use := if use > use2 then use2 else use
  let use := if use > use3 then use3 else use
  let use := if use > samplesToGenerate then samplesToGenerate else use
  let s0 := sourceOf out stream0
  let s1 := sourceOf out stream1
  let s2 := sourceOf out stream2
  let s3 := sourceOf out stream3
  let count := use * out.numChannels
  if count < 0 then .undefinedBehaviour
  else
    let output := (List.range count.toNat).map fun (j : Nat) =>
      wrap16 (readSample mem (s0 + 2 * (j : Int)) + readSample mem (s1 + 2 * (j : Int))
        + readSample mem (s2 + 2 * (j : Int)) + readSample mem (s3 + 2 * (j : Int)))
    let out := advance out stream0 use
    let out := advance out stream1 use
    let out := advance out stream2 use
    let out := advance out stream3 use
    (completeIfDone out stream0).bind fun out =>
    (completeIfDone out stream1).bind fun out =>
    (completeIfDone out stream2).bind fun out =>
    (completeIfDone out stream3).bind fun out =>
    .done (out, samplesToGenerate - use, output)

/-- One pass of the body of `while (samplesToGenerate)` in `audioMix`: the state
afterwards, the new value of `samplesToGenerate` and the samples written to `output`.
When no `case` matches the count, the body changes nothing. -/
def audioMixStep (mem : Memory) (out : modAudioOutRecord) (samplesToGenerate : Int) :
    Outcome (modAudioOutRecord × Int × List Int) :=
  match out.activeStreamCount with
  | 0 => mixCase0 out samplesToGenerate
  | 1 => mixCase1 mem out samplesToGenerate
  | 2 => mixCase2 mem out samplesToGenerate
  | 3 => mixCase3 mem out samplesToGenerate
  | 4 => mixCase4 mem out samplesToGenerate
  | _ => .done (out, samplesToGenerate, [])

/-- The C function `audioMix`, with a bound `fuel` on the passes of its outer loop:
the state afterwards and all the samples written to `output`, in order. -/
def audioMix (mem : Memory) : Nat → modAudioOutRecord → Int →
    Outcome (modAudioOutRecord × List Int)
  | 0, out, samplesToGenerate =>
    if samplesToGenerate = 0 then .done (out, []) else .outOfFuel
  | fuel + 1, out, samplesToGenerate =>
    if samplesToGenerate = 0 then .done (out, [])
    else
      (audioMixStep mem out samplesToGenerate).bind fun r =>
      (audioMix mem fuel r.1 r.2.1).bind fun r2 =>
      .done (r2.1, r.2.2 ++ r2.2)

/-! ## xs_audioout_enqueue -/

/-- Host data of a buffer argument: its address and the fields of its 12-byte header. -/
structure AudioBuffer where
  address : Int
  magic0 : Nat
  magic1 : Nat
  magic2 : Nat
  bitsPerSample : Nat
  sampleRate : Nat
  numChannels : Nat
  bufferSamples : Int
deriving DecidableEq, Repr, Inhabited

/-- The arguments after the stream index, as `xs_audioout_enqueue` decodes them: none
(`argc == 1`), a number (`argc == 2`), or a buffer with `repeat`, `sampleOffset` and
`samplesToUse` (their values after lines 339-349: `1`, `0`, `-1` when omitted, repeat
`-1` for infinity). -/
inductive EnqueueArgs where
  | flush
  | callback (id : Int)
  | samples (buffer : AudioBuffer) (repeatCount sampleOffset samplesToUse : Int)
deriving DecidableEq, Repr

/-- The label `done:` of `xs_audioout_enqueue`: the slot `element[elementCount]` has been
written with `element`. -/
def enqueueDone (out : modAudioOutRecord) (stream : Nat) (element : modAudioQueueElementRecord) :
    Outcome modAudioOutRecord :=
  let s := out.streamAt stream
  if s.elementCount < 0 ∨ (MODDEF_AUDIOOUT_QUEUELENGTH : Int) ≤ s.elementCount then
    .undefinedBehaviour
  else
    let out := out.setStream stream
      { elementCount := s.elementCount + 1, element := s.element.set s.elementCount.toNat element }
    .done (if (out.streamAt stream).elementCount = 1 then updateActiveStreams out else out)

/-- The C function `xs_audioout_enqueue`.  The arguments `stream`, `repeatCount`,
`sampleOffset`, `samplesToUse` and the header field `bufferSamples` are values of C `int`;
the sums, differences and products of lines 367, 368 and 377 are `int` arithmetic and wrap
around at 32 bits. -/
def xs_audioout_enqueue (out : modAudioOutRecord) (stream : Int) (args : EnqueueArgs) :
    Outcome modAudioOutRecord :=
  if stream < 0 ∨ stream ≥ out.streamCount then .thrown "invalid stream"
  else if (MODDEF_AUDIOOUT_QUEUELENGTH : Int) = (out.streamAt stream.toNat).elementCount then
    .thrown "queue full"
  else
    match args with
    | .flush =>
      .done (out.setStream stream.toNat { out.streamAt stream.toNat with elementCount := 0 })
    | .callback id =>
      enqueueDone out stream.toNat
        { samples := id, sampleCount := 0, position := 0, repeatCount := 1 }
    | .samples buffer repeatCount sampleOffset samplesToUse =>
      if buffer.magic0 ≠ 109 ∨ buffer.magic1 ≠ 97 ∨ buffer.magic2 ≠ 1 then .thrown "bad header"
      else if buffer.bitsPerSample ≠ out.bitsPerSample ∨ buffer.sampleRate ≠ out.sampleRate
          ∨ buffer.numChannels ≠ out.numChannels then
        .thrown "format doesn't match output"
      else if sampleOffset ≥ buffer.bufferSamples then .thrown "invalid offset"
      else
        let samplesToUse :=
          if samplesToUse < 0 ∨ wrap32 (sampleOffset + samplesToUse) > buffer.bufferSamples then
            wrap32 (buffer.bufferSamples - sampleOffset)
          else samplesToUse
        enqueueDone out stream.toNat
          { samples := buffer.address + 12 + wrap32 (sampleOffset * out.bytesPerFrame),
            sampleCount := samplesToUse, position := 0, repeatCount := repeatCount }

/-! ## Construction -/

/-- The state `xs_audioout` builds (`c_calloc` zeroes every field): `streamCount` empty streams. -/
def xs_audioout (sampleRate numChannels streamCount : Nat) : modAudioOutRecord :=
  { sampleRate := sampleRate
    numChannels := numChannels
    bitsPerSample := MODDEF_AUDIOOUT_BITSPERSAMPLE
    bytesPerFrame := (MODDEF_AUDIOOUT_BITSPERSAMPLE * numChannels) >>> 3
    activeStream := []
    pendingCallbacks := []
    stream := List.replicate streamCount
      { elementCount := 0, element := List.replicate MODDEF_AUDIOOUT_QUEUELENGTH default } }

/-! ## Well-formed states -/

/-- The queued elements of a stream: the first `elementCount` slots. -/
def live (s : modAudioOutStreamRecord) : List modAudioQueueElementRecord :=
  s.element.take s.elementCount.toNat

/-- A queued element is well formed when its position lies within its frames and, if it
is a callback marker (`sampleCount == 0`), its repeat count is 1. -/
def WellFormedElement (e : modAudioQueueElementRecord) : Prop :=
  0 ≤ e.position ∧ e.position ≤ e.sampleCount ∧ (e.sampleCount = 0 → e.repeatCount = 1)

instance (e : modAudioQueueElementRecord) : Decidable (WellFormedElement e) := by
  unfold WellFormedElement; infer_instance

/-- A stream is well formed when its count is within the capacity of its slot array and
every queued element is well formed. -/
def WellFormedStream (s : modAudioOutStreamRecord) : Prop :=
  0 ≤ s.elementCount ∧ s.elementCount ≤ MODDEF_AUDIOOUT_QUEUELENGTH
    ∧ s.element.length = MODDEF_AUDIOOUT_QUEUELENGTH ∧ ∀ e ∈ live s, WellFormedElement e

instance (s : modAudioOutStreamRecord) : Decidable (WellFormedStream s) := by
  unfold WellFormedStream; infer_instance

/-- A well-formed engine state: 16-bit frames, at most `MODDEF_AUDIOOUT_STREAMS` streams,
all of them well formed, and an active set that lists exactly the non-empty streams in
index order. -/
def WellFormed (out : modAudioOutRecord) : Prop :=
  out.bytesPerFrame = 2 * out.numChannels
    ∧ out.streamCount ≤ MODDEF_AUDIOOUT_STREAMS
    ∧ (∀ j, j < out.streamCount → WellFormedStream (out.streamAt j))
    ∧ out.activeStream = (updateActiveStreams out).activeStream

instance (out : modAudioOutRecord) : Decidable (WellFormed out) := by
  unfold WellFormed; infer_instance

/-! ## The mixing step as one generic sum -/

/-- Frames mixed in one pass: the minimum of the request and of the available runs of
the front elements of the listed streams. -/
def framesPerStep (out : modAudioOutRecord) (requested : Int) : List Nat → Int
  | [] => requested
  | i :: rest => min (availableRun out i) (framesPerStep out requested rest)

/-- The sample at index `j` (frame-major, channel-minor) of the generic mix of the front
elements of the listed streams at their current positions, with 16-bit wraparound. -/
def mixedSample (mem : Memory) (out : modAudioOutRecord) (streams : List Nat) (j : Nat) : Int :=
  wrap16 ((streams.map fun i => readSample mem (sourceOf out i + 2 * j)).sum)

/-- Advance the front elements of the listed streams, in order. -/
def advanceAll (out : modAudioOutRecord) (use : Int) : List Nat → modAudioOutRecord
  | [] => out
  | i :: rest => advanceAll (advance out i use) use rest

/-- Run the completion check of the listed streams, in order. -/
def completeAll (out : modAudioOutRecord) : List Nat → Outcome modAudioOutRecord
  | [] => .done out
  | i :: rest => (completeIfDone out i).bind fun out => completeAll out rest

/-- The mixing step written as one generic loop over the active set: every output sample
is the wrapped sum of the active front elements' samples. -/
def mixGeneric (mem : Memory) (out : modAudioOutRecord) (samplesToGenerate : Int) :
    Outcome (modAudioOutRecord × Int × List Int) :=
  let use := framesPerStep out samplesToGenerate out.activeStream
  let count := use * out.numChannels
  if count < 0 then .undefinedBehaviour
  else
    (completeAll (advanceAll out use out.activeStream) out.activeStream).bind fun out2 =>
    .done (out2, samplesToGenerate - use,
      (List.range count.toNat).map (mixedSample mem out out.activeStream))

/-! ## Progress measure of the outer loop -/

/-- Twice the number of queued elements, plus one when the front element is at its end. -/
def streamMeasure (s : modAudioOutStreamRecord) : Nat :=
  2 * s.elementCount.toNat + (if s.front.position = s.front.sampleCount then 1 else 0)

/-- Sum of the stream measures. -/
def engineMeasure (out : modAudioOutRecord) : Nat :=
  ((List.range out.streamCount).map fun j => streamMeasure (out.streamAt j)).sum

/-! ## Example engines -/

/-- Memory in which every 16-bit cell holds its own address. -/
def addressMemory : Memory := fun a => a

/-- A 4-frame mono buffer at address 1000 with a valid header. -/
def fourFrameBuffer : AudioBuffer :=
  { address := 1000, magic0 := 109, magic1 := 97, magic2 := 1, bitsPerSample := 16,
    sampleRate := 8000, numChannels := 1, bufferSamples := 4 }

/-- The state an outcome completed with (the fresh one-stream engine for any other outcome). -/
def Outcome.stateOr (r : Outcome modAudioOutRecord) : modAudioOutRecord :=
  match r with
  | .done s => s
  | _ => xs_audioout 8000 1 1

/-- One mono stream on which `fourFrameBuffer` was enqueued (repeat 1) and then flushed. -/
def flushedEngine : modAudioOutRecord :=
  ((xs_audioout_enqueue (xs_audioout 8000 1 1) 0 (.samples fourFrameBuffer 1 0 (-1))).bind
    fun s => xs_audioout_enqueue s 0 .flush).stateOr

/-- One mono stream on which a slice of zero frames of `fourFrameBuffer` was enqueued with
an infinite repeat (`enqueue(0, buffer, Infinity, 0, 0)`). -/
def zeroRunEngine : modAudioOutRecord :=
  (xs_audioout_enqueue (xs_audioout 8000 1 1) 0 (.samples fourFrameBuffer (-1) 0 0)).stateOr

/-- One mono stream holding `MODDEF_AUDIOOUT_QUEUELENGTH` callback markers. -/
def fullEngine : modAudioOutRecord :=
  ((List.range MODDEF_AUDIOOUT_QUEUELENGTH).foldl
    (fun (r : Outcome modAudioOutRecord) (id : Nat) =>
      r.bind fun s => xs_audioout_enqueue s 0 (.callback id))
    (.done (xs_audioout 8000 1 1))).stateOr

/-- A 2-frame mono buffer at address 2000 with a valid header. -/
def twoFrameBuffer : AudioBuffer :=
  { address := 2000, magic0 := 109, magic1 := 97, magic2 := 1, bitsPerSample := 16,
    sampleRate := 8000, numChannels := 1, bufferSamples := 2 }

/-- Two mono streams: `fourFrameBuffer` queued on stream 0, `twoFrameBuffer` on stream 1. -/
def twoStreamEngine : modAudioOutRecord :=
  ((xs_audioout_enqueue (xs_audioout 8000 1 2) 0 (.samples fourFrameBuffer 1 0 (-1))).bind
    fun s => xs_audioout_enqueue s 1 (.samples twoFrameBuffer 1 0 (-1))).stateOr

/-- One mono stream playing `fourFrameBuffer` with an infinite repeat, with a callback
marker queued behind it. -/
def loopingEngine : modAudioOutRecord :=
  ((xs_audioout_enqueue (xs_audioout 8000 1 1) 0 (.samples fourFrameBuffer (-1) 0 (-1))).bind
    fun s => xs_audioout_enqueue s 0 (.callback 5)).stateOr

/-- Two mono streams: callback marker 1 enqueued on stream 1, then callback marker 2
enqueued on stream 0. -/
def crossStreamEngine : modAudioOutRecord :=
  ((xs_audioout_enqueue (xs_audioout 8000 1 2) 1 (.callback 1)).bind
    fun s => xs_audioout_enqueue s 0 (.callback 2)).stateOr

/-- A 100-frame mono buffer at address 4000 with a valid header. -/
def hundredFrameBuffer : AudioBuffer :=
  { address := 4000, magic0 := 109, magic1 := 97, magic2 := 1, bitsPerSample := 16,
    sampleRate := 8000, numChannels := 1, bufferSamples := 100 }

/-- A 50-frame mono buffer at address 5000 with a valid header. -/
def fiftyFrameBuffer : AudioBuffer :=
  { address := 5000, magic0 := 109, magic1 := 97, magic2 := 1, bitsPerSample := 16,
    sampleRate := 8000, numChannels := 1, bufferSamples := 50 }

/-- Two mono streams: `hundredFrameBuffer` queued on stream 0 and `fiftyFrameBuffer` on
stream 1, both with repeat 1. -/
def duoEngine : modAudioOutRecord :=
  ((xs_audioout_enqueue (xs_audioout 8000 1 2) 0 (.samples hundredFrameBuffer 1 0 (-1))).bind
    fun s => xs_audioout_enqueue s 1 (.samples fiftyFrameBuffer 1 0 (-1))).stateOr

/-! ## Auxiliary predicates for the proofs -/

/-- The two states have the same configuration and the same number of streams. -/
def SameConfig (a b : modAudioOutRecord) : Prop :=
  b.numChannels = a.numChannels ∧ b.bytesPerFrame = a.bytesPerFrame
    ∧ b.stream.length = a.stream.length

/-- Condition on a stream at the head of the loop of `endOfElement`: it is non-empty, the
queued elements behind the front are well formed, and so is the front unless it is about
to be retired. -/
def RetireReady (s : modAudioOutStreamRecord) : Prop :=
  1 ≤ s.elementCount ∧ s.elementCount ≤ MODDEF_AUDIOOUT_QUEUELENGTH
    ∧ s.element.length = MODDEF_AUDIOOUT_QUEUELENGTH
    ∧ (∀ e ∈ (live s).drop 1, WellFormedElement e)
    ∧ (s.front.repeatCount ≠ 0 → WellFormedElement s.front)

/-- The front element as `endOfElement` rewrites it before its loop: position reset, repeat
count decremented, or zeroed when an infinite repeat is superseded by later samples. -/
def completedFront (s : modAudioOutStreamRecord) : modAudioQueueElementRecord :=
  if s.front.repeatCount < 0 then
    if laterSamplesQueued s then { s.front with position := 0, repeatCount := 0 }
    else { s.front with position := 0 }
  else
    { s.front with position := 0, repeatCount := s.front.repeatCount - 1 }

/-- Number of elements the loop of `endOfElement` retires from a queue: its leading
elements with a zero repeat count. -/
def retiredCount : List modAudioQueueElementRecord → Nat
  | [] => 0
  | e :: rest => if e.repeatCount = 0 then retiredCount rest + 1 else 0

/-- The pending identifiers after `queueCallback` has run for each callback marker among
the retired elements, in order. -/
def pendingAfter (pending : List Int) : List modAudioQueueElementRecord → List Int
  | [] => pending
  | e :: rest =>
    pendingAfter
      (if e.sampleCount = 0 then
        (if pending.length < MODDEF_AUDIOOUT_QUEUELENGTH then pending ++ [e.samples] else pending)
      else pending) rest

/-- The element `xs_audioout_enqueue` stores for a callback identifier. -/
def callbackMarker (id : Int) : modAudioQueueElementRecord :=
  { samples := id, sampleCount := 0, position := 0, repeatCount := 1 }

/-- Stream `i` holds exactly the callback markers `ids`, in order, and every other stream
is empty. -/
def MarkerQueue (out : modAudioOutRecord) (i : Nat) (ids : List Int) : Prop :=
  WellFormed out ∧ i < out.stream.length
    ∧ live (out.streamAt i) = ids.map callbackMarker
    ∧ (out.streamAt i).elementCount = ids.length
    ∧ ∀ j, j ≠ i → j < out.stream.length → (out.streamAt j).elementCount = 0

/-- Successive calls `enqueue(stream, id)` for the identifiers `ids`, in order. -/
def enqueueMarkers (out : modAudioOutRecord) (stream : Int) (ids : List Int) :
    Outcome modAudioOutRecord :=
  ids.foldl (fun (r : Outcome modAudioOutRecord) (id : Int) =>
    r.bind fun s => xs_audioout_enqueue s stream (.callback id)) (.done out)

/-- Stream `i` holds the single element `e` and every other stream is empty. -/
def SoleElement (out : modAudioOutRecord) (i : Nat) (e : modAudioQueueElementRecord) : Prop :=
  WellFormed out ∧ i < out.stream.length
    ∧ (out.streamAt i).elementCount = 1 ∧ live (out.streamAt i) = [e]
    ∧ ∀ j, j ≠ i → j < out.stream.length → (out.streamAt j).elementCount = 0

/-- Every stream is empty. -/
def AllEmpty (out : modAudioOutRecord) : Prop :=
  WellFormed out ∧ ∀ j, j < out.stream.length → (out.streamAt j).elementCount = 0

/-- Successive calls of `audioMix` by the sink, one per request: the final state and the
samples written by all the calls, in order. -/
def audioMixCalls (mem : Memory) (fuel : Nat) :
    modAudioOutRecord → List Int → Outcome (modAudioOutRecord × List Int)
  | out, [] => .done (out, [])
  | out, n :: rest =>
    (audioMix mem fuel out n).bind fun r =>
    (audioMixCalls mem fuel r.1 rest).bind fun r2 =>
    .done (r2.1, r.2 ++ r2.2)

/-- The label `done:` of `xs_audioout_enqueue` as a state transformer: the state the call
leaves and the way it ends. -/
def enqueueDoneState (out : modAudioOutRecord) (stream : Nat)
    (element : modAudioQueueElementRecord) : modAudioOutRecord × Outcome Unit :=
  let s := out.streamAt stream
  if s.elementCount < 0 ∨ (MODDEF_AUDIOOUT_QUEUELENGTH : Int) ≤ s.elementCount then
    (out, .undefinedBehaviour)
  else
    let out := out.setStream stream
      { elementCount := s.elementCount + 1, element := s.element.set s.elementCount.toNat element }
    (if (out.streamAt stream).elementCount = 1 then updateActiveStreams out else out, .done ())

/-- The C function `xs_audioout_enqueue` as a state transformer: the engine state when the
call ends and the way it ends.  A call that raises `xsRangeError` or `xsUnknownError` ends in
the state that the statements executed before the raise have produced. -/
def xs_audioout_enqueue_state (out : modAudioOutRecord) (stream : Int) (args : EnqueueArgs) :
    modAudioOutRecord × Outcome Unit :=
  if stream < 0 ∨ stream ≥ out.streamCount then (out, .thrown "invalid stream")
  else if (MODDEF_AUDIOOUT_QUEUELENGTH : Int) = (out.streamAt stream.toNat).elementCount then
    (out, .thrown "queue full")
  else
    match args with
    | .flush =>
      (out.setStream stream.toNat { out.streamAt stream.toNat with elementCount := 0 }, .done ())
    | .callback id =>
      enqueueDoneState out stream.toNat
        { samples := id, sampleCount := 0, position := 0, repeatCount := 1 }
    | .samples buffer repeatCount sampleOffset samplesToUse =>
      if buffer.magic0 ≠ 109 ∨ buffer.magic1 ≠ 97 ∨ buffer.magic2 ≠ 1 then
        (out, .thrown "bad header")
      else if buffer.bitsPerSample ≠ out.bitsPerSample ∨ buffer.sampleRate ≠ out.sampleRate
          ∨ buffer.numChannels ≠ out.numChannels then
        (out, .thrown "format doesn't match output")
      else if sampleOffset ≥ buffer.bufferSamples then (out, .thrown "invalid offset")
      else
        let samplesToUse :=
          if samplesToUse < 0 ∨ wrap32 (sampleOffset + samplesToUse) > buffer.bufferSamples then
            wrap32 (buffer.bufferSamples - sampleOffset)
          else samplesToUse
        enqueueDoneState out stream.toNat
          { samples := buffer.address + 12 + wrap32 (sampleOffset * out.bytesPerFrame),
            sampleCount := samplesToUse, position := 0, repeatCount := repeatCount }

/-! ## Reachable states and the condition between calls -/

/-- The engine states that calls of the constructor, of `enqueue` (any form), of `audioMix`
and of `deliverCallbacks` produce: the constructor accepts 1 or 2 channels and 1 to
`MODDEF_AUDIOOUT_STREAMS` streams; a call counts when it returns. -/
inductive Reachable : modAudioOutRecord → Prop where
  | construct (sampleRate numChannels streamCount : Nat)
      (hch : numChannels = 1 ∨ numChannels = 2)
      (hsc : 1 ≤ streamCount ∧ streamCount ≤ MODDEF_AUDIOOUT_STREAMS) :
      Reachable (xs_audioout sampleRate numChannels streamCount)
  | enqueue (out out2 : modAudioOutRecord) (stream : Int) (args : EnqueueArgs) :
      Reachable out → xs_audioout_enqueue out stream args = .done out2 → Reachable out2
  | mix (mem : Memory) (fuel : Nat) (out out2 : modAudioOutRecord) (n : Int)
      (output : List Int) :
      Reachable out → 0 ≤ n → audioMix mem fuel out n = .done (out2, output) → Reachable out2
  | deliver (out : modAudioOutRecord) : Reachable out → Reachable (deliverCallbacks out).1

/-- Condition on a stream between two statements of a pass of `audioMix`: the count is
within the slot array, every queued element has its position within its frames, and the
elements behind the front have not been played. -/
def QueueMid (s : modAudioOutStreamRecord) : Prop :=
  0 ≤ s.elementCount ∧ s.elementCount ≤ MODDEF_AUDIOOUT_QUEUELENGTH
    ∧ s.element.length = MODDEF_AUDIOOUT_QUEUELENGTH
    ∧ (∀ e ∈ live s, 0 ≤ e.position ∧ e.position ≤ e.sampleCount)
    ∧ (∀ e ∈ (live s).drop 1, e.position = 0)

/-- Condition on a stream between two calls: as `QueueMid`, and no queued buffer is at
its end. -/
def QueueSettled (s : modAudioOutStreamRecord) : Prop :=
  QueueMid s ∧ ∀ e ∈ live s, 0 < e.sampleCount → e.position < e.sampleCount

/-- Condition on the engine inside a pass of `audioMix`, the completion check of the
streams `todo` being still to run: 16-bit frames, at least one channel, at most
`MODDEF_AUDIOOUT_STREAMS` streams, every stream satisfies `QueueMid` and the streams not
in `todo` satisfy `QueueSettled`, the active set lists stream indices in ascending order
without repetition and includes every non-empty stream, and the pending queue holds at
most `MODDEF_AUDIOOUT_QUEUELENGTH` identifiers. -/
def MidPass (out : modAudioOutRecord) (todo : List Nat) : Prop :=
  out.bytesPerFrame = 2 * out.numChannels ∧ 1 ≤ out.numChannels
    ∧ out.stream.length ≤ MODDEF_AUDIOOUT_STREAMS
    ∧ (∀ j, j < out.stream.length → QueueMid (out.streamAt j))
    ∧ (∀ j, j < out.stream.length → j ∉ todo → QueueSettled (out.streamAt j))
    ∧ out.activeStream.Sublist (List.range out.stream.length)
    ∧ (∀ j, j < out.stream.length → (out.streamAt j).elementCount ≠ 0 → j ∈ out.activeStream)
    ∧ out.pendingCallbacks.length ≤ MODDEF_AUDIOOUT_QUEUELENGTH

/-- The condition on the engine between two calls: it holds on the fresh engine and is kept
by `audioMix` and by an enqueue that stores a frame count that is not negative. -/
def Consistent (out : modAudioOutRecord) : Prop := MidPass out []

/-- Stream `t` is stream `s` after `k` of its elements were retired: the count is `k` less
and the elements behind the front of `t` are the elements of `s` behind its first `k + 1`. -/
def Retired (s t : modAudioOutStreamRecord) (k : Nat) : Prop :=
  t.elementCount = s.elementCount - k ∧ (live t).drop 1 = (live s).drop (k + 1)

/-- Two mono streams: `fourFrameBuffer` queued on stream 0, `twoFrameBuffer` on stream 1,
then stream 0 flushed. -/
def flushedDuoEngine : modAudioOutRecord :=
  (xs_audioout_enqueue twoStreamEngine 0 .flush).stateOr

/-- One mono stream on which a slice of zero frames of `fourFrameBuffer` was enqueued with
repeat 3 (`enqueue(0, buffer, 3, 0, 0)`). -/
def emptySliceEngine : modAudioOutRecord :=
  (xs_audioout_enqueue (xs_audioout 8000 1 1) 0 (.samples fourFrameBuffer 3 0 0)).stateOr

/-- The statement `element->position += use;` on a stream. -/
def advanceStream (s : modAudioOutStreamRecord) (use : Int) : modAudioOutStreamRecord :=
  s.setFront { s.front with position := s.front.position + use }

/-- One mono stream on which `fourFrameBuffer` and then `twoFrameBuffer` were enqueued, both
with repeat 1. -/
def pairEngine : modAudioOutRecord :=
  ((xs_audioout_enqueue (xs_audioout 8000 1 1) 0 (.samples fourFrameBuffer 1 0 (-1))).bind
    fun s => xs_audioout_enqueue s 0 (.samples twoFrameBuffer 1 0 (-1))).stateOr

/-! ## One pass of the mixer on the queues alone -/

/-- The queues of the streams, in index order. -/
def queuesOf (out : modAudioOutRecord) : List (List modAudioQueueElementRecord) :=
  out.stream.map live

/-- Available runs of the front elements of the non-empty queues. -/
def runsOf (queues : List (List modAudioQueueElementRecord)) : List Int :=
  queues.filterMap fun q => q.head?.map fun e => e.sampleCount - e.position

/-- Source addresses of the front elements of the non-empty queues. -/
def sourcesOf (bytesPerFrame : Nat) (queues : List (List modAudioQueueElementRecord)) :
    List Int :=
  queues.filterMap fun q => q.head?.map fun e => e.position * bytesPerFrame + e.samples

/-- Frames mixed in one pass, from the queues: the minimum of the request and of the runs. -/
def useOf (n : Int) (queues : List (List modAudioQueueElementRecord)) : Int :=
  (runsOf queues).foldr min n

/-- The sample at index `j` of the wrapped sum of the sources. -/
def mixedOf (mem : Memory) (sources : List Int) (j : Nat) : Int :=
  wrap16 ((sources.map fun (s : Int) => readSample mem (s + 2 * j)).sum)

/-- The front element `e` of a queue with the elements `tail` behind it, as `endOfElement`
rewrites it before its loop. -/
def completedElement (e : modAudioQueueElementRecord) (tail : List modAudioQueueElementRecord) :
    modAudioQueueElementRecord :=
  if e.repeatCount < 0 then
    if tail.any fun x => decide (x.sampleCount ≠ 0) then { e with position := 0, repeatCount := 0 }
    else { e with position := 0 }
  else
    { e with position := 0, repeatCount := e.repeatCount - 1 }

/-- The statement `element->position += use;` on a queue. -/
def advanceQueue (use : Int) : List modAudioQueueElementRecord → List modAudioQueueElementRecord
  | [] => []
  | e :: tail => { e with position := e.position + use } :: tail

/-- The completion check of a pass on a queue. -/
def settleQueue : List modAudioQueueElementRecord → List modAudioQueueElementRecord
  | [] => []
  | e :: tail =>
    if e.position = e.sampleCount then
      (completedElement e tail :: tail).drop (retiredCount (completedElement e tail :: tail))
    else e :: tail

/-- One pass of the mixer on a queue. -/
def evolveQueue (use : Int) (q : List modAudioQueueElementRecord) :
    List modAudioQueueElementRecord :=
  settleQueue (advanceQueue use q)

/-- The engine with the stream records `streams` in place of its own and the active set
computed for them. -/
def withStreams (out : modAudioOutRecord) (streams : List modAudioOutStreamRecord) :
    modAudioOutRecord :=
  updateActiveStreams { out with stream := streams }

/-- The active set lists no empty stream.  This holds on the fresh engine and is kept by
the callback and buffer forms of enqueue and by `audioMix`, hence in every state of a
sequence of calls without a flush. -/
def ActiveExact (out : modAudioOutRecord) : Prop :=
  ∀ i ∈ out.activeStream, (out.streamAt i).elementCount ≠ 0

/-- One mono stream on which `fourFrameBuffer` was enqueued with repeat 1 from the start
offset -7, the frame count omitted (`enqueue(0, buffer, 1, -7)`). -/
def negativeOffsetEngine : modAudioOutRecord :=
  (xs_audioout_enqueue (xs_audioout 8000 1 1) 0 (.samples fourFrameBuffer 1 (-7) (-1))).stateOr

/-! ## The counts invariant and the markers the mixer retires -/

/-- The count of a stream is within its slot array of `MODDEF_AUDIOOUT_QUEUELENGTH` slots. -/
def QueueCounts (s : modAudioOutStreamRecord) : Prop :=
  0 ≤ s.elementCount ∧ s.elementCount ≤ MODDEF_AUDIOOUT_QUEUELENGTH
    ∧ s.element.length = MODDEF_AUDIOOUT_QUEUELENGTH

/-- The part of the invariant of the engine that does not depend on the frame counts of the
queued elements: 16-bit frames, at most `MODDEF_AUDIOOUT_STREAMS` streams with counts
within their slot arrays, an active set that lists stream indices in ascending order
without repetition and includes every non-empty stream, and at most
`MODDEF_AUDIOOUT_QUEUELENGTH` pending identifiers. -/
def CountsOK (out : modAudioOutRecord) : Prop :=
  out.bytesPerFrame = 2 * out.numChannels
    ∧ out.stream.length ≤ MODDEF_AUDIOOUT_STREAMS
    ∧ (∀ j, j < out.stream.length → QueueCounts (out.streamAt j))
    ∧ out.activeStream.Sublist (List.range out.stream.length)
    ∧ (∀ j, j < out.stream.length → (out.streamAt j).elementCount ≠ 0 → j ∈ out.activeStream)
    ∧ out.pendingCallbacks.length ≤ MODDEF_AUDIOOUT_QUEUELENGTH

/-- Every queued element of every stream has its position within its frames, no queued
buffer is at its end and the elements behind a front have not been played. -/
def PositionsSettled (out : modAudioOutRecord) : Prop :=
  1 ≤ out.numChannels ∧ ∀ j, j < out.stream.length → QueueSettled (out.streamAt j)

/-- The identifiers of the callback markers of a queue (its elements with
`sampleCount == 0`), in queue order. -/
def markerIds (q : List modAudioQueueElementRecord) : List Int :=
  (q.filter fun e => decide (e.sampleCount = 0)).map fun e => e.samples

/-- The pending identifiers after `queueCallback` has run for each of `ids`, in order: an
identifier is appended unless `MODDEF_AUDIOOUT_QUEUELENGTH` identifiers are pending. -/
def queueAll (pending : List Int) (ids : List Int) : List Int :=
  ids.foldl
    (fun (p : List Int) (id : Int) =>
      if p.length < MODDEF_AUDIOOUT_QUEUELENGTH then p ++ [id] else p)
    pending

/-- From state `a` to state `b` the mixer has retired the callback markers `retired`, listed
in order of retirement, each with the index of its stream: on every stream the markers
queued in `a` are the markers retired from that stream, in the order of their retirement,
followed by the markers still queued in `b`; and `queueCallback` has run once for each
retired marker, in order of retirement. -/
def MarkersRetired (a b : modAudioOutRecord) (retired : List (Nat × Int)) : Prop :=
  (∀ j, markerIds (live (a.streamAt j))
      = ((retired.filter fun r => decide (r.1 = j)).map fun r => r.2)
        ++ markerIds (live (b.streamAt j)))
    ∧ b.pendingCallbacks = queueAll a.pendingCallbacks (retired.map fun r => r.2)

/-- One mono stream on which `fourFrameBuffer` was enqueued with repeat 1 from the start
offset -2147483648, the frame count omitted (`enqueue(0, buffer, 1, -2147483648)`). -/
def wrappedCountEngine : modAudioOutRecord :=
  (xs_audioout_enqueue (xs_audioout 8000 1 1) 0
    (.samples fourFrameBuffer 1 (-2147483648) (-1))).stateOr

/-- One mono stream on which `fourFrameBuffer` was enqueued with repeat 1 from the start
offset 1 with a frame count of 2147483647 (`enqueue(0, buffer, 1, 1, 2147483647)`). -/
def overlongCountEngine : modAudioOutRecord :=
  (xs_audioout_enqueue (xs_audioout 8000 1 1) 0
    (.samples fourFrameBuffer 1 1 2147483647)).stateOr

/-- The state `audioMix(1)` leaves `crossStreamEngine` in. -/
def crossStreamMixed : modAudioOutRecord :=
  ((audioMix addressMemory 3 crossStreamEngine 1).bind fun r => .done r.1).stateOr

/-! ## Reading and writing streams -/

section Access

variable (out : modAudioOutRecord) (i j : Nat) (s : modAudioOutStreamRecord)
  (e : modAudioQueueElementRecord)

@[simp] theorem setStream_stream_length : (out.setStream i s).stream.length = out.stream.length := by
  simp [modAudioOutRecord.setStream]

@[simp] theorem setStream_streamCount : (out.setStream i s).streamCount = out.streamCount := by
  simp [modAudioOutRecord.streamCount]

@[simp] theorem setStream_activeStream : (out.setStream i s).activeStream = out.activeStream := rfl

@[simp] theorem setStream_pendingCallbacks :
    (out.setStream i s).pendingCallbacks = out.pendingCallbacks := rfl

@[simp] theorem setStream_numChannels : (out.setStream i s).numChannels = out.numChannels := rfl

@[simp] theorem setStream_bytesPerFrame : (out.setStream i s).bytesPerFrame = out.bytesPerFrame := rfl

@[simp] theorem setStream_sampleRate : (out.setStream i s).sampleRate = out.sampleRate := rfl

@[simp] theorem setStream_bitsPerSample : (out.setStream i s).bitsPerSample = out.bitsPerSample := rfl

theorem streamAt_setStream_self (h : i < out.stream.length) :
    (out.setStream i s).streamAt i = s := by
  simp [modAudioOutRecord.setStream, modAudioOutRecord.streamAt, List.getD_eq_getElem?_getD, h]

theorem streamAt_setStream_ne (h : j ≠ i) :
    (out.setStream i s).streamAt j = out.streamAt j := by
  simp [modAudioOutRecord.setStream, modAudioOutRecord.streamAt, List.getD_eq_getElem?_getD,
    List.getElem?_set_ne (Ne.symm h)]

theorem streamAt_setStream :
    (out.setStream i s).streamAt j
      = if j = i ∧ i < out.stream.length then s else out.streamAt j := by
  by_cases hji : j = i
  · subst hji
    by_cases hlt : j < out.stream.length
    · simp [streamAt_setStream_self, hlt]
    · have h1 : (out.stream.set j s)[j]? = none :=
        List.getElem?_eq_none (by simpa using not_lt.mp hlt)
      have h2 : out.stream[j]? = none := List.getElem?_eq_none (not_lt.mp hlt)
      simp [hlt, modAudioOutRecord.setStream, modAudioOutRecord.streamAt,
        List.getD_eq_getElem?_getD, h1, h2]
  · simp [hji, streamAt_setStream_ne]

@[simp] theorem setFront_elementCount : (s.setFront e).elementCount = s.elementCount := rfl

@[simp] theorem setFront_element_length : (s.setFront e).element.length = s.element.length := by
  simp [modAudioOutStreamRecord.setFront]

theorem front_setFront (h : 0 < s.element.length) : (s.setFront e).front = e := by
  simp [modAudioOutStreamRecord.setFront, modAudioOutStreamRecord.front,
    List.getD_eq_getElem?_getD, h]

@[simp] theorem setFrontOf_stream_length :
    (out.setFrontOf i e).stream.length = out.stream.length := by
  simp [modAudioOutRecord.setFrontOf]

@[simp] theorem setFrontOf_streamCount : (out.setFrontOf i e).streamCount = out.streamCount := by
  simp [modAudioOutRecord.streamCount]

@[simp] theorem setFrontOf_activeStream : (out.setFrontOf i e).activeStream = out.activeStream := rfl

@[simp] theorem setFrontOf_pendingCallbacks :
    (out.setFrontOf i e).pendingCallbacks = out.pendingCallbacks := rfl

@[simp] theorem setFrontOf_numChannels : (out.setFrontOf i e).numChannels = out.numChannels := rfl

@[simp] theorem setFrontOf_bytesPerFrame :
    (out.setFrontOf i e).bytesPerFrame = out.bytesPerFrame := rfl

@[simp] theorem setFrontOf_sampleRate : (out.setFrontOf i e).sampleRate = out.sampleRate := rfl

@[simp] theorem setFrontOf_bitsPerSample :
    (out.setFrontOf i e).bitsPerSample = out.bitsPerSample := rfl

theorem streamAt_setFrontOf_self (h : i < out.stream.length) :
    (out.setFrontOf i e).streamAt i = (out.streamAt i).setFront e := by
  simp [modAudioOutRecord.setFrontOf, streamAt_setStream_self, h]

theorem streamAt_setFrontOf_ne (h : j ≠ i) :
    (out.setFrontOf i e).streamAt j = out.streamAt j := by
  simp [modAudioOutRecord.setFrontOf, streamAt_setStream_ne, h]

@[simp] theorem setFrontOf_elementCount :
    ((out.setFrontOf i e).streamAt j).elementCount = (out.streamAt j).elementCount := by
  unfold modAudioOutRecord.setFrontOf
  rw [streamAt_setStream]
  split
  · next h => rw [h.1]; rfl
  · rfl

@[simp] theorem setFrontOf_element_length :
    ((out.setFrontOf i e).streamAt j).element.length = (out.streamAt j).element.length := by
  unfold modAudioOutRecord.setFrontOf
  rw [streamAt_setStream]
  split
  · next h => rw [h.1]; simp
  · rfl

@[simp] theorem updateActiveStreams_stream : (updateActiveStreams out).stream = out.stream := rfl

@[simp] theorem updateActiveStreams_streamAt :
    (updateActiveStreams out).streamAt j = out.streamAt j := rfl

@[simp] theorem updateActiveStreams_streamCount :
    (updateActiveStreams out).streamCount = out.streamCount := rfl

@[simp] theorem updateActiveStreams_pendingCallbacks :
    (updateActiveStreams out).pendingCallbacks = out.pendingCallbacks := rfl

@[simp] theorem updateActiveStreams_numChannels :
    (updateActiveStreams out).numChannels = out.numChannels := rfl

@[simp] theorem updateActiveStreams_bytesPerFrame :
    (updateActiveStreams out).bytesPerFrame = out.bytesPerFrame := rfl

@[simp] theorem queueCallback_stream (id : Int) : (queueCallback out id).stream = out.stream := by
  unfold queueCallback; split <;> rfl

@[simp] theorem queueCallback_streamAt (id : Int) :
    (queueCallback out id).streamAt j = out.streamAt j := by
  unfold queueCallback; split <;> rfl

@[simp] theorem queueCallback_activeStream (id : Int) :
    (queueCallback out id).activeStream = out.activeStream := by
  unfold queueCallback; split <;> rfl

@[simp] theorem queueCallback_numChannels (id : Int) :
    (queueCallback out id).numChannels = out.numChannels := by
  unfold queueCallback; split <;> rfl

@[simp] theorem queueCallback_bytesPerFrame (id : Int) :
    (queueCallback out id).bytesPerFrame = out.bytesPerFrame := by
  unfold queueCallback; split <;> rfl

end Access

/-! ## Queued elements and the retire loop -/

theorem SameConfig.refl (a : modAudioOutRecord) : SameConfig a a := ⟨rfl, rfl, rfl⟩

theorem SameConfig.trans {a b c : modAudioOutRecord} (h1 : SameConfig a b) (h2 : SameConfig b c) :
    SameConfig a c :=
  ⟨h2.1.trans h1.1, h2.2.1.trans h1.2.1, h2.2.2.trans h1.2.2⟩

theorem live_eq_cons (s : modAudioOutStreamRecord) (hc : 1 ≤ s.elementCount)
    (hl : 0 < s.element.length) : live s = s.front :: (live s).drop 1 := by
  unfold live modAudioOutStreamRecord.front
  obtain ⟨n, hn⟩ : ∃ n, s.elementCount.toNat = n + 1 := ⟨s.elementCount.toNat - 1, by omega⟩
  rw [hn]
  cases hel : s.element with
  | nil => simp [hel] at hl
  | cons a t => simp

theorem front_mem_live (s : modAudioOutStreamRecord) (hc : 1 ≤ s.elementCount)
    (hl : 0 < s.element.length) : s.front ∈ live s := by
  rw [live_eq_cons s hc hl]; simp

theorem memcpyElements_length (els : List modAudioQueueElementRecord) (count : Nat)
    (h : count < els.length) : (memcpyElements els count).length = els.length := by
  simp [memcpyElements]; omega

theorem take_memcpyElements (els : List modAudioQueueElementRecord) (count : Nat)
    (h : count < els.length) :
    (memcpyElements els count).take count = (els.take (count + 1)).drop 1 := by
  unfold memcpyElements
  rw [List.take_left' (by simp; omega), List.take_drop, Nat.add_comm]

theorem retireLoop_spec : ∀ (fuel : Nat) (out : modAudioOutRecord) (i : Nat),
    i < out.stream.length → RetireReady (out.streamAt i) →
    (out.streamAt i).elementCount.toNat ≤ fuel →
    ∃ out2, retireLoop fuel out i = .done out2 ∧ SameConfig out out2
      ∧ (∀ j, j ≠ i → out2.streamAt j = out.streamAt j)
      ∧ WellFormedStream (out2.streamAt i)
      ∧ live (out2.streamAt i)
          = (live (out.streamAt i)).drop (retiredCount (live (out.streamAt i)))
      ∧ (out2.streamAt i).elementCount
          = (out.streamAt i).elementCount - retiredCount (live (out.streamAt i))
      ∧ out2.pendingCallbacks = pendingAfter out.pendingCallbacks
          ((live (out.streamAt i)).take (retiredCount (live (out.streamAt i))))
      ∧ ((out.frontOf i).repeatCount ≠ 0 → out2 = out)
      ∧ ((out2.activeStream = out.activeStream ∧ (out2.streamAt i).elementCount ≠ 0)
          ∨ out2.activeStream = (updateActiveStreams out2).activeStream) := by
  intro fuel
  induction fuel with
  | zero =>
    intro out i _ hr hf
    have := hr.1
    omega
  | succ fuel ih =>
    intro out i hi hr hf
    obtain ⟨hc1, hc8, hlen, htail, hfront⟩ := hr
    have hlen0 : 0 < (out.streamAt i).element.length := by
      rw [hlen]; decide
    have hcons := live_eq_cons (out.streamAt i) hc1 hlen0
    rw [retireLoop]
    by_cases hrep : (out.streamAt i).front.repeatCount ≠ 0
    · simp only [hrep, ne_eq, not_false_eq_true, if_true]
      have hk0 : retiredCount (live (out.streamAt i)) = 0 := by
        rw [hcons, retiredCount, if_neg hrep]
      rw [hk0]
      refine ⟨out, rfl, SameConfig.refl _, fun _ _ => rfl, ?_, by simp, by simp, by simp [pendingAfter],
        fun _ => rfl, Or.inl ⟨rfl, by omega⟩⟩
      refine ⟨by omega, hc8, hlen, ?_⟩
      intro e he
      rw [hcons] at he
      rcases List.mem_cons.mp he with h | h
      · rw [h]; exact hfront hrep
      · exact htail e h
    · have hrep0 : (out.streamAt i).front.repeatCount = 0 := not_not.mp hrep
      simp only [hrep0, ne_eq, not_true_eq_false, if_false]
      have hfr0 : (out.frontOf i).repeatCount = 0 := hrep0
      have hk1 : retiredCount (live (out.streamAt i))
          = retiredCount ((live (out.streamAt i)).drop 1) + 1 := by
        conv_lhs => rw [hcons, retiredCount, if_pos hrep0]
      obtain ⟨out1, hout1, h1s, h1a, h1n, h1b, h1p⟩ : ∃ out1 : modAudioOutRecord,
          (if (out.streamAt i).front.sampleCount = 0
            then queueCallback out (out.streamAt i).front.samples else out) = out1
          ∧ out1.stream = out.stream ∧ out1.activeStream = out.activeStream
          ∧ out1.numChannels = out.numChannels ∧ out1.bytesPerFrame = out.bytesPerFrame
          ∧ out1.pendingCallbacks = pendingAfter out.pendingCallbacks [(out.streamAt i).front] := by
        refine ⟨_, rfl, ?_, ?_, ?_, ?_, ?_⟩
        · split <;> simp
        · split <;> simp
        · split <;> simp
        · split <;> simp
        · by_cases hs : (out.streamAt i).front.sampleCount = 0
          · simp only [hs, if_true, pendingAfter, queueCallback,
              modAudioOutRecord.pendingCallbackCount]
            split <;> rfl
          · simp only [hs, if_false, pendingAfter]
      rw [hout1]
      have h1at : ∀ j, out1.streamAt j = out.streamAt j := by
        intro j; simp [modAudioOutRecord.streamAt, h1s]
      have hi1 : i < out1.stream.length := by rw [h1s]; exact hi
      have hq : (MODDEF_AUDIOOUT_QUEUELENGTH : Int) = 8 := rfl
      have hq2 : MODDEF_AUDIOOUT_QUEUELENGTH = 8 := rfl
      by_cases hcount : (out.streamAt i).elementCount - 1 = 0
      · -- the last queued element is retired
        simp only [hcount, not_true_eq_false, if_false]
        have hlive1 : (live (out.streamAt i)).drop 1 = [] := by
          have h1 : (out.streamAt i).elementCount.toNat = 1 := by omega
          simp only [live, h1]
          cases (out.streamAt i).element <;> simp
        have hk : retiredCount (live (out.streamAt i)) = 1 := by
          rw [hk1, hlive1]; rfl
        rw [hk]
        refine ⟨_, rfl, ⟨by simp [h1n], by simp [h1b], by simp [h1s]⟩, ?_, ?_, ?_, ?_, ?_,
          fun h => absurd hfr0 h, Or.inr rfl⟩
        · intro j hj
          rw [updateActiveStreams_streamAt, streamAt_setStream_ne _ _ _ _ hj, h1at]
        · rw [updateActiveStreams_streamAt, streamAt_setStream_self _ _ _ hi1]
          refine ⟨le_refl 0, ?_, hlen, ?_⟩
          · show (0 : Int) ≤ MODDEF_AUDIOOUT_QUEUELENGTH
            rw [hq]; decide
          · intro e he
            simp [live] at he
        · rw [updateActiveStreams_streamAt, streamAt_setStream_self _ _ _ hi1, hlive1]
          simp [live]
        · rw [updateActiveStreams_streamAt, streamAt_setStream_self _ _ _ hi1]
          simp only [Nat.cast_one]; omega
        · rw [updateActiveStreams_pendingCallbacks, setStream_pendingCallbacks, h1p]
          conv_rhs => rw [hcons]
          simp
      · simp only [hcount, not_false_eq_true, if_true]
        have hnb : ¬((out.streamAt i).elementCount - 1 < 0 ∨
            (MODDEF_AUDIOOUT_QUEUELENGTH : Int) ≤ (out.streamAt i).elementCount - 1) := by
          rw [hq] at hc8 ⊢; omega
        simp only [hnb, if_false]
        obtain ⟨c, hc⟩ : ∃ c : Nat, ((out.streamAt i).elementCount - 1).toNat = c := ⟨_, rfl⟩
        have hclt : c < (out.streamAt i).element.length := by
          rw [hlen, hq2]; rw [hq] at hc8; omega
        have hc1' : (out.streamAt i).elementCount.toNat = c + 1 := by omega
        have hlive2 : live ⟨(out.streamAt i).elementCount - 1,
            memcpyElements (out.streamAt i).element c⟩ = (live (out.streamAt i)).drop 1 := by
          simp only [live, hc, hc1']
          exact take_memcpyElements _ _ hclt
        rw [hc]
        have hready : RetireReady ((out1.setStream i ⟨(out.streamAt i).elementCount - 1,
            memcpyElements (out.streamAt i).element c⟩).streamAt i) := by
          rw [streamAt_setStream_self _ _ _ hi1]
          have hcpos : 1 ≤ (out.streamAt i).elementCount - 1 := by omega
          have hl2 : 0 < (memcpyElements (out.streamAt i).element c).length := by
            rw [memcpyElements_length _ _ hclt]; exact hlen0
          refine ⟨hcpos, ?_, ?_, ?_, ?_⟩
          · show (out.streamAt i).elementCount - 1 ≤ (MODDEF_AUDIOOUT_QUEUELENGTH : Int)
            omega
          · show (memcpyElements (out.streamAt i).element c).length = _
            rw [memcpyElements_length _ _ hclt]; exact hlen
          · intro e he
            rw [hlive2] at he
            exact htail e (List.mem_of_mem_drop he)
          · intro _
            apply htail
            rw [← hlive2]
            exact front_mem_live _ hcpos hl2
        obtain ⟨out2, hrun, hcfg, hothers, hwfs, hl1, hl2, hl3, _, hact⟩ :=
          ih _ i (by simpa using hi1) hready (by
            rw [streamAt_setStream_self _ _ _ hi1]; simp only; omega)
        rw [streamAt_setStream_self _ _ _ hi1, hlive2] at hl1 hl2 hl3
        rw [hk1]
        refine ⟨out2, hrun, ?_, ?_, hwfs, ?_, ?_, ?_, fun h => absurd hfr0 h, ?_⟩
        · obtain ⟨a, b, c'⟩ := hcfg
          exact ⟨by simpa [h1n] using a, by simpa [h1b] using b, by simpa [h1s] using c'⟩
        · intro j hj
          rw [hothers j hj, streamAt_setStream_ne _ _ _ _ hj, h1at]
        · rw [hl1, List.drop_drop, Nat.add_comm]
        · rw [hl2]; push_cast; omega
        · rw [hl3, setStream_pendingCallbacks, h1p]
          conv_rhs => rw [hcons]
          simp only [List.take_succ_cons, pendingAfter, List.drop_succ_cons, List.drop_zero]
        · simpa [h1a] using hact

/-! ## endOfElement on a well-formed stream -/

theorem endOfElement_eq (out : modAudioOutRecord) (i : Nat) :
    endOfElement out i
      = retireLoop (MODDEF_AUDIOOUT_QUEUELENGTH + 1)
          (out.setFrontOf i (completedFront (out.streamAt i))) i := by
  unfold endOfElement completedFront
  simp only

theorem live_setFront (s : modAudioOutStreamRecord) (e : modAudioQueueElementRecord)
    (hc : 1 ≤ s.elementCount) (hl : 0 < s.element.length) :
    live (s.setFront e) = e :: (live s).drop 1 := by
  unfold live modAudioOutStreamRecord.setFront
  obtain ⟨n, hn⟩ : ∃ n, s.elementCount.toNat = n + 1 := ⟨s.elementCount.toNat - 1, by omega⟩
  simp only [hn]
  cases hel : s.element with
  | nil => simp [hel] at hl
  | cons a t => simp

theorem completedFront_sampleCount (s : modAudioOutStreamRecord) :
    (completedFront s).sampleCount = s.front.sampleCount := by
  unfold completedFront
  split <;> [split; skip] <;> rfl

theorem completedFront_position (s : modAudioOutStreamRecord) :
    (completedFront s).position = 0 := by
  unfold completedFront
  split <;> [split; skip] <;> rfl

theorem completedFront_samples (s : modAudioOutStreamRecord) :
    (completedFront s).samples = s.front.samples := by
  unfold completedFront
  split <;> [split; skip] <;> rfl

theorem completedFront_repeat_of_marker (s : modAudioOutStreamRecord)
    (h : s.front.repeatCount = 1) : (completedFront s).repeatCount = 0 := by
  unfold completedFront
  rw [h]
  simp

theorem endOfElement_spec (out : modAudioOutRecord) (i : Nat) (hi : i < out.stream.length)
    (hwfs : WellFormedStream (out.streamAt i)) (hc1 : 1 ≤ (out.streamAt i).elementCount) :
    ∃ out2, endOfElement out i = .done out2 ∧ SameConfig out out2
      ∧ (∀ j, j ≠ i → out2.streamAt j = out.streamAt j)
      ∧ WellFormedStream (out2.streamAt i)
      ∧ live (out2.streamAt i)
          = (completedFront (out.streamAt i) :: (live (out.streamAt i)).drop 1).drop
              (retiredCount (completedFront (out.streamAt i) :: (live (out.streamAt i)).drop 1))
      ∧ (out2.streamAt i).elementCount = (out.streamAt i).elementCount
          - retiredCount (completedFront (out.streamAt i) :: (live (out.streamAt i)).drop 1)
      ∧ out2.pendingCallbacks = pendingAfter out.pendingCallbacks
          ((completedFront (out.streamAt i) :: (live (out.streamAt i)).drop 1).take
            (retiredCount (completedFront (out.streamAt i) :: (live (out.streamAt i)).drop 1)))
      ∧ ((completedFront (out.streamAt i)).repeatCount ≠ 0
          → out2 = out.setFrontOf i (completedFront (out.streamAt i)))
      ∧ ((out2.activeStream = out.activeStream ∧ (out2.streamAt i).elementCount ≠ 0)
          ∨ out2.activeStream = (updateActiveStreams out2).activeStream)
      ∧ streamMeasure (out2.streamAt i) ≤ 2 * (out.streamAt i).elementCount.toNat := by
  obtain ⟨hc0, hc8, hlen, hlive⟩ := hwfs
  have hq2 : MODDEF_AUDIOOUT_QUEUELENGTH = 8 := rfl
  have hlen0 : 0 < (out.streamAt i).element.length := by rw [hlen, hq2]; decide
  have hfrontwf : WellFormedElement (out.streamAt i).front :=
    hlive _ (front_mem_live _ hc1 hlen0)
  have hsat : (out.setFrontOf i (completedFront (out.streamAt i))).streamAt i
      = (out.streamAt i).setFront (completedFront (out.streamAt i)) :=
    streamAt_setFrontOf_self _ _ _ hi
  have hfr : ((out.streamAt i).setFront (completedFront (out.streamAt i))).front
      = completedFront (out.streamAt i) := front_setFront _ _ hlen0
  have hlv := live_setFront (out.streamAt i) (completedFront (out.streamAt i)) hc1 hlen0
  have hcfwf : (completedFront (out.streamAt i)).repeatCount ≠ 0 →
      WellFormedElement (completedFront (out.streamAt i)) := by
    intro hne
    refine ⟨?_, ?_, ?_⟩
    · rw [completedFront_position]
    · rw [completedFront_position, completedFront_sampleCount]
      exact le_trans hfrontwf.1 hfrontwf.2.1
    · intro h0
      rw [completedFront_sampleCount] at h0
      exact absurd (completedFront_repeat_of_marker _ (hfrontwf.2.2 h0)) hne
  have hready : RetireReady ((out.setFrontOf i (completedFront (out.streamAt i))).streamAt i) := by
    rw [hsat]
    refine ⟨hc1, hc8, by simpa using hlen, ?_, ?_⟩
    · intro e he
      rw [hlv] at he
      simp only [List.drop_succ_cons, List.drop_zero] at he
      exact hlive e (List.mem_of_mem_drop he)
    · rw [hfr]; exact hcfwf
  obtain ⟨out2, hrun, hcfg, hothers, hwfs2, hk1, hk2, hk3, hsame, hact⟩ :=
    retireLoop_spec (MODDEF_AUDIOOUT_QUEUELENGTH + 1) _ i (by simpa using hi) hready (by
      rw [hsat]; simp only [setFront_elementCount, hq2]; rw [hq2] at hc8; omega)
  rw [hsat, hlv] at hk1 hk2 hk3
  simp only [setFront_elementCount, setFrontOf_pendingCallbacks] at hk2 hk3
  have hfo : (out.setFrontOf i (completedFront (out.streamAt i))).frontOf i
      = completedFront (out.streamAt i) := by
    unfold modAudioOutRecord.frontOf; rw [hsat, hfr]
  rw [hfo] at hsame
  refine ⟨out2, by rw [endOfElement_eq]; exact hrun, ?_, ?_, hwfs2, hk1, hk2, hk3, hsame,
    ?_, ?_⟩
  · exact ⟨by simpa using hcfg.1, by simpa using hcfg.2.1, by simpa using hcfg.2.2⟩
  · intro j hj
    rw [hothers j hj, streamAt_setFrontOf_ne _ _ _ _ hj]
  · simpa using hact
  · by_cases hrep : (completedFront (out.streamAt i)).repeatCount = 0
    · have hk : 1 ≤ retiredCount
          (completedFront (out.streamAt i) :: (live (out.streamAt i)).drop 1) := by
        rw [retiredCount, if_pos hrep]; omega
      unfold streamMeasure
      rw [hk2]
      split <;> omega
    · rw [hsame hrep, hsat]
      unfold streamMeasure
      rw [hfr, completedFront_position, setFront_elementCount]
      have hwf := hcfwf hrep
      have hne : (completedFront (out.streamAt i)).sampleCount ≠ 0 := by
        intro h0
        rw [completedFront_sampleCount] at h0
        exact hrep (completedFront_repeat_of_marker _ (hfrontwf.2.2 h0))
      rw [if_neg (fun h => hne h.symm)]
      omega

/-! ## Well-formedness is preserved by the completion checks -/

theorem updateActiveStreams_congr (a b : modAudioOutRecord)
    (hlen : b.stream.length = a.stream.length)
    (h : ∀ j, j < a.stream.length →
      ((b.streamAt j).elementCount = 0 ↔ (a.streamAt j).elementCount = 0)) :
    (updateActiveStreams b).activeStream = (updateActiveStreams a).activeStream := by
  unfold updateActiveStreams modAudioOutRecord.streamCount
  simp only [hlen]
  apply List.filter_congr
  intro j hj
  have hj' : j < a.stream.length := List.mem_range.mp hj
  simp only [ne_eq, decide_not, h j hj']

theorem completeIfDone_spec (out : modAudioOutRecord) (i : Nat) (hwf : WellFormed out)
    (hi : i < out.stream.length) (hc1 : 1 ≤ (out.streamAt i).elementCount) :
    ∃ out2, completeIfDone out i = .done out2 ∧ WellFormed out2 ∧ SameConfig out out2
      ∧ (∀ j, j ≠ i → out2.streamAt j = out.streamAt j)
      ∧ streamMeasure (out2.streamAt i) ≤ streamMeasure (out.streamAt i)
      ∧ ((out.frontOf i).position = (out.frontOf i).sampleCount →
          streamMeasure (out2.streamAt i) < streamMeasure (out.streamAt i)) := by
  obtain ⟨hbpf, hsc, hstreams, hactive⟩ := hwf
  unfold completeIfDone
  by_cases hend : (out.frontOf i).position = (out.frontOf i).sampleCount
  · rw [if_pos hend]
    obtain ⟨out2, hrun, hcfg, hothers, hwfs2, _, _, _, _, hact, hm⟩ :=
      endOfElement_spec out i hi (hstreams i hi) hc1
    have hm1 : streamMeasure (out.streamAt i) = 2 * (out.streamAt i).elementCount.toNat + 1 := by
      unfold streamMeasure
      rw [if_pos (show (out.streamAt i).front.position = (out.streamAt i).front.sampleCount
        from hend)]
    refine ⟨out2, hrun, ⟨?_, ?_, ?_, ?_⟩, hcfg, hothers, by omega, fun _ => by omega⟩
    · rw [hcfg.2.1, hcfg.1]; exact hbpf
    · unfold modAudioOutRecord.streamCount; rw [hcfg.2.2]; exact hsc
    · intro j hj
      unfold modAudioOutRecord.streamCount at hj
      rw [hcfg.2.2] at hj
      by_cases hji : j = i
      · rw [hji]; exact hwfs2
      · rw [hothers j hji]; exact hstreams j hj
    · rcases hact with ⟨h1, h2⟩ | h
      · rw [h1, hactive]
        symm
        apply updateActiveStreams_congr _ _ hcfg.2.2
        intro j hj
        by_cases hji : j = i
        · rw [hji]
          constructor
          · intro h; exact absurd h h2
          · intro h; omega
        · rw [hothers j hji]
      · exact h
  · rw [if_neg hend]
    exact ⟨out, rfl, ⟨hbpf, hsc, hstreams, hactive⟩, SameConfig.refl _, fun _ _ => rfl,
      le_refl _, fun h => absurd h hend⟩

theorem completeAll_spec : ∀ (streams : List Nat) (out : modAudioOutRecord),
    WellFormed out → streams.Nodup →
    (∀ i ∈ streams, i < out.stream.length ∧ 1 ≤ (out.streamAt i).elementCount) →
    ∃ out2, completeAll out streams = .done out2 ∧ WellFormed out2 ∧ SameConfig out out2
      ∧ (∀ j, streamMeasure (out2.streamAt j) ≤ streamMeasure (out.streamAt j))
      ∧ (∀ i ∈ streams, (out.frontOf i).position = (out.frontOf i).sampleCount →
          streamMeasure (out2.streamAt i) < streamMeasure (out.streamAt i)) := by
  intro streams
  induction streams with
  | nil =>
    intro out hwf _ _
    exact ⟨out, rfl, hwf, SameConfig.refl _, fun _ => le_refl _, fun i hi => by simp at hi⟩
  | cons i rest ih =>
    intro out hwf hnd hvalid
    obtain ⟨hi, hc1⟩ := hvalid i (List.mem_cons_self _ _)
    obtain ⟨out1, hrun1, hwf1, hcfg1, hothers1, hle1, hlt1⟩ := completeIfDone_spec out i hwf hi hc1
    have hnd' := List.nodup_cons.mp hnd
    have hne : ∀ j ∈ rest, j ≠ i := fun j hj h => hnd'.1 (h ▸ hj)
    obtain ⟨out2, hrun2, hwf2, hcfg2, hle2, hlt2⟩ := ih out1 hwf1 hnd'.2 (by
      intro j hj
      rw [hothers1 j (hne j hj), hcfg1.2.2]
      exact hvalid j (List.mem_cons_of_mem _ hj))
    refine ⟨out2, ?_, hwf2, hcfg1.trans hcfg2, ?_, ?_⟩
    · simp only [completeAll, hrun1, Outcome.bind, hrun2]
    · intro j
      by_cases hji : j = i
      · rw [hji]; exact le_trans (hle2 i) hle1
      · have := hle2 j
        rw [hothers1 j hji] at this
        exact this
    · intro j hj hend
      rcases List.mem_cons.mp hj with h | h
      · rw [h] at hend ⊢
        exact lt_of_le_of_lt (hle2 i) (hlt1 hend)
      · have h2 := hlt2 j h
        unfold modAudioOutRecord.frontOf at h2 hend
        rw [hothers1 j (hne j h)] at h2
        exact h2 hend

/-! ## The unrolled cases agree with the generic mixing step -/

theorem wrap16_wrap16 (x : Int) : wrap16 (wrap16 x) = wrap16 x := by
  unfold wrap16; omega

theorem Outcome.bind_done {α β : Type} (a : α) (f : α → Outcome β) :
    (Outcome.done a).bind f = f a := rfl

theorem Outcome.bind_assoc {α β γ : Type} (r : Outcome α) (f : α → Outcome β)
    (g : β → Outcome γ) : (r.bind f).bind g = r.bind fun a => (f a).bind g := by
  cases r <;> rfl

theorem Outcome.bind_eq_done {α β : Type} {r : Outcome α} {f : α → Outcome β} {b : β}
    (h : r.bind f = .done b) : ∃ a, r = .done a ∧ f a = .done b := by
  cases r with
  | done a => exact ⟨a, rfl, h⟩
  | thrown msg => simp [Outcome.bind] at h
  | undefinedBehaviour => simp [Outcome.bind] at h
  | outOfFuel => simp [Outcome.bind] at h

theorem ite_lt_eq_min (a b : Int) : (if a < b then a else b) = min a b := by
  rw [min_def]; split_ifs <;> omega

theorem ite_gt_eq_min (a b : Int) : (if a > b then b else a) = min a b := by
  rw [min_def]; split_ifs <;> omega

theorem mixCase1_eq_mixGeneric (mem : Memory) (out : modAudioOutRecord) (n : Int) (a : Nat)
    (hbpf : out.bytesPerFrame = 2 * out.numChannels) (hact : out.activeStream = [a]) :
    mixCase1 mem out n = mixGeneric mem out n := by
  unfold mixCase1 mixGeneric
  simp only [hact, List.getD_cons_zero, framesPerStep, advanceAll, completeAll]
  have huse : (if availableRun out a > n then n else availableRun out a)
      = min (availableRun out a) n := by
    rw [min_def]; split_ifs <;> omega
  rw [huse]
  generalize min (availableRun out a) n = use
  have hmul : use * (out.bytesPerFrame : Int) = 2 * (use * out.numChannels) := by
    rw [hbpf]; push_cast; ring
  rw [hmul]
  have hdiv : 2 * (use * (out.numChannels : Int)) / 2 = use * out.numChannels := by omega
  rw [hdiv]
  by_cases hneg : use * (out.numChannels : Int) < 0
  · rw [if_pos hneg, if_pos (by omega)]
  · rw [if_neg hneg, if_neg (by omega)]
    have hout : (List.range (use * (out.numChannels : Int)).toNat).map
          (fun (j : Nat) => readSample mem (sourceOf out a + 2 * (j : Int)))
        = (List.range (use * (out.numChannels : Int)).toNat).map (mixedSample mem out [a]) := by
      apply List.map_congr_left
      intro j _
      simp [mixedSample, readSample, wrap16_wrap16]
    rw [hout, Outcome.bind_assoc]
    rfl

theorem mixCase2_eq_mixGeneric (mem : Memory) (out : modAudioOutRecord) (n : Int) (a b : Nat)
    (hact : out.activeStream = [a, b]) :
    mixCase2 mem out n = mixGeneric mem out n := by
  unfold mixCase2 mixGeneric
  simp only [hact, List.getD_cons_zero, List.getD_cons_succ, framesPerStep, advanceAll,
    completeAll]
  obtain ⟨ra, hra⟩ : ∃ ra, availableRun out a = ra := ⟨_, rfl⟩
  obtain ⟨rb, hrb⟩ : ∃ rb, availableRun out b = rb := ⟨_, rfl⟩
  rw [hra, hrb]
  have huse : (if (if ra < rb then ra else rb) > n then n else (if ra < rb then ra else rb))
      = min ra (min rb n) := by
    rw [ite_lt_eq_min, ite_gt_eq_min]; omega
  rw [huse]
  generalize min ra (min rb n) = use
  by_cases hneg : use * (out.numChannels : Int) < 0
  · rw [if_pos hneg, if_pos hneg]
  · rw [if_neg hneg, if_neg hneg]
    have hout : (List.range (use * (out.numChannels : Int)).toNat).map
          (fun (j : Nat) => wrap16 (readSample mem (sourceOf out a + 2 * (j : Int))
            + readSample mem (sourceOf out b + 2 * (j : Int))))
        = (List.range (use * (out.numChannels : Int)).toNat).map (mixedSample mem out [a, b]) := by
      apply List.map_congr_left
      intro j _
      simp [mixedSample]
    rw [hout]
    simp only [Outcome.bind_assoc]
    rfl

theorem mixCase3_eq_mixGeneric (mem : Memory) (out : modAudioOutRecord) (n : Int) (a b c : Nat)
    (hact : out.activeStream = [a, b, c]) :
    mixCase3 mem out n = mixGeneric mem out n := by
  unfold mixCase3 mixGeneric
  simp only [hact, List.getD_cons_zero, List.getD_cons_succ, framesPerStep, advanceAll,
    completeAll]
  obtain ⟨ra, hra⟩ : ∃ ra, availableRun out a = ra := ⟨_, rfl⟩
  obtain ⟨rb, hrb⟩ : ∃ rb, availableRun out b = rb := ⟨_, rfl⟩
  obtain ⟨rc, hrc⟩ : ∃ rc, availableRun out c = rc := ⟨_, rfl⟩
  rw [hra, hrb, hrc]
  have huse : (if (if (if ra < rb then ra else rb) > rc then rc
        else (if ra < rb then ra else rb)) > n then n
      else (if (if ra < rb then ra else rb) > rc then rc else (if ra < rb then ra else rb)))
      = min ra (min rb (min rc n)) := by
    rw [ite_lt_eq_min, ite_gt_eq_min, ite_gt_eq_min]; omega
  rw [huse]
  generalize min ra (min rb (min rc n)) = use
  by_cases hneg : use * (out.numChannels : Int) < 0
  · rw [if_pos hneg, if_pos hneg]
  · rw [if_neg hneg, if_neg hneg]
    have hout : (List.range (use * (out.numChannels : Int)).toNat).map
          (fun (j : Nat) => wrap16 (readSample mem (sourceOf out a + 2 * (j : Int))
            + readSample mem (sourceOf out b + 2 * (j : Int))
            + readSample mem (sourceOf out c + 2 * (j : Int))))
        = (List.range (use * (out.numChannels : Int)).toNat).map
            (mixedSample mem out [a, b, c]) := by
      apply List.map_congr_left
      intro j _
      simp [mixedSample, add_assoc]
    rw [hout]
    simp only [Outcome.bind_assoc]
    rfl

theorem mixCase4_eq_mixGeneric (mem : Memory) (out : modAudioOutRecord) (n : Int) (a b c d : Nat)
    (hact : out.activeStream = [a, b, c, d]) :
    mixCase4 mem out n = mixGeneric mem out n := by
  unfold mixCase4 mixGeneric
  simp only [hact, List.getD_cons_zero, List.getD_cons_succ, framesPerStep, advanceAll,
    completeAll]
  obtain ⟨ra, hra⟩ : ∃ ra, availableRun out a = ra := ⟨_, rfl⟩
  obtain ⟨rb, hrb⟩ : ∃ rb, availableRun out b = rb := ⟨_, rfl⟩
  obtain ⟨rc, hrc⟩ : ∃ rc, availableRun out c = rc := ⟨_, rfl⟩
  obtain ⟨rd, hrd⟩ : ∃ rd, availableRun out d = rd := ⟨_, rfl⟩
  rw [hra, hrb, hrc, hrd]
  have huse : (if (if (if (if ra < rb then ra else rb) > rc then rc
          else (if ra < rb then ra else rb)) > rd then rd
        else (if (if ra < rb then ra else rb) > rc then rc
          else (if ra < rb then ra else rb))) > n then n
      else (if (if (if ra < rb then ra else rb) > rc then rc
          else (if ra < rb then ra else rb)) > rd then rd
        else (if (if ra < rb then ra else rb) > rc then rc
          else (if ra < rb then ra else rb))))
      = min ra (min rb (min rc (min rd n))) := by
    rw [ite_lt_eq_min, ite_gt_eq_min, ite_gt_eq_min, ite_gt_eq_min]; omega
  rw [huse]
  generalize min ra (min rb (min rc (min rd n))) = use
  by_cases hneg : use * (out.numChannels : Int) < 0
  · rw [if_pos hneg, if_pos hneg]
  · rw [if_neg hneg, if_neg hneg]
    have hout : (List.range (use * (out.numChannels : Int)).toNat).map
          (fun (j : Nat) => wrap16 (readSample mem (sourceOf out a + 2 * (j : Int))
            + readSample mem (sourceOf out b + 2 * (j : Int))
            + readSample mem (sourceOf out c + 2 * (j : Int))
            + readSample mem (sourceOf out d + 2 * (j : Int))))
        = (List.range (use * (out.numChannels : Int)).toNat).map
            (mixedSample mem out [a, b, c, d]) := by
      apply List.map_congr_left
      intro j _
      simp [mixedSample, add_assoc]
    rw [hout]
    simp only [Outcome.bind_assoc]
    rfl

/-- With one to four active streams, the unrolled `switch` of `audioMix` computes the
generic mixing step. -/
theorem audioMixStep_eq_mixGeneric (mem : Memory) (out : modAudioOutRecord) (n : Int)
    (hbpf : out.bytesPerFrame = 2 * out.numChannels)
    (h1 : 1 ≤ out.activeStreamCount) (h4 : out.activeStreamCount ≤ 4) :
    audioMixStep mem out n = mixGeneric mem out n := by
  unfold modAudioOutRecord.activeStreamCount at h1 h4
  unfold audioMixStep modAudioOutRecord.activeStreamCount
  rcases hact : out.activeStream with _ | ⟨a, _ | ⟨b, _ | ⟨c, _ | ⟨d, _ | ⟨e, t⟩⟩⟩⟩⟩
  · rw [hact] at h1; simp at h1
  · simp only [List.length_cons, List.length_nil]
    exact mixCase1_eq_mixGeneric mem out n a hbpf hact
  · simp only [List.length_cons, List.length_nil]
    exact mixCase2_eq_mixGeneric mem out n a b hact
  · simp only [List.length_cons, List.length_nil]
    exact mixCase3_eq_mixGeneric mem out n a b c hact
  · simp only [List.length_cons, List.length_nil]
    exact mixCase4_eq_mixGeneric mem out n a b c d hact
  · rw [hact] at h4; simp at h4

/-! ## Advancing the front elements -/

theorem frontOf_setFrontOf_self (out : modAudioOutRecord) (i : Nat)
    (e : modAudioQueueElementRecord) (hi : i < out.stream.length)
    (hl : 0 < (out.streamAt i).element.length) : (out.setFrontOf i e).frontOf i = e := by
  unfold modAudioOutRecord.frontOf
  rw [streamAt_setFrontOf_self _ _ _ hi, front_setFront _ _ hl]

theorem frontOf_setFrontOf_ne (out : modAudioOutRecord) (i j : Nat)
    (e : modAudioQueueElementRecord) (h : j ≠ i) : (out.setFrontOf i e).frontOf j = out.frontOf j := by
  unfold modAudioOutRecord.frontOf
  rw [streamAt_setFrontOf_ne _ _ _ _ h]

theorem active_valid (out : modAudioOutRecord) (hwf : WellFormed out) :
    ∀ i ∈ out.activeStream, i < out.stream.length ∧ 1 ≤ (out.streamAt i).elementCount := by
  intro i hi
  obtain ⟨_, _, hstreams, hactive⟩ := hwf
  rw [hactive] at hi
  simp only [updateActiveStreams, List.mem_filter, List.mem_range, decide_eq_true_eq] at hi
  have := (hstreams i hi.1).1
  exact ⟨hi.1, by omega⟩

theorem active_nodup (out : modAudioOutRecord) (hwf : WellFormed out) :
    out.activeStream.Nodup := by
  rw [hwf.2.2.2]
  exact List.Nodup.filter _ (List.nodup_range _)

theorem active_count_le (out : modAudioOutRecord) (hwf : WellFormed out) :
    out.activeStreamCount ≤ 4 := by
  unfold modAudioOutRecord.activeStreamCount
  rw [hwf.2.2.2]
  refine le_trans (List.length_filter_le _ _) ?_
  rw [List.length_range]
  exact hwf.2.1

theorem advance_spec (out : modAudioOutRecord) (i : Nat) (use : Int) (hwf : WellFormed out)
    (hi : i < out.stream.length) (hc1 : 1 ≤ (out.streamAt i).elementCount)
    (h0 : 0 ≤ use) (hle : use ≤ availableRun out i) :
    WellFormed (advance out i use) ∧ SameConfig out (advance out i use)
      ∧ (∀ j, ((advance out i use).streamAt j).elementCount = (out.streamAt j).elementCount)
      ∧ (∀ j, j ≠ i → (advance out i use).streamAt j = out.streamAt j)
      ∧ (advance out i use).frontOf i
          = { out.frontOf i with position := (out.frontOf i).position + use } := by
  obtain ⟨hbpf, hsc, hstreams, hactive⟩ := hwf
  obtain ⟨hc0, hc8, hlen, hlive⟩ := hstreams i hi
  have hq2 : MODDEF_AUDIOOUT_QUEUELENGTH = 8 := rfl
  have hlen0 : 0 < (out.streamAt i).element.length := by rw [hlen, hq2]; decide
  have hfrontwf : WellFormedElement (out.frontOf i) := hlive _ (front_mem_live _ hc1 hlen0)
  unfold availableRun at hle
  refine ⟨⟨hbpf, by simpa [advance] using hsc, ?_, ?_⟩, ⟨rfl, rfl, by simp [advance]⟩,
    fun j => by simp [advance], fun j hj => streamAt_setFrontOf_ne _ _ _ _ hj,
    frontOf_setFrontOf_self _ _ _ hi hlen0⟩
  · intro j hj
    simp only [advance, setFrontOf_streamCount] at hj
    by_cases hji : j = i
    · rw [hji]
      unfold advance
      rw [streamAt_setFrontOf_self _ _ _ hi]
      refine ⟨hc0, hc8, by simpa using hlen, ?_⟩
      intro e he
      rw [live_setFront _ _ hc1 hlen0] at he
      rcases List.mem_cons.mp he with h | h
      · rw [h]
        obtain ⟨hp0, hp1, hp2⟩ := hfrontwf
        exact ⟨by simp only; omega, by simp only; omega, hp2⟩
      · exact hlive e (List.mem_of_mem_drop h)
    · unfold advance
      rw [streamAt_setFrontOf_ne _ _ _ _ hji]
      exact hstreams j hj
  · show out.activeStream = _
    rw [hactive]
    symm
    apply updateActiveStreams_congr
    · simp [advance]
    · intro j _
      simp [advance]

theorem advanceAll_spec : ∀ (streams : List Nat) (out : modAudioOutRecord) (use : Int),
    WellFormed out → streams.Nodup →
    (∀ i ∈ streams, i < out.stream.length ∧ 1 ≤ (out.streamAt i).elementCount) →
    0 ≤ use → (∀ i ∈ streams, use ≤ availableRun out i) →
    WellFormed (advanceAll out use streams) ∧ SameConfig out (advanceAll out use streams)
      ∧ (∀ j, ((advanceAll out use streams).streamAt j).elementCount
          = (out.streamAt j).elementCount)
      ∧ (∀ j, ((advanceAll out use streams).frontOf j).sampleCount = (out.frontOf j).sampleCount)
      ∧ (∀ j, ((advanceAll out use streams).frontOf j).position
          = (out.frontOf j).position + if j ∈ streams then use else 0) := by
  intro streams
  induction streams with
  | nil =>
    intro out use hwf _ _ _ _
    exact ⟨hwf, SameConfig.refl _, fun _ => rfl, fun _ => rfl, fun _ => by simp [advanceAll]⟩
  | cons i rest ih =>
    intro out use hwf hnd hvalid h0 hle
    obtain ⟨hi, hc1⟩ := hvalid i (List.mem_cons_self _ _)
    obtain ⟨hwfA, hcfgA, hecA, hothersA, hfrontA⟩ :=
      advance_spec out i use hwf hi hc1 h0 (hle i (List.mem_cons_self _ _))
    have hnd' := List.nodup_cons.mp hnd
    have hne : ∀ j ∈ rest, j ≠ i := fun j hj h => hnd'.1 (h ▸ hj)
    obtain ⟨hwfX, hcfgX, hecX, hscX, hposX⟩ := ih (advance out i use) use hwfA hnd'.2 (by
        intro j hj
        rw [hecA j, hcfgA.2.2]
        exact hvalid j (List.mem_cons_of_mem _ hj)) h0 (by
        intro j hj
        unfold availableRun modAudioOutRecord.frontOf
        rw [hothersA j (hne j hj)]
        exact hle j (List.mem_cons_of_mem _ hj))
    have hfo : ∀ j, j ≠ i → (advance out i use).frontOf j = out.frontOf j := by
      intro j hj
      unfold modAudioOutRecord.frontOf
      rw [hothersA j hj]
    refine ⟨hwfX, hcfgA.trans hcfgX, fun j => by rw [advanceAll, hecX j, hecA j], ?_, ?_⟩
    · intro j
      rw [advanceAll, hscX j]
      by_cases hji : j = i
      · rw [hji, hfrontA]
      · rw [hfo j hji]
    · intro j
      rw [advanceAll, hposX j]
      by_cases hji : j = i
      · rw [hji, hfrontA]
        simp [hnd'.1]
      · rw [hfo j hji]
        simp [hji]

/-! ## Frames per step -/

theorem framesPerStep_le_request (out : modAudioOutRecord) (n : Int) :
    ∀ streams : List Nat, framesPerStep out n streams ≤ n := by
  intro streams
  induction streams with
  | nil => exact le_refl _
  | cons i rest ih => exact le_trans (min_le_right _ _) ih

theorem framesPerStep_le_run (out : modAudioOutRecord) (n : Int) :
    ∀ streams : List Nat, ∀ i ∈ streams, framesPerStep out n streams ≤ availableRun out i := by
  intro streams
  induction streams with
  | nil => intro i hi; simp at hi
  | cons a rest ih =>
    intro i hi
    rcases List.mem_cons.mp hi with h | h
    · rw [h]; exact min_le_left _ _
    · exact le_trans (min_le_right _ _) (ih i h)

theorem framesPerStep_nonneg (out : modAudioOutRecord) (n : Int) (hn : 0 ≤ n) :
    ∀ streams : List Nat, (∀ i ∈ streams, 0 ≤ availableRun out i) →
      0 ≤ framesPerStep out n streams := by
  intro streams
  induction streams with
  | nil => intro _; exact hn
  | cons a rest ih =>
    intro h
    exact le_min (h a (List.mem_cons_self _ _)) (ih fun i hi => h i (List.mem_cons_of_mem _ hi))

theorem framesPerStep_eq_zero (out : modAudioOutRecord) (n : Int) (hn : 0 < n) :
    ∀ streams : List Nat, framesPerStep out n streams = 0 →
      ∃ i ∈ streams, availableRun out i ≤ 0 := by
  intro streams
  induction streams with
  | nil => intro h; simp only [framesPerStep] at h; omega
  | cons a rest ih =>
    intro h
    simp only [framesPerStep] at h
    by_cases ha : availableRun out a ≤ 0
    · exact ⟨a, List.mem_cons_self _ _, ha⟩
    · have hrest : framesPerStep out n rest = 0 := by
        rcases min_choice (availableRun out a) (framesPerStep out n rest) with h1 | h1
        · rw [h1] at h; omega
        · rw [h1] at h; exact h
      obtain ⟨i, hi, hrun⟩ := ih hrest
      exact ⟨i, List.mem_cons_of_mem _ hi, hrun⟩

theorem availableRun_nonneg_of_active (out : modAudioOutRecord) (hwf : WellFormed out) :
    ∀ i ∈ out.activeStream, 0 ≤ availableRun out i := by
  intro i hi
  obtain ⟨hlt, hc1⟩ := active_valid out hwf i hi
  obtain ⟨_, _, hlen, hlive⟩ := hwf.2.2.1 i hlt
  have hq2 : MODDEF_AUDIOOUT_QUEUELENGTH = 8 := rfl
  have hlen0 : 0 < (out.streamAt i).element.length := by rw [hlen, hq2]; decide
  have hfrontwf : WellFormedElement (out.frontOf i) := hlive _ (front_mem_live _ hc1 hlen0)
  unfold availableRun
  have := hfrontwf.2.1
  omega

/-! ## One pass of the outer loop on a well-formed state -/

theorem engineMeasure_lt (a b : modAudioOutRecord) (hlen : b.stream.length = a.stream.length)
    (hle : ∀ j, streamMeasure (b.streamAt j) ≤ streamMeasure (a.streamAt j))
    (i : Nat) (hi : i < a.stream.length)
    (hlt : streamMeasure (b.streamAt i) < streamMeasure (a.streamAt i)) :
    engineMeasure b < engineMeasure a := by
  unfold engineMeasure modAudioOutRecord.streamCount
  rw [hlen]
  exact List.sum_lt_sum _ _ (fun j _ => hle j) ⟨i, List.mem_range.mpr hi, hlt⟩

theorem toNat_mul_natCast (u : Int) (c : Nat) (h : 0 ≤ u) : (u * (c : Int)).toNat = u.toNat * c := by
  have h2 : 0 ≤ u * (c : Int) := mul_nonneg h (Int.ofNat_nonneg c)
  zify
  rw [Int.toNat_of_nonneg h2, Int.toNat_of_nonneg h]

/-- Frames mixed by one pass of the outer loop: the whole request when no stream is
active, otherwise the smallest of the request and the available runs. -/
theorem audioMixStep_spec (mem : Memory) (out : modAudioOutRecord) (n : Int)
    (hwf : WellFormed out) (hn : 0 < n) :
    ∃ out2 n2 chunk, audioMixStep mem out n = .done (out2, n2, chunk)
      ∧ WellFormed out2 ∧ SameConfig out out2 ∧ 0 ≤ n2 ∧ n2 ≤ n
      ∧ chunk.length = (n - n2).toNat * out.numChannels
      ∧ (n2 < n ∨ engineMeasure out2 < engineMeasure out)
      ∧ (out.activeStream ≠ [] →
          n - n2 = framesPerStep out n out.activeStream
          ∧ chunk = (List.range ((n - n2).toNat * out.numChannels)).map
              (mixedSample mem out out.activeStream)) := by
  by_cases hact : out.activeStream = []
  · refine ⟨out, 0, List.replicate (n * out.numChannels).toNat 0, ?_, hwf, SameConfig.refl _,
      le_refl _, le_of_lt hn, ?_, Or.inl hn, fun h => absurd hact h⟩
    · unfold audioMixStep modAudioOutRecord.activeStreamCount
      rw [hact]
      simp only [List.length_nil, mixCase0]
      have : ¬ n * (out.numChannels : Int) < 0 := by
        have := mul_nonneg (le_of_lt hn) (Int.ofNat_nonneg out.numChannels)
        simpa using this
      rw [if_neg this]
    · rw [List.length_replicate, sub_zero, toNat_mul_natCast _ _ (le_of_lt hn)]
  · have hk1 : 1 ≤ out.activeStreamCount := by
      unfold modAudioOutRecord.activeStreamCount
      exact List.length_pos.mpr hact
    rw [audioMixStep_eq_mixGeneric mem out n hwf.1 hk1 (active_count_le out hwf)]
    have hvalid := active_valid out hwf
    have hnd := active_nodup out hwf
    have hu0 : 0 ≤ framesPerStep out n out.activeStream :=
      framesPerStep_nonneg out n (le_of_lt hn) _ (availableRun_nonneg_of_active out hwf)
    have hun : framesPerStep out n out.activeStream ≤ n := framesPerStep_le_request out n _
    obtain ⟨hwfX, hcfgX, hecX, hscX, hposX⟩ := advanceAll_spec out.activeStream out
      (framesPerStep out n out.activeStream) hwf hnd hvalid hu0 (framesPerStep_le_run out n _)
    obtain ⟨out2, hrun, hwf2, hcfg2, hle2, hlt2⟩ := completeAll_spec out.activeStream
      (advanceAll out (framesPerStep out n out.activeStream) out.activeStream) hwfX hnd (by
        intro i hi
        rw [hecX i, hcfgX.2.2]
        exact hvalid i hi)
    have hcount : ¬ framesPerStep out n out.activeStream * (out.numChannels : Int) < 0 := by
      have := mul_nonneg hu0 (Int.ofNat_nonneg out.numChannels)
      simpa using this
    refine ⟨out2, n - framesPerStep out n out.activeStream,
      (List.range (framesPerStep out n out.activeStream * (out.numChannels : Int)).toNat).map
        (mixedSample mem out out.activeStream), ?_, hwf2, hcfgX.trans hcfg2, by omega, by omega,
      ?_, ?_, fun _ => ⟨by omega, ?_⟩⟩
    · unfold mixGeneric
      simp only [hcount, if_false, hrun, Outcome.bind]
    · rw [List.length_map, List.length_range, toNat_mul_natCast _ _ hu0]
      congr 2
      omega
    · by_cases hzero : framesPerStep out n out.activeStream = 0
      · right
        obtain ⟨i, hi, hrun0⟩ := framesPerStep_eq_zero out n hn _ hzero
        have hrun1 := availableRun_nonneg_of_active out hwf i hi
        have hmX : ∀ j, streamMeasure ((advanceAll out (framesPerStep out n out.activeStream)
            out.activeStream).streamAt j) = streamMeasure (out.streamAt j) := by
          intro j
          have h1 := hecX j
          have h2 := hscX j
          have h3 := hposX j
          rw [hzero] at h1 h2 h3 ⊢
          unfold modAudioOutRecord.frontOf at h2 h3
          unfold streamMeasure
          rw [h1, h2, h3]
          simp
        apply engineMeasure_lt out out2 (hcfgX.trans hcfg2).2.2 _ i (hvalid i hi).1
        · rw [← hmX i]
          apply hlt2 i hi
          rw [hscX i, hposX i, hzero]
          unfold availableRun at hrun0 hrun1
          simp only [hi, if_true]
          omega
        · intro j
          rw [← hmX j]
          exact hle2 j
      · left; omega
    · rw [toNat_mul_natCast _ _ hu0]
      congr 3
      omega

/-! ## The outer loop of audioMix -/

theorem audioMix_zero (mem : Memory) (fuel : Nat) (out : modAudioOutRecord) :
    audioMix mem fuel out 0 = .done (out, []) := by
  cases fuel <;> simp [audioMix]

theorem audioMix_succ (mem : Memory) (fuel : Nat) (out : modAudioOutRecord) (n : Int)
    (hn : n ≠ 0) :
    audioMix mem (fuel + 1) out n
      = (audioMixStep mem out n).bind fun r =>
          (audioMix mem fuel r.1 r.2.1).bind fun r2 => .done (r2.1, r.2.2 ++ r2.2) := by
  rw [audioMix, if_neg hn]

/-- More fuel does not change a completed run. -/
theorem audioMix_fuel_mono (mem : Memory) : ∀ (fuel : Nat) (out : modAudioOutRecord) (n : Int)
    (r : modAudioOutRecord × List Int), audioMix mem fuel out n = .done r →
    ∀ fuel2, fuel ≤ fuel2 → audioMix mem fuel2 out n = .done r := by
  intro fuel
  induction fuel with
  | zero =>
    intro out n r h fuel2 _
    by_cases hn : n = 0
    · subst hn
      rw [audioMix_zero] at h ⊢
      exact h
    · simp [audioMix, hn] at h
  | succ fuel ih =>
    intro out n r h fuel2 hle
    by_cases hn : n = 0
    · subst hn
      rw [audioMix_zero] at h ⊢
      exact h
    · obtain ⟨f2, rfl⟩ : ∃ f2, fuel2 = f2 + 1 := ⟨fuel2 - 1, by omega⟩
      rw [audioMix_succ mem _ _ _ hn] at h ⊢
      obtain ⟨a, ha, h2⟩ := Outcome.bind_eq_done h
      obtain ⟨b, hb, h3⟩ := Outcome.bind_eq_done h2
      rw [ha, Outcome.bind_done, ih _ _ _ hb f2 (by omega), Outcome.bind_done]
      exact h3

/-- On a well-formed state `audioMix` completes for every non-negative request: it
writes `n * numChannels` samples, starting with the generic mix of the first pass, and
leaves a well-formed state. -/
theorem audioMix_total (mem : Memory) : ∀ (N M : Nat) (out : modAudioOutRecord) (n : Int),
    WellFormed out → n = (N : Int) → engineMeasure out = M →
    ∃ fuel out2 output, audioMix mem fuel out n = .done (out2, output)
      ∧ WellFormed out2 ∧ SameConfig out out2
      ∧ output.length = N * out.numChannels
      ∧ (0 < n → out.activeStream ≠ [] →
          ∃ rest, output = (List.range
              ((framesPerStep out n out.activeStream).toNat * out.numChannels)).map
                (mixedSample mem out out.activeStream) ++ rest) := by
  intro N
  induction N using Nat.strong_induction_on with
  | _ N ihN =>
    intro M
    induction M using Nat.strong_induction_on with
    | _ M ihM =>
      intro out n hwf hnN hM
      by_cases hn0 : n = 0
      · refine ⟨0, out, [], ?_, hwf, SameConfig.refl _, ?_, fun h => by omega⟩
        · rw [hn0, audioMix_zero]
        · have : N = 0 := by omega
          simp [this]
      · have hnpos : 0 < n := by omega
        obtain ⟨out2, n2, chunk, hstep, hwf2, hcfg2, hn20, hn2n, hlen, hprog, hfirst⟩ :=
          audioMixStep_spec mem out n hwf hnpos
        have hrest : ∃ fuel out3 output, audioMix mem fuel out2 n2 = .done (out3, output)
            ∧ WellFormed out3 ∧ SameConfig out2 out3
            ∧ output.length = n2.toNat * out2.numChannels := by
          by_cases hlt : n2 < n
          · obtain ⟨fuel, out3, output, h1, h2, h3, h4, _⟩ :=
              ihN n2.toNat (by omega) (engineMeasure out2) out2 n2 hwf2 (by omega) rfl
            exact ⟨fuel, out3, output, h1, h2, h3, h4⟩
          · have hlt2 : engineMeasure out2 < engineMeasure out := by
              rcases hprog with h | h
              · exact absurd h hlt
              · exact h
            have heq : n2 = n := by omega
            obtain ⟨fuel, out3, output, h1, h2, h3, h4, _⟩ :=
              ihM (engineMeasure out2) (by omega) out2 n2 hwf2 (by omega) rfl
            refine ⟨fuel, out3, output, h1, h2, h3, ?_⟩
            rw [h4]
            congr 1
            omega
        obtain ⟨fuel, out3, output, hrun, hwf3, hcfg3, hlen3⟩ := hrest
        refine ⟨fuel + 1, out3, chunk ++ output, ?_, hwf3, hcfg2.trans hcfg3, ?_, ?_⟩
        · rw [audioMix_succ mem _ _ _ hn0, hstep, Outcome.bind_done]
          simp only [hrun, Outcome.bind_done]
        · rw [List.length_append, hlen, hlen3, hcfg2.1, ← Nat.add_mul]
          congr 1
          omega
        · intro _ hact
          obtain ⟨hf1, hf2⟩ := hfirst hact
          refine ⟨output, ?_⟩
          rw [hf2, hf1]

/-! ## Exact effect of endOfElement and of an accepted enqueue on a well-formed state -/

theorem wellFormed_of_streams (a b : modAudioOutRecord) (i : Nat) (hwf : WellFormed a)
    (hcfg : SameConfig a b) (hothers : ∀ j, j ≠ i → b.streamAt j = a.streamAt j)
    (hwfs : WellFormedStream (b.streamAt i))
    (hact : (b.activeStream = a.activeStream
        ∧ ((b.streamAt i).elementCount = 0 ↔ (a.streamAt i).elementCount = 0))
      ∨ b.activeStream = (updateActiveStreams b).activeStream) :
    WellFormed b := by
  obtain ⟨hbpf, hsc, hstreams, hactive⟩ := hwf
  refine ⟨?_, ?_, ?_, ?_⟩
  · rw [hcfg.2.1, hcfg.1]; exact hbpf
  · unfold modAudioOutRecord.streamCount; rw [hcfg.2.2]; exact hsc
  · intro j hj
    unfold modAudioOutRecord.streamCount at hj
    rw [hcfg.2.2] at hj
    by_cases hji : j = i
    · rw [hji]; exact hwfs
    · rw [hothers j hji]; exact hstreams j hj
  · rcases hact with ⟨h1, h2⟩ | h
    · rw [h1, hactive]
      symm
      apply updateActiveStreams_congr _ _ hcfg.2.2
      intro j _
      by_cases hji : j = i
      · rw [hji]; exact h2
      · rw [hothers j hji]
    · exact h

/-- The function `endOfElement` on a non-empty stream of a well-formed state: the state stays well
formed, the queue loses exactly its leading elements whose repeat count is exhausted,
and their callback identifiers are appended to the pending queue. -/
theorem endOfElement_wf (out : modAudioOutRecord) (i : Nat) (hwf : WellFormed out)
    (hi : i < out.stream.length) (hc1 : 1 ≤ (out.streamAt i).elementCount) :
    ∃ out2, endOfElement out i = .done out2 ∧ WellFormed out2 ∧ SameConfig out out2
      ∧ (∀ j, j ≠ i → out2.streamAt j = out.streamAt j)
      ∧ live (out2.streamAt i)
          = (completedFront (out.streamAt i) :: (live (out.streamAt i)).drop 1).drop
              (retiredCount (completedFront (out.streamAt i) :: (live (out.streamAt i)).drop 1))
      ∧ (out2.streamAt i).elementCount = (out.streamAt i).elementCount
          - retiredCount (completedFront (out.streamAt i) :: (live (out.streamAt i)).drop 1)
      ∧ out2.pendingCallbacks = pendingAfter out.pendingCallbacks
          ((completedFront (out.streamAt i) :: (live (out.streamAt i)).drop 1).take
            (retiredCount (completedFront (out.streamAt i) :: (live (out.streamAt i)).drop 1)))
      ∧ ((completedFront (out.streamAt i)).repeatCount ≠ 0
          → out2 = out.setFrontOf i (completedFront (out.streamAt i))) := by
  obtain ⟨out2, hrun, hcfg, hothers, hwfs2, hl1, hl2, hl3, hsame, hact, _⟩ :=
    endOfElement_spec out i hi (hwf.2.2.1 i hi) hc1
  refine ⟨out2, hrun, ?_, hcfg, hothers, hl1, hl2, hl3, hsame⟩
  apply wellFormed_of_streams out out2 i hwf hcfg hothers hwfs2
  rcases hact with ⟨h1, h2⟩ | h
  · exact Or.inl ⟨h1, ⟨fun h => absurd h h2, fun h => by omega⟩⟩
  · exact Or.inr h

theorem take_set_succ {α : Type} (l : List α) (n : Nat) (a : α) (h : n < l.length) :
    (l.set n a).take (n + 1) = l.take n ++ [a] := by
  induction l generalizing n with
  | nil => simp at h
  | cons b t ih =>
    cases n with
    | zero => simp
    | succ m =>
      simp only [List.set_cons_succ, List.take_succ_cons, List.cons_append, List.cons.injEq,
        true_and]
      exact ih m (by simpa using h)

/-- An accepted enqueue of a well-formed element (the label `done:`) appends it to the
queue of its stream and keeps the state well formed. -/
theorem enqueueDone_spec (out : modAudioOutRecord) (i : Nat) (e : modAudioQueueElementRecord)
    (hwf : WellFormed out) (hi : i < out.stream.length)
    (hroom : (out.streamAt i).elementCount < MODDEF_AUDIOOUT_QUEUELENGTH)
    (he : WellFormedElement e) :
    ∃ out2, enqueueDone out i e = .done out2 ∧ WellFormed out2 ∧ SameConfig out out2
      ∧ (∀ j, j ≠ i → out2.streamAt j = out.streamAt j)
      ∧ live (out2.streamAt i) = live (out.streamAt i) ++ [e]
      ∧ (out2.streamAt i).elementCount = (out.streamAt i).elementCount + 1
      ∧ out2.pendingCallbacks = out.pendingCallbacks := by
  obtain ⟨hc0, hc8, hlen, hlive⟩ := hwf.2.2.1 i hi
  have hq : (MODDEF_AUDIOOUT_QUEUELENGTH : Int) = 8 := rfl
  have hq2 : MODDEF_AUDIOOUT_QUEUELENGTH = 8 := rfl
  unfold enqueueDone
  simp only
  rw [if_neg (by omega)]
  obtain ⟨s2, hs2⟩ : ∃ s2 : modAudioOutStreamRecord, s2 = ⟨(out.streamAt i).elementCount + 1,
      (out.streamAt i).element.set (out.streamAt i).elementCount.toNat e⟩ := ⟨_, rfl⟩
  rw [← hs2]
  have hlt : (out.streamAt i).elementCount.toNat < (out.streamAt i).element.length := by
    rw [hlen, hq2]; omega
  have hlive2 : live s2 = live (out.streamAt i) ++ [e] := by
    rw [hs2]
    unfold live
    simp only
    have : ((out.streamAt i).elementCount + 1).toNat = (out.streamAt i).elementCount.toNat + 1 := by
      omega
    rw [this, take_set_succ _ _ _ hlt]
  have hwfs2 : WellFormedStream s2 := by
    refine ⟨by rw [hs2]; simp only; omega, by rw [hs2]; simp only; omega,
      by rw [hs2]; simpa using hlen, ?_⟩
    intro x hx
    rw [hlive2] at hx
    rcases List.mem_append.mp hx with h | h
    · exact hlive x h
    · rw [List.mem_singleton.mp h]; exact he
  have hec2 : s2.elementCount = (out.streamAt i).elementCount + 1 := by rw [hs2]
  have hsat : (out.setStream i s2).streamAt i = s2 := streamAt_setStream_self _ _ _ hi
  have hoth : ∀ j, j ≠ i → (out.setStream i s2).streamAt j = out.streamAt j :=
    fun j hj => streamAt_setStream_ne _ _ _ _ hj
  rw [hsat]
  have hcfg1 : SameConfig out (out.setStream i s2) := ⟨rfl, rfl, by simp⟩
  have hcfg2 : SameConfig out (updateActiveStreams (out.setStream i s2)) := ⟨rfl, rfl, by simp⟩
  by_cases hone : s2.elementCount = 1
  · rw [if_pos hone]
    refine ⟨_, rfl, ?_, hcfg2, ?_, ?_, ?_, rfl⟩
    · apply wellFormed_of_streams out _ i hwf hcfg2
      · intro j hj; rw [updateActiveStreams_streamAt, hoth j hj]
      · rw [updateActiveStreams_streamAt, hsat]; exact hwfs2
      · exact Or.inr rfl
    · intro j hj; rw [updateActiveStreams_streamAt, hoth j hj]
    · rw [updateActiveStreams_streamAt, hsat]; exact hlive2
    · rw [updateActiveStreams_streamAt, hsat]; exact hec2
  · rw [if_neg hone]
    refine ⟨_, rfl, ?_, hcfg1, hoth, ?_, ?_, rfl⟩
    · apply wellFormed_of_streams out _ i hwf hcfg1 hoth
      · rw [hsat]; exact hwfs2
      · refine Or.inl ⟨rfl, ?_⟩
        rw [hsat]
        constructor <;> intro h <;> omega
    · rw [hsat]; exact hlive2
    · rw [hsat]; exact hec2

/-! ## The active set of a well-formed state -/

theorem filter_range_singleton (p : Nat → Bool) (n i : Nat) (hi : i < n)
    (hp : ∀ j, j < n → (p j = true ↔ j = i)) : (List.range n).filter p = [i] := by
  have h1 : (List.range n).filter p = (List.range n).filter (fun j => j == i) := by
    apply List.filter_congr
    intro j hj
    have := hp j (List.mem_range.mp hj)
    by_cases hji : j = i
    · have hpj : p j = true := this.mpr hji
      rw [hpj, hji]
      simp
    · have hpj : p j = false := by
        cases hpv : p j with
        | false => rfl
        | true => exact absurd (this.mp hpv) hji
      simp [hji, hpj]
  rw [h1, List.filter_beq, List.count_eq_of_nodup (List.nodup_range n),
    if_pos (List.mem_range.mpr hi)]
  rfl

theorem filter_range_nil (p : Nat → Bool) (n : Nat) (hp : ∀ j, j < n → p j = false) :
    (List.range n).filter p = [] := by
  rw [List.filter_eq_nil_iff]
  intro j hj
  simp [hp j (List.mem_range.mp hj)]

theorem active_eq_singleton (out : modAudioOutRecord) (i : Nat) (hwf : WellFormed out)
    (hi : i < out.stream.length) (hne : (out.streamAt i).elementCount ≠ 0)
    (hothers : ∀ j, j ≠ i → j < out.stream.length → (out.streamAt j).elementCount = 0) :
    out.activeStream = [i] := by
  rw [hwf.2.2.2]
  unfold updateActiveStreams
  apply filter_range_singleton _ _ _ hi
  intro j hj
  by_cases hji : j = i
  · simp [hji, hne]
  · simp [hji, hothers j hji hj]

theorem active_eq_nil (out : modAudioOutRecord) (hwf : WellFormed out)
    (hall : ∀ j, j < out.stream.length → (out.streamAt j).elementCount = 0) :
    out.activeStream = [] := by
  rw [hwf.2.2.2]
  unfold updateActiveStreams
  apply filter_range_nil
  intro j hj
  simp [hall j hj]

/-! ## One pass with a single active stream -/

theorem audioMixStep_single (mem : Memory) (out : modAudioOutRecord) (n : Int) (i : Nat)
    (hbpf : out.bytesPerFrame = 2 * out.numChannels) (hact : out.activeStream = [i])
    (use : Int) (huse : use = min (availableRun out i) n) (h0 : 0 ≤ use) :
    audioMixStep mem out n
      = (completeIfDone (advance out i use) i).bind fun out2 =>
          .done (out2, n - use, (List.range (use.toNat * out.numChannels)).map
            fun (j : Nat) => readSample mem (sourceOf out i + 2 * (j : Int))) := by
  have h1 : audioMixStep mem out n = mixCase1 mem out n := by
    unfold audioMixStep modAudioOutRecord.activeStreamCount
    rw [hact]
    rfl
  rw [h1]
  unfold mixCase1
  simp only [hact, List.getD_cons_zero]
  have hu : (if availableRun out i > n then n else availableRun out i) = use := by
    rw [huse, min_def]; split_ifs <;> omega
  rw [hu]
  have hmul : use * (out.bytesPerFrame : Int) = 2 * (use * out.numChannels) := by
    rw [hbpf]; push_cast; ring
  have hnn : 0 ≤ use * (out.numChannels : Int) := mul_nonneg h0 (Int.ofNat_nonneg _)
  rw [hmul, if_neg (by omega)]
  have hdiv : 2 * (use * (out.numChannels : Int)) / 2 = use * out.numChannels := by omega
  rw [hdiv, toNat_mul_natCast _ _ h0]

/-- Silence for the whole request when no stream is active. -/
theorem audioMix_idle (mem : Memory) (out : modAudioOutRecord) (n : Nat) (fuel : Nat)
    (hact : out.activeStream = []) (hfuel : 1 ≤ fuel) :
    audioMix mem fuel out n = .done (out, List.replicate (n * out.numChannels) 0) := by
  by_cases hn : (n : Int) = 0
  · have : n = 0 := by omega
    subst this
    simp [audioMix_zero]
  · obtain ⟨f, rfl⟩ : ∃ f, fuel = f + 1 := ⟨fuel - 1, by omega⟩
    rw [audioMix_succ mem f out n hn]
    have hstep : audioMixStep mem out n
        = .done (out, 0, List.replicate (n * out.numChannels) 0) := by
      unfold audioMixStep modAudioOutRecord.activeStreamCount
      rw [hact]
      simp only [List.length_nil, mixCase0]
      have h2 : ¬ (n : Int) * (out.numChannels : Int) < 0 := by
        have := mul_nonneg (Int.ofNat_nonneg n) (Int.ofNat_nonneg out.numChannels)
        simpa using this
      rw [if_neg h2, ← Nat.cast_mul, Int.toNat_natCast]
    rw [hstep, Outcome.bind_done]
    simp only [audioMix_zero, Outcome.bind_done, List.append_nil]

/-! ## Callback markers -/

theorem deliverLoop_spec : ∀ (pending calls : List Int),
    deliverLoop pending calls = ([], calls ++ pending) := by
  intro pending
  induction pending with
  | nil => intro calls; simp [deliverLoop]
  | cons id rest ih => intro calls; simp [deliverLoop, ih]

theorem deliverCallbacks_spec (out : modAudioOutRecord) :
    deliverCallbacks out = ({ out with pendingCallbacks := [] }, out.pendingCallbacks) := by
  simp [deliverCallbacks, deliverLoop_spec]

theorem front_of_live_cons (s : modAudioOutStreamRecord) (e : modAudioQueueElementRecord)
    (rest : List modAudioQueueElementRecord) (hc : 1 ≤ s.elementCount)
    (hl : 0 < s.element.length) (h : live s = e :: rest) :
    s.front = e ∧ (live s).drop 1 = rest := by
  have h1 := live_eq_cons s hc hl
  rw [h] at h1
  simp only [List.drop_succ_cons, List.drop_zero] at h1
  refine ⟨(List.cons.inj h1).1.symm, ?_⟩
  rw [h]; rfl

theorem retiredCount_markers (ids : List Int) : retiredCount (ids.map callbackMarker) = 0 := by
  cases ids with
  | nil => rfl
  | cons a t => simp [retiredCount, callbackMarker]

/-- An accepted `enqueue(stream, id)` appends the marker to the queue of the stream. -/
theorem enqueue_marker (out : modAudioOutRecord) (i : Nat) (ids : List Int) (id : Int)
    (hq : MarkerQueue out i ids) (hroom : ids.length < MODDEF_AUDIOOUT_QUEUELENGTH) :
    ∃ out2, xs_audioout_enqueue out i (.callback id) = .done out2
      ∧ MarkerQueue out2 i (ids ++ [id]) ∧ out2.pendingCallbacks = out.pendingCallbacks
      ∧ SameConfig out out2 := by
  obtain ⟨hwf, hi, hlive, hec, hothers⟩ := hq
  obtain ⟨out2, hrun, hwf2, hcfg, hoth2, hlive2, hec2, hpend⟩ :=
    enqueueDone_spec out i (callbackMarker id) hwf hi (by rw [hec]; exact_mod_cast hroom)
      ⟨le_refl _, le_refl _, fun _ => rfl⟩
  refine ⟨out2, ?_, ⟨hwf2, by rw [hcfg.2.2]; exact hi, ?_, ?_, ?_⟩, hpend, hcfg⟩
  · unfold xs_audioout_enqueue
    have h1 : ¬ ((i : Int) < 0 ∨ (i : Int) ≥ out.streamCount) := by
      unfold modAudioOutRecord.streamCount; omega
    rw [if_neg h1]
    simp only [Int.toNat_natCast]
    have h2 : ¬ (MODDEF_AUDIOOUT_QUEUELENGTH : Int) = (out.streamAt i).elementCount := by
      rw [hec]; omega
    rw [if_neg h2]
    exact hrun
  · rw [hlive2, hlive, List.map_append]; rfl
  · rw [hec2, hec]; simp
  · intro j hj hlt
    rw [hoth2 j hj]
    exact hothers j hj (by rw [← hcfg.2.2]; exact hlt)

theorem enqueueMarkers_spec : ∀ (ids pre : List Int) (out : modAudioOutRecord) (i : Nat),
    MarkerQueue out i pre → pre.length + ids.length ≤ MODDEF_AUDIOOUT_QUEUELENGTH →
    ∃ out2, enqueueMarkers out i ids = .done out2 ∧ MarkerQueue out2 i (pre ++ ids)
      ∧ out2.pendingCallbacks = out.pendingCallbacks ∧ SameConfig out out2 := by
  intro ids
  induction ids with
  | nil =>
    intro pre out i hq _
    exact ⟨out, rfl, by simpa using hq, rfl, SameConfig.refl _⟩
  | cons id rest ih =>
    intro pre out i hq hlen
    obtain ⟨out1, hrun1, hq1, hp1, hcfg1⟩ := enqueue_marker out i pre id hq (by
      simp only [List.length_cons] at hlen; omega)
    obtain ⟨out2, hrun2, hq2, hp2, hcfg2⟩ := ih (pre ++ [id]) out1 i hq1 (by
      simp only [List.length_cons, List.length_append, List.length_nil] at hlen ⊢; omega)
    refine ⟨out2, ?_, by simpa using hq2, hp2.trans hp1, hcfg1.trans hcfg2⟩
    unfold enqueueMarkers at hrun2 ⊢
    rw [List.foldl_cons, Outcome.bind_done, hrun1]
    exact hrun2

/-- One pass of the outer loop on a stream whose front element is a callback marker: no
frame is consumed, the marker is retired and its identifier queued. -/
theorem marker_step (mem : Memory) (out : modAudioOutRecord) (i : Nat) (id : Int)
    (rest : List Int) (n : Int) (hq : MarkerQueue out i (id :: rest)) (hn : 0 < n)
    (hpend : out.pendingCallbacks.length < MODDEF_AUDIOOUT_QUEUELENGTH) :
    ∃ out2, audioMixStep mem out n = .done (out2, n, []) ∧ MarkerQueue out2 i rest
      ∧ out2.pendingCallbacks = out.pendingCallbacks ++ [id] ∧ SameConfig out out2 := by
  obtain ⟨hwf, hi, hlive, hec, hothers⟩ := hq
  have hc1 : 1 ≤ (out.streamAt i).elementCount := by rw [hec]; simp
  obtain ⟨_, _, hlen, _⟩ := hwf.2.2.1 i hi
  have hq2 : MODDEF_AUDIOOUT_QUEUELENGTH = 8 := rfl
  have hlen0 : 0 < (out.streamAt i).element.length := by rw [hlen, hq2]; decide
  obtain ⟨hfront, hdrop⟩ := front_of_live_cons _ _ _ hc1 hlen0
    (by simpa using hlive : live (out.streamAt i) = callbackMarker id :: rest.map callbackMarker)
  have hact : out.activeStream = [i] := active_eq_singleton out i hwf hi (by omega) hothers
  have hrun0 : availableRun out i = 0 := by
    unfold availableRun modAudioOutRecord.frontOf; rw [hfront]; rfl
  rw [audioMixStep_single mem out n i hwf.1 hact 0 (by rw [hrun0]; omega) (le_refl _)]
  obtain ⟨hwfX, hcfgX, hecX, hothX, hfrontX⟩ :=
    advance_spec out i 0 hwf hi hc1 (le_refl _) (by rw [hrun0])
  have hfX : (advance out i 0).frontOf i = callbackMarker id := by
    rw [hfrontX]; unfold modAudioOutRecord.frontOf; rw [hfront]; rfl
  have hiX : i < (advance out i 0).stream.length := by rw [hcfgX.2.2]; exact hi
  have hc1X : 1 ≤ ((advance out i 0).streamAt i).elementCount := by rw [hecX]; exact hc1
  have hliveX : (live ((advance out i 0).streamAt i)).drop 1 = rest.map callbackMarker := by
    unfold advance
    rw [streamAt_setFrontOf_self _ _ _ hi, live_setFront _ _ hc1 hlen0, hdrop]
    rfl
  obtain ⟨out2, hrun, hwf2, hcfg2, hoth2, hl1, hl2, hl3, _⟩ :=
    endOfElement_wf (advance out i 0) i hwfX hiX hc1X
  have hcf : completedFront ((advance out i 0).streamAt i)
      = { samples := id, sampleCount := 0, position := 0, repeatCount := 0 } := by
    have : ((advance out i 0).streamAt i).front = callbackMarker id := hfX
    unfold completedFront
    rw [this]
    rfl
  have hk : retiredCount (completedFront ((advance out i 0).streamAt i)
      :: (live ((advance out i 0).streamAt i)).drop 1) = 1 := by
    rw [hliveX, hcf, retiredCount, retiredCount_markers]
    rfl
  rw [hk] at hl1 hl2 hl3
  rw [hliveX] at hl1 hl3
  have hcomplete : completeIfDone (advance out i 0) i = .done out2 := by
    unfold completeIfDone
    rw [hfX, if_pos (by rfl), hrun]
  rw [hcomplete, Outcome.bind_done]
  refine ⟨out2, by simp, ⟨hwf2, by rw [hcfg2.2.2]; exact hiX, ?_, ?_, ?_⟩, ?_, hcfgX.trans hcfg2⟩
  · rw [hl1]; rfl
  · rw [hl2, hecX, hec]; simp
  · intro j hj hlt
    rw [hoth2 j hj, hothX j hj]
    exact hothers j hj (by rw [← (hcfgX.trans hcfg2).2.2]; exact hlt)
  · rw [hl3, hcf]
    show pendingAfter (advance out i 0).pendingCallbacks _ = _
    simp [pendingAfter, advance, hpend]

/-- One `audioMix` call retires all the markers of a marker queue, in order, and then
writes silence. -/
theorem markers_mix (mem : Memory) (i : Nat) (n : Nat) (hn : 0 < n) :
    ∀ (ids : List Int) (out : modAudioOutRecord) (fuel : Nat), MarkerQueue out i ids →
    out.pendingCallbacks.length + ids.length ≤ MODDEF_AUDIOOUT_QUEUELENGTH →
    ids.length + 1 ≤ fuel →
    ∃ out2, audioMix mem fuel out n = .done (out2, List.replicate (n * out.numChannels) 0)
      ∧ MarkerQueue out2 i [] ∧ out2.pendingCallbacks = out.pendingCallbacks ++ ids
      ∧ out2.activeStream = [] ∧ SameConfig out out2 := by
  intro ids
  induction ids with
  | nil =>
    intro out fuel hq _ hfuel
    obtain ⟨hwf, hi, hlive, hec, hothers⟩ := hq
    have hact : out.activeStream = [] := by
      apply active_eq_nil out hwf
      intro j hj
      by_cases hji : j = i
      · rw [hji, hec]; rfl
      · exact hothers j hji hj
    exact ⟨out, audioMix_idle mem out n fuel hact (by omega), ⟨hwf, hi, hlive, hec, hothers⟩,
      by simp, hact, SameConfig.refl _⟩
  | cons id rest ih =>
    intro out fuel hq hpend hfuel
    simp only [List.length_cons] at hpend hfuel
    obtain ⟨f, rfl⟩ : ∃ f, fuel = f + 1 := ⟨fuel - 1, by omega⟩
    obtain ⟨out1, hstep, hq1, hp1, hcfg1⟩ :=
      marker_step mem out i id rest n hq (by exact_mod_cast hn) (by omega)
    obtain ⟨out2, hrun, hq2, hp2, hact2, hcfg2⟩ := ih out1 f hq1 (by
      rw [hp1, List.length_append, List.length_singleton]; omega) (by omega)
    refine ⟨out2, ?_, hq2, ?_, hact2, hcfg1.trans hcfg2⟩
    · rw [audioMix_succ mem f out n (by omega), hstep, Outcome.bind_done]
      simp only [hrun, Outcome.bind_done, List.nil_append, hcfg1.1]
    · rw [hp2, hp1, List.append_assoc]; rfl

/-! ## A stream holding a single element -/

theorem completeIfDone_of_ne (out : modAudioOutRecord) (i : Nat)
    (h : (out.frontOf i).position ≠ (out.frontOf i).sampleCount) :
    completeIfDone out i = .done out := by
  unfold completeIfDone
  rw [if_neg h]

/-- Advancing the front element of a stream that holds at least one element. -/
theorem live_advance (out : modAudioOutRecord) (i : Nat) (use : Int)
    (e : modAudioQueueElementRecord) (rest : List modAudioQueueElementRecord)
    (hwf : WellFormed out) (hi : i < out.stream.length)
    (hc1 : 1 ≤ (out.streamAt i).elementCount) (hlive : live (out.streamAt i) = e :: rest) :
    live ((advance out i use).streamAt i) = { e with position := e.position + use } :: rest
      ∧ (advance out i use).frontOf i = { e with position := e.position + use }
      ∧ out.frontOf i = e := by
  obtain ⟨_, _, hlen, _⟩ := hwf.2.2.1 i hi
  have hq2 : MODDEF_AUDIOOUT_QUEUELENGTH = 8 := rfl
  have hlen0 : 0 < (out.streamAt i).element.length := by rw [hlen, hq2]; decide
  obtain ⟨hfront, hdrop⟩ := front_of_live_cons _ _ _ hc1 hlen0 hlive
  have hfo : out.frontOf i = e := hfront
  refine ⟨?_, ?_, hfo⟩
  · unfold advance
    rw [streamAt_setFrontOf_self _ _ _ hi, live_setFront _ _ hc1 hlen0, hdrop, hfo]
  · unfold advance
    rw [frontOf_setFrontOf_self _ _ _ hi hlen0, hfo]

/-- Completion of the only element of a stream when this was its last play: the stream
becomes empty; the pending queue changes only if the element is a callback marker. -/
theorem complete_sole_last (out : modAudioOutRecord) (i : Nat) (e : modAudioQueueElementRecord)
    (hwf : WellFormed out) (hi : i < out.stream.length)
    (hec : (out.streamAt i).elementCount = 1) (hlive : live (out.streamAt i) = [e])
    (hend : e.position = e.sampleCount) (hrep : e.repeatCount = 1) (hs : e.sampleCount ≠ 0) :
    ∃ out2, completeIfDone out i = .done out2 ∧ WellFormed out2 ∧ SameConfig out out2
      ∧ (∀ j, j ≠ i → out2.streamAt j = out.streamAt j)
      ∧ (out2.streamAt i).elementCount = 0
      ∧ out2.pendingCallbacks = out.pendingCallbacks := by
  have hc1 : 1 ≤ (out.streamAt i).elementCount := by omega
  obtain ⟨_, _, hlen, _⟩ := hwf.2.2.1 i hi
  have hq2 : MODDEF_AUDIOOUT_QUEUELENGTH = 8 := rfl
  have hlen0 : 0 < (out.streamAt i).element.length := by rw [hlen, hq2]; decide
  obtain ⟨hfront, hdrop⟩ := front_of_live_cons _ _ _ hc1 hlen0 hlive
  obtain ⟨out2, hrun, hwf2, hcfg2, hoth2, _, hl2, hl3, _⟩ := endOfElement_wf out i hwf hi hc1
  have hcf : completedFront (out.streamAt i) = { e with position := 0, repeatCount := 0 } := by
    unfold completedFront
    rw [hfront, hrep]
    rfl
  have hk : retiredCount (completedFront (out.streamAt i) :: (live (out.streamAt i)).drop 1)
      = 1 := by
    rw [hdrop, hcf]; rfl
  rw [hk] at hl2 hl3
  rw [hdrop, hcf] at hl3
  refine ⟨out2, ?_, hwf2, hcfg2, hoth2, by rw [hl2, hec]; rfl, ?_⟩
  · unfold completeIfDone
    have : out.frontOf i = e := hfront
    rw [this, if_pos hend, hrun]
  · rw [hl3]
    simp [pendingAfter, hs]

/-- Completion of the only element of a stream when plays remain: the element restarts
with one play less. -/
theorem complete_sole_again (out : modAudioOutRecord) (i : Nat) (e : modAudioQueueElementRecord)
    (hwf : WellFormed out) (hi : i < out.stream.length)
    (hec : (out.streamAt i).elementCount = 1) (hlive : live (out.streamAt i) = [e])
    (hend : e.position = e.sampleCount) (hrep : 2 ≤ e.repeatCount) :
    ∃ out2, completeIfDone out i = .done out2 ∧ WellFormed out2 ∧ SameConfig out out2
      ∧ (∀ j, j ≠ i → out2.streamAt j = out.streamAt j)
      ∧ (out2.streamAt i).elementCount = 1
      ∧ live (out2.streamAt i) = [{ e with position := 0, repeatCount := e.repeatCount - 1 }]
      ∧ out2.pendingCallbacks = out.pendingCallbacks := by
  have hc1 : 1 ≤ (out.streamAt i).elementCount := by omega
  obtain ⟨_, _, hlen, _⟩ := hwf.2.2.1 i hi
  have hq2 : MODDEF_AUDIOOUT_QUEUELENGTH = 8 := rfl
  have hlen0 : 0 < (out.streamAt i).element.length := by rw [hlen, hq2]; decide
  obtain ⟨hfront, hdrop⟩ := front_of_live_cons _ _ _ hc1 hlen0 hlive
  obtain ⟨out2, hrun, hwf2, hcfg2, hoth2, hl1, hl2, hl3, _⟩ := endOfElement_wf out i hwf hi hc1
  have hcf : completedFront (out.streamAt i)
      = { e with position := 0, repeatCount := e.repeatCount - 1 } := by
    unfold completedFront
    rw [hfront, if_neg (by omega)]
  have hk : retiredCount (completedFront (out.streamAt i) :: (live (out.streamAt i)).drop 1)
      = 0 := by
    rw [hdrop, hcf, retiredCount, if_neg (by simp only; omega)]
  rw [hk] at hl1 hl2 hl3
  rw [hdrop, hcf] at hl1
  refine ⟨out2, ?_, hwf2, hcfg2, hoth2, by rw [hl2, hec]; rfl, by rw [hl1]; rfl, ?_⟩
  · unfold completeIfDone
    have : out.frontOf i = e := hfront
    rw [this, if_pos hend, hrun]
  · rw [hl3]; rfl

theorem allEmpty_active (out : modAudioOutRecord) (h : AllEmpty out) : out.activeStream = [] :=
  active_eq_nil out h.1 h.2

theorem soleElement_active (out : modAudioOutRecord) (i : Nat) (e : modAudioQueueElementRecord)
    (h : SoleElement out i e) : out.activeStream = [i] :=
  active_eq_singleton out i h.1 h.2.1 (by rw [h.2.2.1]; decide) h.2.2.2.2

/-- One pass of the outer loop when a single stream holds a single buffer element that has
frames left: the frames mixed are copied from the buffer, and the element advances,
restarts with one play less, or is retired. -/
theorem sole_step (mem : Memory) (out : modAudioOutRecord) (i : Nat)
    (e : modAudioQueueElementRecord) (n : Int) (h : SoleElement out i e) (hn : 0 < n)
    (hpos : e.position < e.sampleCount) (hrep : 1 ≤ e.repeatCount) :
    ∃ out2, audioMixStep mem out n
        = .done (out2, n - min (e.sampleCount - e.position) n,
            (List.range ((min (e.sampleCount - e.position) n).toNat * out.numChannels)).map
              fun (j : Nat) =>
                readSample mem (e.position * out.bytesPerFrame + e.samples + 2 * (j : Int)))
      ∧ SameConfig out out2 ∧ out2.pendingCallbacks = out.pendingCallbacks
      ∧ (n < e.sampleCount - e.position →
          SoleElement out2 i { e with position := e.position + n })
      ∧ (e.sampleCount - e.position ≤ n → 2 ≤ e.repeatCount →
          SoleElement out2 i { e with position := 0, repeatCount := e.repeatCount - 1 })
      ∧ (e.sampleCount - e.position ≤ n → e.repeatCount = 1 → AllEmpty out2) := by
  have hact := soleElement_active out i e h
  obtain ⟨hwf, hi, hec, hlive, hothers⟩ := h
  have hc1 : 1 ≤ (out.streamAt i).elementCount := by omega
  have hp0 : 0 ≤ e.position := ((hwf.2.2.1 i hi).2.2.2 e (by rw [hlive]; simp)).1
  obtain ⟨hliveX, hfrontX, hfront⟩ :=
    live_advance out i (min (e.sampleCount - e.position) n) e [] hwf hi hc1 hlive
  have hrun0 : availableRun out i = e.sampleCount - e.position := by
    unfold availableRun; rw [hfront]
  have hu0 : 0 ≤ min (e.sampleCount - e.position) n := le_min (by omega) (by omega)
  rw [audioMixStep_single mem out n i hwf.1 hact _ (by rw [hrun0]) hu0]
  obtain ⟨hwfX, hcfgX, hecX, hothX, _⟩ := advance_spec out i _ hwf hi hc1 hu0
    (by rw [hrun0]; exact min_le_left _ _)
  have hiX : i < (advance out i (min (e.sampleCount - e.position) n)).stream.length := by
    rw [hcfgX.2.2]; exact hi
  have hsrc : sourceOf out i = e.position * out.bytesPerFrame + e.samples := by
    unfold sourceOf; rw [hfront]
  rw [hsrc]
  have hpX : (advance out i (min (e.sampleCount - e.position) n)).pendingCallbacks
      = out.pendingCallbacks := rfl
  by_cases hlt : n < e.sampleCount - e.position
  · have hmin : min (e.sampleCount - e.position) n = n := min_eq_right (le_of_lt hlt)
    rw [hmin] at hliveX hfrontX hwfX hcfgX hecX hothX hiX ⊢
    rw [completeIfDone_of_ne _ _ (by rw [hfrontX]; simp only; omega), Outcome.bind_done]
    refine ⟨_, rfl, hcfgX, rfl, fun _ => ⟨hwfX, hiX, by rw [hecX, hec], hliveX, ?_⟩,
      fun h => by omega, fun h => by omega⟩
    intro j hj hjl
    rw [hothX j hj]
    exact hothers j hj (by rw [← hcfgX.2.2]; exact hjl)
  · have hmin : min (e.sampleCount - e.position) n = e.sampleCount - e.position :=
      min_eq_left (by omega)
    rw [hmin] at hliveX hfrontX hwfX hcfgX hecX hothX hiX hpX ⊢
    have hendX : ({ e with position := e.position + (e.sampleCount - e.position) } :
        modAudioQueueElementRecord).position = e.sampleCount := by simp only; omega
    by_cases hr1 : e.repeatCount = 1
    · obtain ⟨out2, hrun, hwf2, hcfg2, hoth2, hec2, hp2⟩ := complete_sole_last _ i _ hwfX hiX
        (by rw [hecX, hec]) hliveX hendX hr1 (by simp only; omega)
      rw [hrun, Outcome.bind_done]
      refine ⟨out2, rfl, hcfgX.trans hcfg2, by rw [hp2, hpX], fun h => by omega,
        fun _ h => by omega, fun _ _ => ⟨hwf2, ?_⟩⟩
      intro j hj
      by_cases hji : j = i
      · rw [hji]; exact hec2
      · rw [hoth2 j hji, hothX j hji]
        exact hothers j hji (by rw [← (hcfgX.trans hcfg2).2.2]; exact hj)
    · obtain ⟨out2, hrun, hwf2, hcfg2, hoth2, hec2, hlive2, hp2⟩ := complete_sole_again _ i _
        hwfX hiX (by rw [hecX, hec]) hliveX hendX (by simp only; omega)
      rw [hrun, Outcome.bind_done]
      refine ⟨out2, rfl, hcfgX.trans hcfg2, by rw [hp2, hpX], fun h => by omega,
        fun _ _ => ⟨hwf2, by rw [hcfg2.2.2]; exact hiX, hec2, hlive2, ?_⟩,
        fun _ h => absurd h hr1⟩
      intro j hj hjl
      rw [hoth2 j hj, hothX j hj]
      exact hothers j hj (by rw [← (hcfgX.trans hcfg2).2.2]; exact hjl)

/-! ## Repeated playback of a single buffer -/

/-- C2: on every well-formed engine state and for every request `n ≥ 0`, `audioMix`
completes, with any sufficient bound on the passes of its outer loop, and writes exactly
`n * numChannels` samples, that is exactly `n` frames. -/
theorem audioMix_writes_exactly_requested (mem : Memory) (out : modAudioOutRecord) (n : Int)
    (hwf : WellFormed out) (hn : 0 ≤ n) :
    ∃ fuel out2 output,
      (∀ fuel2, fuel ≤ fuel2 → audioMix mem fuel2 out n = .done (out2, output))
      ∧ output.length = n.toNat * out.numChannels := by
  obtain ⟨fuel, out2, output, hrun, _, _, hlen, _⟩ :=
    audioMix_total mem n.toNat (engineMeasure out) out n hwf (by omega) rfl
  exact ⟨fuel, out2, output, audioMix_fuel_mono mem fuel out n _ hrun, hlen⟩

theorem audioMix_writes_exactly_requested_witness :
    WellFormed twoStreamEngine ∧ (0 : Int) ≤ 3
    ∧ ∃ fuel out2 output,
      (∀ fuel2, fuel ≤ fuel2 →
        audioMix addressMemory fuel2 twoStreamEngine 3 = .done (out2, output))
      ∧ output.length = (3 : Int).toNat * twoStreamEngine.numChannels :=
  ⟨by decide, by decide,
    audioMix_writes_exactly_requested addressMemory twoStreamEngine 3 (by decide) (by decide)⟩


/-! ## Zero-length slices, flush -/

theorem zeroRunEngine_step (mem : Memory) :
    audioMixStep mem zeroRunEngine 1 = .done (zeroRunEngine, 1, []) := by
  rfl

/-- C3: the accepted call `enqueue(0, buffer, Infinity, 0, 0)` on the fresh engine queues
a slice of zero frames with an infinite repeat; on the state it leaves, every pass of the
outer loop of `audioMix(1)` finds an available run of zero, writes nothing and changes
nothing, so the call exhausts every bound on the number of passes: it never returns. -/
theorem audioMix_zero_run_never_returns :
    xs_audioout_enqueue (xs_audioout 8000 1 1) 0 (.samples fourFrameBuffer (-1) 0 0)
        = .done zeroRunEngine
      ∧ zeroRunEngine.frontOf 0
        = { samples := 1012, sampleCount := 0, position := 0, repeatCount := -1 }
      ∧ (∀ mem : Memory, audioMixStep mem zeroRunEngine 1 = .done (zeroRunEngine, 1, []))
      ∧ (∀ (mem : Memory) (fuel : Nat), audioMix mem fuel zeroRunEngine 1 = .outOfFuel) := by
  refine ⟨by decide, by decide, zeroRunEngine_step, ?_⟩
  intro mem fuel
  induction fuel with
  | zero => rfl
  | succ k ih =>
    rw [audioMix_succ mem k _ 1 (by decide), zeroRunEngine_step]
    simp only [Outcome.bind, ih]

/-- C4: after a buffer was enqueued on stream 0 and the stream flushed, the flushed stream
is still listed in the active set: `audioMix(3)` then writes the first three frames of
the flushed buffer, where the same state with the active set recomputed (stream 0 empty)
gives silence; and `audioMix(4)`, which completes the stale element, reaches a `memcpy`
with a negative length. -/
theorem flush_leaves_stream_in_mix :
    ((xs_audioout_enqueue (xs_audioout 8000 1 1) 0 (.samples fourFrameBuffer 1 0 (-1))).bind
        fun s => xs_audioout_enqueue s 0 .flush) = .done flushedEngine
      ∧ (flushedEngine.streamAt 0).elementCount = 0
      ∧ flushedEngine.activeStream = [0]
      ∧ (audioMix addressMemory 1 flushedEngine 3).bind (fun r => .done r.2)
          = .done [1012, 1014, 1016]
      ∧ (audioMix addressMemory 1 (updateActiveStreams flushedEngine) 3).bind
          (fun r => .done r.2) = .done [0, 0, 0]
      ∧ audioMix addressMemory 2 flushedEngine 4 = .undefinedBehaviour := by
  decide

/-- The flush form of `xs_audioout_enqueue` on a valid stream that is not at capacity:
the stream's count becomes 0 and nothing else changes. -/
theorem flush_spec (out : modAudioOutRecord) (stream : Int) (h0 : 0 ≤ stream)
    (h1 : stream < out.streamCount)
    (hfull : (out.streamAt stream.toNat).elementCount ≠ MODDEF_AUDIOOUT_QUEUELENGTH) :
    xs_audioout_enqueue out stream .flush
      = .done (out.setStream stream.toNat { out.streamAt stream.toNat with elementCount := 0 }) := by
  unfold xs_audioout_enqueue
  rw [if_neg (by omega), if_neg (fun h => hfull h.symm)]

/-- C10: on a stream that holds `MODDEF_AUDIOOUT_QUEUELENGTH` elements (here after that
many accepted marker enqueues) the flush form of `xs_audioout_enqueue` raises "queue full":
the capacity check precedes the dispatch on the argument count, and the stream keeps its
elements. -/
theorem flush_of_full_stream_is_rejected :
    (List.range MODDEF_AUDIOOUT_QUEUELENGTH).foldl
        (fun (r : Outcome modAudioOutRecord) (id : Nat) =>
          r.bind fun s => xs_audioout_enqueue s 0 (.callback id))
        (.done (xs_audioout 8000 1 1)) = .done fullEngine
      ∧ WellFormed fullEngine
      ∧ (fullEngine.streamAt 0).elementCount = MODDEF_AUDIOOUT_QUEUELENGTH
      ∧ xs_audioout_enqueue fullEngine 0 .flush = .thrown "queue full" := by
  decide

/-! ## Infinite repeat -/

theorem laterSamplesQueued_eq (s : modAudioOutStreamRecord) :
    laterSamplesQueued s = ((live s).drop 1).any fun e => decide (e.sampleCount ≠ 0) := rfl

/-- C6: `endOfElement` on a non-empty well-formed stream whose front element has a
negative repeat count.  If no element queued behind the front has `sampleCount > 0`, the
whole state is as before except that the front element's position is 0: the element is
not retired, whatever callback markers are queued behind it.  If some element queued
behind it has `sampleCount > 0`, the front element is removed: the queue that remains is
the old queue without its first `k ≥ 1` elements. -/
theorem endOfElement_infinite_repeat (out : modAudioOutRecord) (i : Nat)
    (hwf : WellFormed out) (hi : i < out.stream.length)
    (hc1 : 1 ≤ (out.streamAt i).elementCount) (hneg : (out.frontOf i).repeatCount < 0) :
    ((∀ e ∈ (live (out.streamAt i)).drop 1, ¬ 0 < e.sampleCount) →
        endOfElement out i = .done (out.setFrontOf i { out.frontOf i with position := 0 }))
    ∧ ((∃ e ∈ (live (out.streamAt i)).drop 1, 0 < e.sampleCount) →
        ∃ out2 k, endOfElement out i = .done out2 ∧ 1 ≤ k
          ∧ live (out2.streamAt i) = (live (out.streamAt i)).drop k
          ∧ (out2.streamAt i).elementCount = (out.streamAt i).elementCount - k
          ∧ ∀ j, j ≠ i → out2.streamAt j = out.streamAt j) := by
  obtain ⟨out2, hrun, _, _, hothers, hl1, hl2, _, hsame⟩ := endOfElement_wf out i hwf hi hc1
  obtain ⟨_, _, hlen, hlive⟩ := hwf.2.2.1 i hi
  have hneg2 : (out.streamAt i).front.repeatCount < 0 := hneg
  constructor
  · intro hnone
    have hlater : laterSamplesQueued (out.streamAt i) = false := by
      rw [laterSamplesQueued_eq, List.any_eq_false]
      intro e he
      have h1 := (hlive e (List.mem_of_mem_drop he))
      have h2 := hnone e he
      have : e.sampleCount = 0 := by have := h1.1; have := h1.2.1; omega
      simp [this]
    have hcf : completedFront (out.streamAt i) = { out.frontOf i with position := 0 } := by
      unfold completedFront
      rw [if_pos hneg2, hlater]
      rfl
    rw [hrun, hsame (by rw [hcf]; exact ne_of_lt hneg), hcf]
  · rintro ⟨e, he, hpos⟩
    have hlater : laterSamplesQueued (out.streamAt i) = true := by
      rw [laterSamplesQueued_eq, List.any_eq_true]
      exact ⟨e, he, by simpa using (ne_of_gt hpos)⟩
    have hcf : (completedFront (out.streamAt i)).repeatCount = 0 := by
      unfold completedFront
      rw [if_pos hneg2, hlater]
      rfl
    have hq2 : MODDEF_AUDIOOUT_QUEUELENGTH = 8 := rfl
    have hlen0 : 0 < (out.streamAt i).element.length := by rw [hlen, hq2]; decide
    have hk : retiredCount (completedFront (out.streamAt i) :: (live (out.streamAt i)).drop 1)
        = retiredCount ((live (out.streamAt i)).drop 1) + 1 := by
      rw [retiredCount, if_pos hcf]
    refine ⟨out2, retiredCount ((live (out.streamAt i)).drop 1) + 1, hrun, by omega, ?_, ?_,
      hothers⟩
    · rw [hl1, hk, List.drop_succ_cons, List.drop_drop, Nat.add_comm]
    · rw [hl2, hk]

theorem endOfElement_infinite_repeat_witness :
    WellFormed loopingEngine ∧ 0 < loopingEngine.stream.length
    ∧ 1 ≤ (loopingEngine.streamAt 0).elementCount ∧ (loopingEngine.frontOf 0).repeatCount < 0
    ∧ ((∀ e ∈ (live (loopingEngine.streamAt 0)).drop 1, ¬ 0 < e.sampleCount) →
        endOfElement loopingEngine 0
          = .done (loopingEngine.setFrontOf 0 { loopingEngine.frontOf 0 with position := 0 }))
    ∧ ((∃ e ∈ (live (loopingEngine.streamAt 0)).drop 1, 0 < e.sampleCount) →
        ∃ out2 k, endOfElement loopingEngine 0 = .done out2 ∧ 1 ≤ k
          ∧ live (out2.streamAt 0) = (live (loopingEngine.streamAt 0)).drop k
          ∧ (out2.streamAt 0).elementCount = (loopingEngine.streamAt 0).elementCount - k
          ∧ ∀ j, j ≠ 0 → out2.streamAt j = loopingEngine.streamAt j) :=
  ⟨by decide, by decide, by decide, by decide,
    endOfElement_infinite_repeat loopingEngine 0 (by decide) (by decide) (by decide) (by decide)⟩

/-! ## Claims on callback markers -/

theorem markerQueue_of_empty (out : modAudioOutRecord) (i : Nat) (hwf : WellFormed out)
    (hi : i < out.streamCount)
    (hempty : ∀ j, j < out.streamCount → (out.streamAt j).elementCount = 0) :
    MarkerQueue out i [] := by
  refine ⟨hwf, hi, ?_, by rw [hempty i hi]; rfl, fun j _ hj => hempty j hj⟩
  unfold live
  rw [hempty i hi]
  rfl

/-- C7 (counterexample): marker 1 is enqueued on stream 1, then marker 2 on stream 0; one
`audioMix(1)` call retires both and the delivery pass invokes the callback with 2 and
then with 1, which is not the order in which the markers were enqueued. -/
theorem callbacks_cross_stream_order :
    ((xs_audioout_enqueue (xs_audioout 8000 1 2) 1 (.callback 1)).bind
        fun s => xs_audioout_enqueue s 0 (.callback 2)) = .done crossStreamEngine
      ∧ ∃ calls, ((audioMix addressMemory 3 crossStreamEngine 1).bind
            fun r => .done (deliverCallbacks r.1).2) = .done calls
          ∧ calls = [2, 1] ∧ calls ≠ [1, 2] :=
  ⟨by decide, [2, 1], by decide, rfl, by decide⟩

/-- Markers enqueued on one stream of an engine whose streams are empty and
which has no pending callback are all retired by one `audioMix(n)` call, `n > 0`, and the
delivery pass that follows invokes the callback with their identifiers in the order in
which they were enqueued, once each, leaving no pending identifier. -/
theorem markers_delivered_in_queue_order (mem : Memory) (out : modAudioOutRecord) (i : Nat)
    (ids : List Int) (n : Int) (hwf : WellFormed out) (hi : i < out.streamCount)
    (hempty : ∀ j, j < out.streamCount → (out.streamAt j).elementCount = 0)
    (hpend : out.pendingCallbacks = []) (hlen : ids.length ≤ MODDEF_AUDIOOUT_QUEUELENGTH)
    (hn : 0 < n) :
    ∃ out1 out2 output, enqueueMarkers out i ids = .done out1
      ∧ (∀ fuel, ids.length + 1 ≤ fuel → audioMix mem fuel out1 n = .done (out2, output))
      ∧ out2.pendingCallbacks = ids
      ∧ (deliverCallbacks out2).2 = ids
      ∧ (deliverCallbacks out2).1.pendingCallbacks = [] := by
  obtain ⟨out1, hrun1, hq1, hp1, _⟩ := enqueueMarkers_spec ids [] out i
    (markerQueue_of_empty out i hwf hi hempty) (by simpa using hlen)
  simp only [List.nil_append] at hq1
  obtain ⟨m, hm⟩ : ∃ m : Nat, n = m := ⟨n.toNat, by omega⟩
  obtain ⟨out2, hrun2, _, hp2, _, _⟩ := markers_mix mem i m (by omega) ids out1
    (ids.length + 1) hq1 (by rw [hp1, hpend]; simpa using hlen) (le_refl _)
  rw [hp1, hpend, List.nil_append] at hp2
  refine ⟨out1, out2, List.replicate (m * out1.numChannels) 0, hrun1, fun fuel hfuel => ?_,
    hp2, ?_, ?_⟩
  · rw [hm]
    exact audioMix_fuel_mono mem _ _ _ _ hrun2 fuel hfuel
  · rw [deliverCallbacks_spec, hp2]
  · rw [deliverCallbacks_spec]

theorem markers_delivered_in_queue_order_witness :
    WellFormed (xs_audioout 8000 1 2) ∧ 1 < (xs_audioout 8000 1 2).streamCount
    ∧ (∀ j, j < (xs_audioout 8000 1 2).streamCount →
        ((xs_audioout 8000 1 2).streamAt j).elementCount = 0)
    ∧ (xs_audioout 8000 1 2).pendingCallbacks = []
    ∧ [7, 8, 9].length ≤ MODDEF_AUDIOOUT_QUEUELENGTH ∧ (0 : Int) < 5
    ∧ ∃ out1 out2 output, enqueueMarkers (xs_audioout 8000 1 2) (1 : Nat) [7, 8, 9] = .done out1
      ∧ (∀ fuel, [7, 8, 9].length + 1 ≤ fuel →
          audioMix addressMemory fuel out1 5 = .done (out2, output))
      ∧ out2.pendingCallbacks = [7, 8, 9]
      ∧ (deliverCallbacks out2).2 = [7, 8, 9]
      ∧ (deliverCallbacks out2).1.pendingCallbacks = [] :=
  ⟨by decide, by decide, by decide, by decide, by decide, by decide,
    markers_delivered_in_queue_order addressMemory (xs_audioout 8000 1 2) 1 [7, 8, 9] 5
      (by decide) (by decide) (by decide) (by decide) (by decide) (by decide)⟩

theorem inactive_empty (out : modAudioOutRecord) (hwf : WellFormed out) (j : Nat)
    (hj : j < out.stream.length) (hna : j ∉ out.activeStream) :
    (out.streamAt j).elementCount = 0 := by
  rw [hwf.2.2.2] at hna
  simp only [updateActiveStreams, List.mem_filter, List.mem_range, decide_eq_true_eq, not_and,
    not_not, modAudioOutRecord.streamCount] at hna
  exact hna hj

/-- C9: streams 0 and 1 are the active set; stream 0 holds one buffer of `L0` frames and
stream 1 one buffer of `L1` frames, `L0 ≥ L1 ≥ 1`, both with repeat 1 and at position 0.
A single `audioMix(L0)` call completes; it writes the wrapped sum of both buffers for
frames `0 .. L1-1`, then the samples of stream 0 alone for frames `L1 .. L0-1`, and it
leaves both streams empty and no stream active. -/
theorem two_streams_sum_then_rest (mem : Memory) (out : modAudioOutRecord) (a0 a1 : Int)
    (L0 L1 : Nat) (hwf : WellFormed out) (hact : out.activeStream = [0, 1])
    (hec0 : (out.streamAt 0).elementCount = 1) (hlive0 : live (out.streamAt 0) = [⟨a0, L0, 0, 1⟩])
    (hec1 : (out.streamAt 1).elementCount = 1) (hlive1 : live (out.streamAt 1) = [⟨a1, L1, 0, 1⟩])
    (hL1 : 1 ≤ L1) (hL : L1 ≤ L0) (fuel : Nat) (hfuel : 2 ≤ fuel) :
    ∃ out2, audioMix mem fuel out L0
        = .done (out2,
            ((List.range (L1 * out.numChannels)).map fun (j : Nat) =>
              wrap16 (readSample mem (a0 + 2 * (j : Int)) + readSample mem (a1 + 2 * (j : Int))))
            ++ (List.range ((L0 - L1) * out.numChannels)).map fun (j : Nat) =>
              readSample mem (a0 + 2 * ((L1 * out.numChannels + j : Nat) : Int)))
      ∧ (out2.streamAt 0).elementCount = 0 ∧ (out2.streamAt 1).elementCount = 0
      ∧ out2.activeStream = [] := by
  have hvalid := active_valid out hwf
  rw [hact] at hvalid
  obtain ⟨hi0, hc0⟩ := hvalid 0 (by simp)
  obtain ⟨hi1, hc1⟩ := hvalid 1 (by simp)
  have hothers : ∀ j, j ≠ 0 → j ≠ 1 → j < out.stream.length →
      (out.streamAt j).elementCount = 0 := by
    intro j h0 h1 hj
    exact inactive_empty out hwf j hj (by rw [hact]; simp [h0, h1])
  -- the first pass mixes `L1` frames of both streams
  obtain ⟨hliveA, hfrontA, hfront0⟩ := live_advance out 0 L1 _ [] hwf hi0 hc0 hlive0
  obtain ⟨hwfA, hcfgA, hecA, hothA, _⟩ := advance_spec out 0 L1 hwf hi0 hc0 (by omega)
    (by unfold availableRun; rw [hfront0]; simp only; omega)
  have hlive1A : live ((advance out 0 L1).streamAt 1) = [⟨a1, L1, 0, 1⟩] := by
    rw [hothA 1 (by decide)]; exact hlive1
  have hi1A : 1 < (advance out 0 L1).stream.length := by rw [hcfgA.2.2]; exact hi1
  have hc1A : 1 ≤ ((advance out 0 L1).streamAt 1).elementCount := by rw [hecA]; exact hc1
  obtain ⟨hliveB, hfrontB, hfront1⟩ :=
    live_advance (advance out 0 L1) 1 L1 _ [] hwfA hi1A hc1A hlive1A
  obtain ⟨hwfB, hcfgB, hecB, hothB, _⟩ := advance_spec (advance out 0 L1) 1 L1 hwfA hi1A hc1A
    (by omega) (by unfold availableRun; rw [hfront1]; simp only; omega)
  obtain ⟨X, hX⟩ : ∃ X, X = advance (advance out 0 L1) 1 L1 := ⟨_, rfl⟩
  rw [← hX] at hliveB hfrontB hwfB hcfgB hecB hothB
  have hcfgX : SameConfig out X := hcfgA.trans hcfgB
  have hwfX : WellFormed X := hwfB
  have hi0X : 0 < X.stream.length := by rw [hcfgX.2.2]; exact hi0
  have hi1X : 1 < X.stream.length := by rw [hcfgX.2.2]; exact hi1
  have hlive0X : live (X.streamAt 0) = [⟨a0, L0, (0 : Int) + L1, 1⟩] := by
    rw [hothB 0 (by decide)]; exact hliveA
  have hfront0X : X.frontOf 0 = ⟨a0, L0, (0 : Int) + L1, 1⟩ := by
    unfold modAudioOutRecord.frontOf
    rw [hothB 0 (by decide)]; exact hfrontA
  have hec0X : (X.streamAt 0).elementCount = 1 := by rw [hecB, hecA]; exact hec0
  have hec1X : (X.streamAt 1).elementCount = 1 := by rw [hecB, hecA]; exact hec1
  have hothersX : ∀ j, j ≠ 0 → j ≠ 1 → j < X.stream.length →
      (X.streamAt j).elementCount = 0 := by
    intro j h0 h1 hj
    rw [hecB, hecA]
    exact hothers j h0 h1 (by rw [← hcfgX.2.2]; exact hj)
  have hrun0 : availableRun out 0 = L0 := by
    unfold availableRun; rw [hfront0]; simp
  have hrun1 : availableRun out 1 = L1 := by
    have : out.frontOf 1 = ⟨a1, L1, 0, 1⟩ := by
      have := hfront1
      unfold modAudioOutRecord.frontOf at this ⊢
      rw [hothA 1 (by decide)] at this
      exact this
    unfold availableRun; rw [this]; simp
  have hsrc0 : sourceOf out 0 = a0 := by unfold sourceOf; rw [hfront0]; simp
  have hsrc1 : sourceOf out 1 = a1 := by
    have : out.frontOf 1 = ⟨a1, L1, 0, 1⟩ := by
      have := hfront1
      unfold modAudioOutRecord.frontOf at this ⊢
      rw [hothA 1 (by decide)] at this
      exact this
    unfold sourceOf; rw [this]; simp
  have huse : framesPerStep out (L0 : Int) [0, 1] = (L1 : Int) := by
    simp only [framesPerStep, hrun0, hrun1]
    omega
  have hstep : ∀ Z, completeAll X [0, 1] = .done Z →
      audioMixStep mem out L0 = .done (Z, ((L0 - L1 : Nat) : Int),
        (List.range (L1 * out.numChannels)).map fun (j : Nat) =>
          wrap16 (readSample mem (a0 + 2 * (j : Int)) + readSample mem (a1 + 2 * (j : Int)))) := by
    intro Z hZ
    rw [audioMixStep_eq_mixGeneric mem out L0 hwf.1 (by
      unfold modAudioOutRecord.activeStreamCount; rw [hact]; decide) (active_count_le out hwf)]
    unfold mixGeneric
    simp only [hact, huse, advanceAll]
    rw [if_neg (by
      have := mul_nonneg (Int.ofNat_nonneg L1) (Int.ofNat_nonneg out.numChannels)
      simpa using this), ← hX, hZ, Outcome.bind_done]
    have e1 : (L0 : Int) - (L1 : Int) = ((L0 - L1 : Nat) : Int) := by omega
    have e2 : (List.range ((L1 : Int) * (out.numChannels : Int)).toNat).map
          (mixedSample mem out [0, 1])
        = (List.range (L1 * out.numChannels)).map fun (j : Nat) =>
          wrap16 (readSample mem (a0 + 2 * (j : Int)) + readSample mem (a1 + 2 * (j : Int))) := by
      rw [← Nat.cast_mul, Int.toNat_natCast]
      apply List.map_congr_left
      intro j _
      simp [mixedSample, hsrc0, hsrc1]
    rw [e1, e2]
  obtain ⟨f, rfl⟩ : ∃ f, fuel = f + 1 := ⟨fuel - 1, by omega⟩
  by_cases hEq : L0 = L1
  · -- both buffers end together
    subst hEq
    obtain ⟨Y, hrunY, hwfY, hcfgY, hothY, hecY, _⟩ := complete_sole_last X 0 _ hwfX hi0X hec0X
      hlive0X (by simp) rfl (by simp only; omega)
    have hi1Y : 1 < Y.stream.length := by rw [hcfgY.2.2]; exact hi1X
    obtain ⟨Z, hrunZ, hwfZ, hcfgZ, hothZ, hecZ, _⟩ := complete_sole_last Y 1 _ hwfY hi1Y
      (by rw [hothY 1 (by decide)]; exact hec1X)
      (by rw [hothY 1 (by decide)]; exact hliveB) (by simp) rfl (by simp only; omega)
    have hall : AllEmpty Z := by
      refine ⟨hwfZ, ?_⟩
      intro j hj
      by_cases h1 : j = 1
      · rw [h1]; exact hecZ
      · rw [hothZ j h1]
        by_cases h0 : j = 0
        · rw [h0]; exact hecY
        · rw [hothY j h0]
          exact hothersX j h0 h1 (by rw [← (hcfgY.trans hcfgZ).2.2]; exact hj)
    have hZ : completeAll X [0, 1] = .done Z := by
      simp only [completeAll, hrunY, Outcome.bind_done, hrunZ]
    refine ⟨Z, ?_, ?_, hecZ, allEmpty_active Z hall⟩
    · rw [audioMix_succ mem f out L0 (by omega), hstep Z hZ, Outcome.bind_done]
      simp [audioMix_zero, Outcome.bind_done]
    · rw [hothZ 0 (by decide)]; exact hecY
  · -- stream 1 ends first, stream 0 plays on alone
    have hlt : L1 < L0 := by omega
    have hY : completeIfDone X 0 = .done X :=
      completeIfDone_of_ne X 0 (by rw [hfront0X]; simp only; omega)
    obtain ⟨Z, hrunZ, hwfZ, hcfgZ, hothZ, hecZ, _⟩ := complete_sole_last X 1 _ hwfX hi1X hec1X
      hliveB (by simp) rfl (by simp only; omega)
    have hZ : completeAll X [0, 1] = .done Z := by
      simp only [completeAll, hY, Outcome.bind_done, hrunZ]
    have hsoleZ : SoleElement Z 0 ⟨a0, L0, L1, 1⟩ := by
      refine ⟨hwfZ, by rw [hcfgZ.2.2]; exact hi0X, ?_, ?_, ?_⟩
      · rw [hothZ 0 (by decide)]; exact hec0X
      · rw [hothZ 0 (by decide), hlive0X]; simp
      · intro j h0 hj
        by_cases h1 : j = 1
        · rw [h1]; exact hecZ
        · rw [hothZ j h1]
          exact hothersX j h0 h1 (by rw [← hcfgZ.2.2]; exact hj)
    obtain ⟨W, hstep2, hcfgW, _, _, _, hlast⟩ := sole_step mem Z 0 ⟨a0, L0, L1, 1⟩
      ((L0 - L1 : Nat) : Int) hsoleZ (by omega) (by simp only; omega) (by simp)
    simp only at hstep2 hlast
    have hallW := hlast (by omega) trivial
    have hmin : min ((L0 : Int) - (L1 : Int)) ((L0 - L1 : Nat) : Int) = ((L0 - L1 : Nat) : Int) := by
      omega
    rw [hmin, Int.toNat_natCast, sub_self] at hstep2
    obtain ⟨g, rfl⟩ : ∃ g, f = g + 1 := ⟨f - 1, by omega⟩
    refine ⟨W, ?_, ?_, ?_, allEmpty_active W hallW⟩
    · rw [audioMix_succ mem (g + 1) out L0 (by omega), hstep Z hZ, Outcome.bind_done]
      simp only
      rw [audioMix_succ mem g Z _ (by omega), hstep2, Outcome.bind_done]
      simp only [audioMix_zero, Outcome.bind_done, List.append_nil]
      congr 3
      rw [(hcfgX.trans hcfgZ).1]
      apply List.map_congr_left
      intro j _
      congr 1
      rw [(hcfgX.trans hcfgZ).2.1, hwf.1]
      push_cast
      ring
    · exact hallW.2 0 (by rw [hcfgW.2.2]; exact hsoleZ.2.1)
    · exact hallW.2 1 (by rw [hcfgW.2.2, hcfgZ.2.2]; exact hi1X)

theorem two_streams_sum_then_rest_witness :
    WellFormed duoEngine ∧ duoEngine.activeStream = [0, 1]
    ∧ (duoEngine.streamAt 0).elementCount = 1
    ∧ live (duoEngine.streamAt 0) = [⟨4012, ((100 : Nat) : Int), 0, 1⟩]
    ∧ (duoEngine.streamAt 1).elementCount = 1
    ∧ live (duoEngine.streamAt 1) = [⟨5012, ((50 : Nat) : Int), 0, 1⟩]
    ∧ 1 ≤ 50 ∧ 50 ≤ 100 ∧ 2 ≤ 2
    ∧ ∃ out2, audioMix addressMemory 2 duoEngine ((100 : Nat) : Int)
        = .done (out2,
            ((List.range (50 * duoEngine.numChannels)).map fun (j : Nat) =>
              wrap16 (readSample addressMemory (4012 + 2 * (j : Int))
                + readSample addressMemory (5012 + 2 * (j : Int))))
            ++ (List.range ((100 - 50) * duoEngine.numChannels)).map fun (j : Nat) =>
              readSample addressMemory
                (4012 + 2 * ((50 * duoEngine.numChannels + j : Nat) : Int)))
      ∧ (out2.streamAt 0).elementCount = 0 ∧ (out2.streamAt 1).elementCount = 0
      ∧ out2.activeStream = [] :=
  ⟨by decide, by decide, by decide, by decide, by decide, by decide, by decide, by decide,
    by decide,
    two_streams_sum_then_rest addressMemory duoEngine 4012 5012 100 50 (by decide) (by decide)
      (by decide) (by decide) (by decide) (by decide) (by decide) (by decide) 2 (by decide)⟩
/-! ## endOfElement on any stream within its slot array -/

theorem retireLoop_frame : ∀ (fuel : Nat) (out : modAudioOutRecord) (i : Nat),
    i < out.stream.length → 1 ≤ (out.streamAt i).elementCount →
    (out.streamAt i).elementCount ≤ MODDEF_AUDIOOUT_QUEUELENGTH →
    (out.streamAt i).element.length = MODDEF_AUDIOOUT_QUEUELENGTH →
    (out.streamAt i).elementCount.toNat ≤ fuel →
    ∃ out2, retireLoop fuel out i = .done out2 ∧ SameConfig out out2
      ∧ (∀ j, j ≠ i → out2.streamAt j = out.streamAt j)
      ∧ (out2.streamAt i).element.length = MODDEF_AUDIOOUT_QUEUELENGTH
      ∧ live (out2.streamAt i)
          = (live (out.streamAt i)).drop (retiredCount (live (out.streamAt i)))
      ∧ (out2.streamAt i).elementCount
          = (out.streamAt i).elementCount - retiredCount (live (out.streamAt i))
      ∧ 0 ≤ (out2.streamAt i).elementCount
      ∧ out2.pendingCallbacks = pendingAfter out.pendingCallbacks
          ((live (out.streamAt i)).take (retiredCount (live (out.streamAt i))))
      ∧ ((out.frontOf i).repeatCount ≠ 0 → out2 = out)
      ∧ ((out2.activeStream = out.activeStream ∧ (out2.streamAt i).elementCount ≠ 0)
          ∨ out2.activeStream = (updateActiveStreams out2).activeStream) := by
  intro fuel
  induction fuel with
  | zero =>
    intro out i _ hc1 _ _ hf
    omega
  | succ fuel ih =>
    intro out i hi hc1 hc8 hlen hf
    have hlen0 : 0 < (out.streamAt i).element.length := by
      rw [hlen]; decide
    have hcons := live_eq_cons (out.streamAt i) hc1 hlen0
    rw [retireLoop]
    by_cases hrep : (out.streamAt i).front.repeatCount ≠ 0
    · simp only [hrep, ne_eq, not_false_eq_true, if_true]
      have hk0 : retiredCount (live (out.streamAt i)) = 0 := by
        rw [hcons, retiredCount, if_neg hrep]
      rw [hk0]
      exact ⟨out, rfl, SameConfig.refl _, fun _ _ => rfl, hlen, by simp, by simp, by omega,
        by simp [pendingAfter], fun _ => rfl, Or.inl ⟨rfl, by omega⟩⟩
    · have hrep0 : (out.streamAt i).front.repeatCount = 0 := not_not.mp hrep
      simp only [hrep0, ne_eq, not_true_eq_false, if_false]
      have hfr0 : (out.frontOf i).repeatCount = 0 := hrep0
      have hk1 : retiredCount (live (out.streamAt i))
          = retiredCount ((live (out.streamAt i)).drop 1) + 1 := by
        conv_lhs => rw [hcons, retiredCount, if_pos hrep0]
      obtain ⟨out1, hout1, h1s, h1a, h1n, h1b, h1p⟩ : ∃ out1 : modAudioOutRecord,
          (if (out.streamAt i).front.sampleCount = 0
            then queueCallback out (out.streamAt i).front.samples else out) = out1
          ∧ out1.stream = out.stream ∧ out1.activeStream = out.activeStream
          ∧ out1.numChannels = out.numChannels ∧ out1.bytesPerFrame = out.bytesPerFrame
          ∧ out1.pendingCallbacks = pendingAfter out.pendingCallbacks [(out.streamAt i).front] := by
        refine ⟨_, rfl, ?_, ?_, ?_, ?_, ?_⟩
        · split <;> simp
        · split <;> simp
        · split <;> simp
        · split <;> simp
        · by_cases hs : (out.streamAt i).front.sampleCount = 0
          · simp only [hs, if_true, pendingAfter, queueCallback,
              modAudioOutRecord.pendingCallbackCount]
            split <;> rfl
          · simp only [hs, if_false, pendingAfter]
      rw [hout1]
      have h1at : ∀ j, out1.streamAt j = out.streamAt j := by
        intro j; simp [modAudioOutRecord.streamAt, h1s]
      have hi1 : i < out1.stream.length := by rw [h1s]; exact hi
      have hq : (MODDEF_AUDIOOUT_QUEUELENGTH : Int) = 8 := rfl
      have hq2 : MODDEF_AUDIOOUT_QUEUELENGTH = 8 := rfl
      by_cases hcount : (out.streamAt i).elementCount - 1 = 0
      · simp only [hcount, not_true_eq_false, if_false]
        have hlive1 : (live (out.streamAt i)).drop 1 = [] := by
          have h1 : (out.streamAt i).elementCount.toNat = 1 := by omega
          simp only [live, h1]
          cases (out.streamAt i).element <;> simp
        have hk : retiredCount (live (out.streamAt i)) = 1 := by
          rw [hk1, hlive1]; rfl
        rw [hk]
        refine ⟨_, rfl, ⟨by simp [h1n], by simp [h1b], by simp [h1s]⟩, ?_, ?_, ?_, ?_, ?_, ?_,
          fun h => absurd hfr0 h, Or.inr rfl⟩
        · intro j hj
          rw [updateActiveStreams_streamAt, streamAt_setStream_ne _ _ _ _ hj, h1at]
        · rw [updateActiveStreams_streamAt, streamAt_setStream_self _ _ _ hi1]
          exact hlen
        · rw [updateActiveStreams_streamAt, streamAt_setStream_self _ _ _ hi1, hlive1]
          simp [live]
        · rw [updateActiveStreams_streamAt, streamAt_setStream_self _ _ _ hi1]
          simp only [Nat.cast_one]; omega
        · rw [updateActiveStreams_streamAt, streamAt_setStream_self _ _ _ hi1]
        · rw [updateActiveStreams_pendingCallbacks, setStream_pendingCallbacks, h1p]
          conv_rhs => rw [hcons]
          simp
      · simp only [hcount, not_false_eq_true, if_true]
        have hnb : ¬((out.streamAt i).elementCount - 1 < 0 ∨
            (MODDEF_AUDIOOUT_QUEUELENGTH : Int) ≤ (out.streamAt i).elementCount - 1) := by
          rw [hq] at hc8 ⊢; omega
        simp only [hnb, if_false]
        obtain ⟨c, hc⟩ : ∃ c : Nat, ((out.streamAt i).elementCount - 1).toNat = c := ⟨_, rfl⟩
        have hclt : c < (out.streamAt i).element.length := by
          rw [hlen, hq2]; rw [hq] at hc8; omega
        have hc1' : (out.streamAt i).elementCount.toNat = c + 1 := by omega
        have hlive2 : live ⟨(out.streamAt i).elementCount - 1,
            memcpyElements (out.streamAt i).element c⟩ = (live (out.streamAt i)).drop 1 := by
          simp only [live, hc, hc1']
          exact take_memcpyElements _ _ hclt
        rw [hc]
        have hsat : (out1.setStream i ⟨(out.streamAt i).elementCount - 1,
            memcpyElements (out.streamAt i).element c⟩).streamAt i
              = ⟨(out.streamAt i).elementCount - 1, memcpyElements (out.streamAt i).element c⟩ :=
          streamAt_setStream_self _ _ _ hi1
        obtain ⟨out2, hrun, hcfg, hothers, hlen2, hl1, hl2, hnn, hl3, _, hact⟩ :=
          ih (out1.setStream i ⟨(out.streamAt i).elementCount - 1,
            memcpyElements (out.streamAt i).element c⟩) i (by simpa using hi1)
            (by rw [hsat]; show 1 ≤ (out.streamAt i).elementCount - 1; omega)
            (by rw [hsat]; show (out.streamAt i).elementCount - 1 ≤ _; omega)
            (by rw [hsat]; show (memcpyElements (out.streamAt i).element c).length = _
                rw [memcpyElements_length _ _ hclt]; exact hlen)
            (by rw [hsat]; show ((out.streamAt i).elementCount - 1).toNat ≤ fuel; omega)
        rw [hsat, hlive2] at hl1 hl2 hl3
        rw [hk1]
        refine ⟨out2, hrun, ?_, ?_, hlen2, ?_, ?_, hnn, ?_, fun h => absurd hfr0 h, ?_⟩
        · obtain ⟨a, b, c'⟩ := hcfg
          exact ⟨by simpa [h1n] using a, by simpa [h1b] using b, by simpa [h1s] using c'⟩
        · intro j hj
          rw [hothers j hj, streamAt_setStream_ne _ _ _ _ hj, h1at]
        · rw [hl1, List.drop_drop, Nat.add_comm]
        · rw [hl2]; push_cast; omega
        · rw [hl3, setStream_pendingCallbacks, h1p]
          conv_rhs => rw [hcons]
          simp only [List.take_succ_cons, pendingAfter, List.drop_succ_cons, List.drop_zero]
        · simpa [h1a] using hact

theorem endOfElement_frame (out : modAudioOutRecord) (i : Nat) (hi : i < out.stream.length)
    (hc1 : 1 ≤ (out.streamAt i).elementCount)
    (hc8 : (out.streamAt i).elementCount ≤ MODDEF_AUDIOOUT_QUEUELENGTH)
    (hlen : (out.streamAt i).element.length = MODDEF_AUDIOOUT_QUEUELENGTH) :
    ∃ out2, endOfElement out i = .done out2 ∧ SameConfig out out2
      ∧ (∀ j, j ≠ i → out2.streamAt j = out.streamAt j)
      ∧ (out2.streamAt i).element.length = MODDEF_AUDIOOUT_QUEUELENGTH
      ∧ live (out2.streamAt i)
          = (completedFront (out.streamAt i) :: (live (out.streamAt i)).drop 1).drop
              (retiredCount (completedFront (out.streamAt i) :: (live (out.streamAt i)).drop 1))
      ∧ (out2.streamAt i).elementCount = (out.streamAt i).elementCount
          - retiredCount (completedFront (out.streamAt i) :: (live (out.streamAt i)).drop 1)
      ∧ 0 ≤ (out2.streamAt i).elementCount
      ∧ out2.pendingCallbacks = pendingAfter out.pendingCallbacks
          ((completedFront (out.streamAt i) :: (live (out.streamAt i)).drop 1).take
            (retiredCount (completedFront (out.streamAt i) :: (live (out.streamAt i)).drop 1)))
      ∧ ((completedFront (out.streamAt i)).repeatCount ≠ 0
          → out2 = out.setFrontOf i (completedFront (out.streamAt i)))
      ∧ ((out2.activeStream = out.activeStream ∧ (out2.streamAt i).elementCount ≠ 0)
          ∨ out2.activeStream = (updateActiveStreams out2).activeStream) := by
  have hq2 : MODDEF_AUDIOOUT_QUEUELENGTH = 8 := rfl
  have hlen0 : 0 < (out.streamAt i).element.length := by rw [hlen, hq2]; decide
  have hsat : (out.setFrontOf i (completedFront (out.streamAt i))).streamAt i
      = (out.streamAt i).setFront (completedFront (out.streamAt i)) :=
    streamAt_setFrontOf_self _ _ _ hi
  have hfr : ((out.streamAt i).setFront (completedFront (out.streamAt i))).front
      = completedFront (out.streamAt i) := front_setFront _ _ hlen0
  have hlv := live_setFront (out.streamAt i) (completedFront (out.streamAt i)) hc1 hlen0
  obtain ⟨out2, hrun, hcfg, hothers, hlen2, hk1, hk2, hnn, hk3, hsame, hact⟩ :=
    retireLoop_frame (MODDEF_AUDIOOUT_QUEUELENGTH + 1)
      (out.setFrontOf i (completedFront (out.streamAt i))) i (by simpa using hi)
      (by rw [hsat]; simpa using hc1) (by rw [hsat]; simpa using hc8)
      (by rw [hsat]; simpa using hlen)
      (by rw [hsat]; simp only [setFront_elementCount, hq2]; rw [hq2] at hc8; omega)
  rw [hsat, hlv] at hk1 hk2 hk3
  simp only [setFront_elementCount, setFrontOf_pendingCallbacks] at hk2 hk3
  have hfo : (out.setFrontOf i (completedFront (out.streamAt i))).frontOf i
      = completedFront (out.streamAt i) := by
    unfold modAudioOutRecord.frontOf; rw [hsat, hfr]
  rw [hfo] at hsame
  refine ⟨out2, by rw [endOfElement_eq]; exact hrun, ?_, ?_, hlen2, hk1, hk2, hnn, hk3, hsame, ?_⟩
  · exact ⟨by simpa using hcfg.1, by simpa using hcfg.2.1, by simpa using hcfg.2.2⟩
  · intro j hj
    rw [hothers j hj, streamAt_setFrontOf_ne _ _ _ _ hj]
  · simpa using hact

/-- On a stream whose count is 0, `endOfElement` returns only when the rewritten front slot
keeps a non-zero repeat count, and has then changed nothing but that slot. -/
theorem endOfElement_stale (out out2 : modAudioOutRecord) (i : Nat)
    (hc : (out.streamAt i).elementCount = 0) (hi : i < out.stream.length)
    (h : endOfElement out i = .done out2) :
    out2 = out.setFrontOf i (completedFront (out.streamAt i)) := by
  rw [endOfElement_eq] at h
  have hsat : (out.setFrontOf i (completedFront (out.streamAt i))).streamAt i
      = (out.streamAt i).setFront (completedFront (out.streamAt i)) :=
    streamAt_setFrontOf_self _ _ _ hi
  have hq : (MODDEF_AUDIOOUT_QUEUELENGTH : Int) = 8 := rfl
  rw [show MODDEF_AUDIOOUT_QUEUELENGTH + 1 = 8 + 1 from rfl, retireLoop] at h
  simp only [hsat, setFront_elementCount, hc] at h
  split at h
  · simp only [Outcome.done.injEq] at h
    exact h.symm
  · simp at h
/-! ## The invariant between calls -/

theorem pendingAfter_length_le : ∀ (l : List modAudioQueueElementRecord) (pending : List Int),
    pending.length ≤ MODDEF_AUDIOOUT_QUEUELENGTH →
    (pendingAfter pending l).length ≤ MODDEF_AUDIOOUT_QUEUELENGTH := by
  intro l
  induction l with
  | nil => intro pending h; exact h
  | cons e rest ih =>
    intro pending h
    rw [pendingAfter]
    apply ih
    split
    · split
      · rw [List.length_append, List.length_singleton]; omega
      · exact h
    · exact h

theorem retired_refl (s : modAudioOutStreamRecord) : Retired s s 0 :=
  ⟨by simp, rfl⟩

theorem retired_trans {s t u : modAudioOutStreamRecord} {k k2 : Nat}
    (h1 : Retired s t k) (h2 : Retired t u k2) : Retired s u (k + k2) := by
  refine ⟨?_, ?_⟩
  · rw [h2.1, h1.1]; push_cast; omega
  · rw [h2.2, show k2 + 1 = 1 + k2 from Nat.add_comm _ _, ← List.drop_drop, h1.2,
      List.drop_drop]
    congr 1
    omega

theorem streamAt_advance (out : modAudioOutRecord) (i j : Nat) (use : Int)
    (hi : i < out.stream.length) :
    (advance out i use).streamAt j
      = if j = i then advanceStream (out.streamAt i) use else out.streamAt j := by
  unfold advance
  by_cases hji : j = i
  · rw [if_pos hji, hji, streamAt_setFrontOf_self _ _ _ hi]
    rfl
  · rw [if_neg hji, streamAt_setFrontOf_ne _ _ _ _ hji]

theorem advanceAll_frame (use : Int) : ∀ (l : List Nat) (out : modAudioOutRecord),
    (∀ i ∈ l, i < out.stream.length) → l.Nodup →
    (∀ j, (advanceAll out use l).streamAt j
        = if j ∈ l then advanceStream (out.streamAt j) use else out.streamAt j)
      ∧ SameConfig out (advanceAll out use l)
      ∧ (advanceAll out use l).activeStream = out.activeStream
      ∧ (advanceAll out use l).pendingCallbacks = out.pendingCallbacks := by
  intro l
  induction l with
  | nil =>
    intro out _ _
    exact ⟨fun j => by simp [advanceAll], SameConfig.refl _, rfl, rfl⟩
  | cons i rest ih =>
    intro out hb hnd
    have hi : i < out.stream.length := hb i (List.mem_cons_self _ _)
    have hnd2 := List.nodup_cons.mp hnd
    have hlen : (advance out i use).stream.length = out.stream.length := by
      unfold advance; simp
    obtain ⟨h1, h2, h3, h4⟩ := ih (advance out i use)
      (fun k hk => by rw [hlen]; exact hb k (List.mem_cons_of_mem _ hk)) hnd2.2
    rw [advanceAll]
    refine ⟨?_, ?_, ?_, ?_⟩
    · intro j
      rw [h1 j, streamAt_advance _ _ _ _ hi]
      by_cases hji : j = i
      · subst hji
        simp [hnd2.1]
      · simp [hji]
    · obtain ⟨a, b, c⟩ := h2
      exact ⟨by rw [a]; unfold advance; simp, by rw [b]; unfold advance; simp, by rw [c, hlen]⟩
    · rw [h3]; unfold advance; simp
    · rw [h4]; unfold advance; simp

theorem advanceStream_mid (s : modAudioOutStreamRecord) (use : Int) (hs : QueueMid s)
    (hu0 : 0 ≤ use) (hu : 1 ≤ s.elementCount → use ≤ s.front.sampleCount - s.front.position) :
    QueueMid (advanceStream s use) ∧ Retired s (advanceStream s use) 0 := by
  obtain ⟨hc0, hc8, hlen, hpos, htail⟩ := hs
  have hq2 : MODDEF_AUDIOOUT_QUEUELENGTH = 8 := rfl
  have hlen0 : 0 < s.element.length := by rw [hlen, hq2]; decide
  by_cases hc : 1 ≤ s.elementCount
  · have hlv : live (advanceStream s use)
        = { s.front with position := s.front.position + use } :: (live s).drop 1 :=
      live_setFront s _ hc hlen0
    have hf := hpos _ (front_mem_live s hc hlen0)
    have hu2 := hu hc
    refine ⟨⟨hc0, hc8, by unfold advanceStream; simpa using hlen, ?_, ?_⟩, ⟨by simp [advanceStream], ?_⟩⟩
    · intro e he
      rw [hlv] at he
      rcases List.mem_cons.mp he with h | h
      · rw [h]; simp only; omega
      · exact hpos e (List.mem_of_mem_drop h)
    · intro e he
      rw [hlv] at he
      exact htail e he
    · rw [hlv]; rfl
  · have hz : s.elementCount.toNat = 0 := by omega
    have hl1 : live (advanceStream s use) = [] := by
      unfold live advanceStream; simp [hz]
    have hl2 : live s = [] := by
      unfold live; simp [hz]
    refine ⟨⟨hc0, hc8, by unfold advanceStream; simpa using hlen, ?_, ?_⟩, ⟨by simp [advanceStream], ?_⟩⟩
    · intro e he; rw [hl1] at he; simp at he
    · intro e he; rw [hl1] at he; simp at he
    · rw [hl1, hl2]

theorem midPass_mono {out : modAudioOutRecord} {todo todo2 : List Nat}
    (h : MidPass out todo) (hsub : ∀ j, j ∈ todo → j ∈ todo2) : MidPass out todo2 := by
  obtain ⟨a, b, c, d, e, f, g, p⟩ := h
  exact ⟨a, b, c, d, fun j hj hn => e j hj (fun hm => hn (hsub j hm)), f, g, p⟩

theorem live_of_empty (s : modAudioOutStreamRecord) (h : s.elementCount = 0) : live s = [] := by
  unfold live; simp [h]

theorem queueSettled_of_empty (s : modAudioOutStreamRecord) (h : s.elementCount = 0)
    (hlen : s.element.length = MODDEF_AUDIOOUT_QUEUELENGTH) : QueueSettled s := by
  have hl := live_of_empty s h
  refine ⟨⟨by omega, by rw [h]; decide, hlen, ?_, ?_⟩, ?_⟩
  · intro e he; rw [hl] at he; simp at he
  · intro e he; rw [hl] at he; simp at he
  · intro e he; rw [hl] at he; simp at he

/-- A stream in the middle of a pass whose front is not at its end is settled. -/
theorem queueSettled_of_not_at_end (s : modAudioOutStreamRecord) (hs : QueueMid s)
    (h : s.front.position ≠ s.front.sampleCount) : QueueSettled s := by
  refine ⟨hs, ?_⟩
  obtain ⟨hc0, hc8, hlen, hpos, htail⟩ := hs
  have hq2 : MODDEF_AUDIOOUT_QUEUELENGTH = 8 := rfl
  have hlen0 : 0 < s.element.length := by rw [hlen, hq2]; decide
  intro e he hsc
  by_cases hc : 1 ≤ s.elementCount
  · rw [live_eq_cons s hc hlen0] at he
    rcases List.mem_cons.mp he with h1 | h1
    · rw [h1]
      have := hpos _ (front_mem_live s hc hlen0)
      omega
    · rw [htail e h1]; exact hsc
  · rw [live_of_empty s (by omega)] at he
    simp at he

/-- The state after a change confined to stream `i`, which is left settled. -/
theorem midPass_of_stream (out out1 : modAudioOutRecord) (todo : List Nat) (i : Nat)
    (hmid : MidPass out todo) (hcfg : SameConfig out out1)
    (hothers : ∀ j, j ≠ i → out1.streamAt j = out.streamAt j)
    (hset : QueueSettled (out1.streamAt i))
    (hact : (out1.activeStream = out.activeStream
        ∧ ((out1.streamAt i).elementCount ≠ 0 → (out.streamAt i).elementCount ≠ 0))
      ∨ out1.activeStream = (updateActiveStreams out1).activeStream)
    (hpend : out1.pendingCallbacks.length ≤ MODDEF_AUDIOOUT_QUEUELENGTH) :
    MidPass out1 (todo.filter fun j => decide (j ≠ i)) := by
  obtain ⟨a, b, c, d, e, f, g, _⟩ := hmid
  obtain ⟨c1, c2, c3⟩ := hcfg
  refine ⟨by rw [c1, c2]; exact a, by rw [c1]; exact b, by rw [c3]; exact c, ?_, ?_, ?_, ?_,
    hpend⟩
  · intro j hj
    by_cases hji : j = i
    · rw [hji]; exact hset.1
    · rw [hothers j hji]; exact d j (by rw [← c3]; exact hj)
  · intro j hj hn
    by_cases hji : j = i
    · rw [hji]; exact hset
    · rw [hothers j hji]
      apply e j (by rw [← c3]; exact hj)
      intro hm
      exact hn (List.mem_filter.mpr ⟨hm, by simpa using hji⟩)
  · rcases hact with ⟨h1, _⟩ | h1
    · rw [h1, c3]; exact f
    · rw [h1]
      exact List.filter_sublist _
  · intro j hj hne
    rcases hact with ⟨h1, h2⟩ | h1
    · rw [h1]
      by_cases hji : j = i
      · rw [hji] at hne ⊢
        exact g i (by rw [← c3, ← hji]; exact hj) (h2 hne)
      · rw [hothers j hji] at hne
        exact g j (by rw [← c3]; exact hj) hne
    · rw [h1]
      simp only [updateActiveStreams, modAudioOutRecord.streamCount, List.mem_filter,
        List.mem_range, decide_eq_true_eq]
      exact ⟨hj, hne⟩

theorem completeIfDone_mid (out out1 : modAudioOutRecord) (todo : List Nat) (i : Nat)
    (hmid : MidPass out todo) (hi : i < out.stream.length)
    (h : completeIfDone out i = .done out1) :
    MidPass out1 (todo.filter fun j => decide (j ≠ i)) ∧ SameConfig out out1
      ∧ (∀ j, ∃ k, Retired (out.streamAt j) (out1.streamAt j) k) := by
  have hq := hmid.2.2.2.1 i hi
  obtain ⟨hc0, hc8, hlen, hpos, htail⟩ := hq
  have hq2 : MODDEF_AUDIOOUT_QUEUELENGTH = 8 := rfl
  have hlen0 : 0 < (out.streamAt i).element.length := by rw [hlen, hq2]; decide
  have hpend := hmid.2.2.2.2.2.2.2
  unfold completeIfDone at h
  by_cases hend : (out.frontOf i).position = (out.frontOf i).sampleCount
  · rw [if_pos hend] at h
    by_cases hc : 1 ≤ (out.streamAt i).elementCount
    · obtain ⟨out2, hrun, hcfg, hothers, hlen2, hl1, hl2, hnn, hl3, _, hact⟩ :=
        endOfElement_frame out i hi hc hc8 hlen
      rw [hrun] at h
      simp only [Outcome.done.injEq] at h
      subst h
      have hfront := hpos _ (front_mem_live _ hc hlen0)
      have hall : ∀ e ∈ completedFront (out.streamAt i) :: (live (out.streamAt i)).drop 1,
          e.position = 0 ∧ 0 ≤ e.sampleCount := by
        intro e he
        rcases List.mem_cons.mp he with h1 | h1
        · rw [h1, completedFront_position, completedFront_sampleCount]
          exact ⟨rfl, by omega⟩
        · have := hpos e (List.mem_of_mem_drop h1)
          have h0 := htail e h1
          exact ⟨h0, by omega⟩
      have hset : QueueSettled (out2.streamAt i) := by
        refine ⟨⟨hnn, by rw [hl2]; omega, hlen2, ?_, ?_⟩, ?_⟩
        · intro e he
          rw [hl1] at he
          have := hall e (List.mem_of_mem_drop he)
          omega
        · intro e he
          rw [hl1] at he
          exact (hall e (List.mem_of_mem_drop (List.mem_of_mem_drop he))).1
        · intro e he hsc
          rw [hl1] at he
          have := hall e (List.mem_of_mem_drop he)
          omega
      refine ⟨midPass_of_stream out out2 todo i hmid hcfg hothers hset ?_ ?_, hcfg, ?_⟩
      · rcases hact with ⟨h1, _⟩ | h1
        · exact Or.inl ⟨h1, fun _ => by omega⟩
        · exact Or.inr h1
      · rw [hl3]; exact pendingAfter_length_le _ _ hpend
      · intro j
        by_cases hji : j = i
        · rw [hji]
          refine ⟨retiredCount
            (completedFront (out.streamAt i) :: (live (out.streamAt i)).drop 1), hl2, ?_⟩
          rw [hl1, List.drop_drop]
          cases hk : retiredCount
              (completedFront (out.streamAt i) :: (live (out.streamAt i)).drop 1) with
          | zero => simp
          | succ m =>
            rw [List.drop_succ_cons, List.drop_drop, Nat.add_comm 1 (m + 1)]
        · rw [hothers j hji]; exact ⟨0, retired_refl _⟩
    · have hz : (out.streamAt i).elementCount = 0 := by omega
      have h2 := endOfElement_stale out out1 i hz hi h
      subst h2
      have hsat := streamAt_setFrontOf_self out i (completedFront (out.streamAt i)) hi
      have hset : QueueSettled
          ((out.setFrontOf i (completedFront (out.streamAt i))).streamAt i) := by
        apply queueSettled_of_empty
        · rw [hsat]; exact hz
        · rw [hsat]; simpa using hlen
      have hcfg : SameConfig out (out.setFrontOf i (completedFront (out.streamAt i))) :=
        ⟨rfl, rfl, by simp⟩
      refine ⟨midPass_of_stream out _ todo i hmid hcfg
        (fun j hj => streamAt_setFrontOf_ne _ _ _ _ hj) hset
        (Or.inl ⟨rfl, fun hne => absurd (by rw [hsat]; exact hz) hne⟩) hpend, hcfg, ?_⟩
      intro j
      by_cases hji : j = i
      · rw [hji]
        refine ⟨0, by rw [hsat]; simp, ?_⟩
        rw [live_of_empty _ hz, live_of_empty _ (by rw [hsat]; exact hz)]
      · rw [streamAt_setFrontOf_ne _ _ _ _ hji]; exact ⟨0, retired_refl _⟩
  · rw [if_neg hend] at h
    simp only [Outcome.done.injEq] at h
    subst h
    have hset : QueueSettled (out.streamAt i) :=
      queueSettled_of_not_at_end _ ⟨hc0, hc8, hlen, hpos, htail⟩ hend
    exact ⟨midPass_of_stream out out todo i hmid (SameConfig.refl _) (fun _ _ => rfl) hset
      (Or.inl ⟨rfl, fun h => h⟩) hpend, SameConfig.refl _, fun j => ⟨0, retired_refl _⟩⟩

theorem completeAll_mid : ∀ (todo : List Nat) (out out2 : modAudioOutRecord),
    MidPass out todo → (∀ i ∈ todo, i < out.stream.length) →
    completeAll out todo = .done out2 →
    Consistent out2 ∧ SameConfig out out2
      ∧ (∀ j, ∃ k, Retired (out.streamAt j) (out2.streamAt j) k) := by
  intro todo
  induction todo with
  | nil =>
    intro out out2 hmid _ h
    simp only [completeAll, Outcome.done.injEq] at h
    subst h
    exact ⟨hmid, SameConfig.refl _, fun j => ⟨0, retired_refl _⟩⟩
  | cons i rest ih =>
    intro out out2 hmid hb h
    rw [completeAll] at h
    obtain ⟨out1, h1, h2⟩ := Outcome.bind_eq_done h
    obtain ⟨hm1, hcfg1, hret1⟩ :=
      completeIfDone_mid out out1 (i :: rest) i hmid (hb i (List.mem_cons_self _ _)) h1
    have hm1' : MidPass out1 rest := by
      apply midPass_mono hm1
      intro j hj
      have := (List.mem_filter.mp hj).1
      have hne : j ≠ i := by simpa using (List.mem_filter.mp hj).2
      rcases List.mem_cons.mp this with h | h
      · exact absurd h hne
      · exact h
    obtain ⟨hc2, hcfg2, hret2⟩ := ih out1 out2 hm1'
      (fun k hk => by rw [hcfg1.2.2]; exact hb k (List.mem_cons_of_mem _ hk)) h2
    refine ⟨hc2, hcfg1.trans hcfg2, ?_⟩
    intro j
    obtain ⟨k1, hk1⟩ := hret1 j
    obtain ⟨k2, hk2⟩ := hret2 j
    exact ⟨k1 + k2, retired_trans hk1 hk2⟩

theorem live_advanceStream (s : modAudioOutStreamRecord) (use : Int)
    (hlen : 0 < s.element.length) :
    live (advanceStream s use) = advanceQueue use (live s) := by
  by_cases hc : 1 ≤ s.elementCount
  · have h1 : live (advanceStream s use)
        = { s.front with position := s.front.position + use } :: (live s).drop 1 :=
      live_setFront s _ hc hlen
    rw [h1]
    conv_rhs => rw [live_eq_cons s hc hlen]
    rfl
  · have hz : s.elementCount.toNat = 0 := by omega
    have hl1 : live (advanceStream s use) = [] := by
      unfold live advanceStream; simp [hz]
    have hl2 : live s = [] := by
      unfold live; simp [hz]
    rw [hl1, hl2]
    rfl
/-! ## The invariant across a pass and across a call of audioMix -/

theorem consistent_active (out : modAudioOutRecord) (hc : Consistent out) :
    (∀ i ∈ out.activeStream, i < out.stream.length) ∧ out.activeStream.Nodup
      ∧ out.activeStream.length ≤ 4 := by
  obtain ⟨_, _, c, _, _, f, _, _⟩ := hc
  refine ⟨?_, (List.nodup_range _).sublist f, ?_⟩
  · intro i hi
    exact List.mem_range.mp (f.subset hi)
  · have := f.length_le
    rw [List.length_range] at this
    exact le_trans this c

theorem audioMixStep_consistent (mem : Memory) (out out2 : modAudioOutRecord) (n n2 : Int)
    (chunk : List Int) (hc : Consistent out) (hn : 0 < n)
    (h : audioMixStep mem out n = .done (out2, n2, chunk)) :
    Consistent out2 ∧ SameConfig out out2 ∧ 0 ≤ n2 ∧ n2 ≤ n
      ∧ (∀ j, ∃ k, Retired (out.streamAt j) (out2.streamAt j) k) := by
  obtain ⟨hvalid, hnodup, hlen4⟩ := consistent_active out hc
  have hc' := hc
  obtain ⟨hbpf, hnc, hsc, hmidq, hsettled, hsub, hcontains, hpend⟩ := hc'
  by_cases hz : out.activeStream = []
  · simp only [audioMixStep, modAudioOutRecord.activeStreamCount, hz, List.length_nil,
      mixCase0] at h
    split at h
    · simp at h
    · simp only [Outcome.done.injEq, Prod.mk.injEq] at h
      obtain ⟨h1, h2, _⟩ := h
      subst h1
      exact ⟨hc, SameConfig.refl _, by omega, by omega, fun j => ⟨0, retired_refl _⟩⟩
  · have h1 : 1 ≤ out.activeStreamCount := by
      unfold modAudioOutRecord.activeStreamCount
      cases hact : out.activeStream with
      | nil => exact absurd hact hz
      | cons a t => simp
    rw [audioMixStep_eq_mixGeneric mem out n hbpf h1 hlen4] at h
    unfold mixGeneric at h
    simp only at h
    split at h
    · simp at h
    · rename_i hcount
      obtain ⟨o, ho, hdone⟩ := Outcome.bind_eq_done h
      simp only [Outcome.done.injEq, Prod.mk.injEq] at hdone
      obtain ⟨e1, e2, _⟩ := hdone
      subst e1
      have hu0 : 0 ≤ framesPerStep out n out.activeStream := by
        by_contra hneg
        apply hcount
        have hncpos : (0 : Int) < (out.numChannels : Int) := by omega
        exact mul_neg_of_neg_of_pos (by omega) hncpos
      have hule := framesPerStep_le_request out n out.activeStream
      obtain ⟨hX, hXcfg, hXact, hXpend⟩ :=
        advanceAll_frame (framesPerStep out n out.activeStream) out.activeStream out hvalid hnodup
      have hstep : ∀ j, j < out.stream.length →
          QueueMid ((advanceAll out (framesPerStep out n out.activeStream)
              out.activeStream).streamAt j)
            ∧ Retired (out.streamAt j) ((advanceAll out (framesPerStep out n out.activeStream)
              out.activeStream).streamAt j) 0
            ∧ (j ∉ out.activeStream → (advanceAll out (framesPerStep out n out.activeStream)
              out.activeStream).streamAt j = out.streamAt j) := by
        intro j hj
        rw [hX j]
        by_cases hm : j ∈ out.activeStream
        · rw [if_pos hm]
          have := advanceStream_mid (out.streamAt j) (framesPerStep out n out.activeStream)
            (hmidq j hj) hu0 (fun _ => framesPerStep_le_run out n out.activeStream j hm)
          exact ⟨this.1, this.2, fun hn => absurd hm hn⟩
        · rw [if_neg hm]
          exact ⟨hmidq j hj, retired_refl _, fun _ => rfl⟩
      have hmidX : MidPass (advanceAll out (framesPerStep out n out.activeStream)
          out.activeStream) out.activeStream := by
        obtain ⟨c1, c2, c3⟩ := hXcfg
        refine ⟨by rw [c1, c2]; exact hbpf, by rw [c1]; exact hnc, by rw [c3]; exact hsc,
          ?_, ?_, ?_, ?_, by rw [hXpend]; exact hpend⟩
        · intro j hj
          exact (hstep j (by rw [← c3]; exact hj)).1
        · intro j hj hm
          rw [(hstep j (by rw [← c3]; exact hj)).2.2 hm]
          exact hsettled j (by rw [← c3]; exact hj) (by simp)
        · rw [hXact, c3]; exact hsub
        · intro j hj hne
          rw [hXact]
          have hr := (hstep j (by rw [← c3]; exact hj)).2.1.1
          apply hcontains j (by rw [← c3]; exact hj)
          rw [hr] at hne
          simpa using hne
      obtain ⟨hc2, hcfg2, hret2⟩ := completeAll_mid out.activeStream _ o hmidX
        (fun i hi => by rw [hXcfg.2.2]; exact hvalid i hi) ho
      refine ⟨hc2, hXcfg.trans hcfg2, by omega, by omega, ?_⟩
      intro j
      obtain ⟨k, hk⟩ := hret2 j
      by_cases hj : j < out.stream.length
      · have := retired_trans (hstep j hj).2.1 hk
        exact ⟨0 + k, this⟩
      · have hjj : (advanceAll out (framesPerStep out n out.activeStream)
            out.activeStream).streamAt j = out.streamAt j := by
          rw [hX j, if_neg (fun hm => hj (hvalid j hm))]
        rw [hjj] at hk
        exact ⟨k, hk⟩

theorem audioMix_consistent (mem : Memory) : ∀ (fuel : Nat) (out out2 : modAudioOutRecord)
    (n : Int) (output : List Int), Consistent out → 0 ≤ n →
    audioMix mem fuel out n = .done (out2, output) →
    Consistent out2 ∧ SameConfig out out2
      ∧ (∀ j, ∃ k, Retired (out.streamAt j) (out2.streamAt j) k) := by
  intro fuel
  induction fuel with
  | zero =>
    intro out out2 n output hc _ h
    by_cases hn : n = 0
    · subst hn
      rw [audioMix_zero] at h
      simp only [Outcome.done.injEq, Prod.mk.injEq] at h
      rw [← h.1]
      exact ⟨hc, SameConfig.refl _, fun j => ⟨0, retired_refl _⟩⟩
    · simp [audioMix, hn] at h
  | succ fuel ih =>
    intro out out2 n output hc hn0 h
    by_cases hn : n = 0
    · subst hn
      rw [audioMix_zero] at h
      simp only [Outcome.done.injEq, Prod.mk.injEq] at h
      rw [← h.1]
      exact ⟨hc, SameConfig.refl _, fun j => ⟨0, retired_refl _⟩⟩
    · rw [audioMix_succ mem fuel out n hn] at h
      obtain ⟨r, hr, h2⟩ := Outcome.bind_eq_done h
      obtain ⟨r2, hr2, h3⟩ := Outcome.bind_eq_done h2
      simp only [Outcome.done.injEq, Prod.mk.injEq] at h3
      obtain ⟨o1, n1, chunk⟩ := r
      obtain ⟨o2, rest⟩ := r2
      simp only at h3 hr2
      obtain ⟨e1, _⟩ := h3
      subst e1
      obtain ⟨hc1, hcfg1, hn1, _, hret1⟩ :=
        audioMixStep_consistent mem out o1 n n1 chunk hc (by omega) hr
      obtain ⟨hc2, hcfg2, hret2⟩ := ih o1 o2 n1 rest hc1 hn1 hr2
      refine ⟨hc2, hcfg1.trans hcfg2, ?_⟩
      intro j
      obtain ⟨k1, hk1⟩ := hret1 j
      obtain ⟨k2, hk2⟩ := hret2 j
      exact ⟨k1 + k2, retired_trans hk1 hk2⟩
/-! ## The condition between calls across enqueue and on the fresh engine -/

/-- The label `done:` on a stream with room: the element is written to the first free slot,
the count grows by one, nothing else changes but the active set when the stream was
empty. -/
theorem enqueueDone_frame (out : modAudioOutRecord) (i : Nat) (e : modAudioQueueElementRecord)
    (hi : i < out.stream.length) (hc0 : 0 ≤ (out.streamAt i).elementCount)
    (hc8 : (out.streamAt i).elementCount < MODDEF_AUDIOOUT_QUEUELENGTH)
    (hlen : (out.streamAt i).element.length = MODDEF_AUDIOOUT_QUEUELENGTH) :
    ∃ out2, enqueueDone out i e = .done out2 ∧ SameConfig out out2
      ∧ (∀ j, j ≠ i → out2.streamAt j = out.streamAt j)
      ∧ (out2.streamAt i).element
          = (out.streamAt i).element.set (out.streamAt i).elementCount.toNat e
      ∧ live (out2.streamAt i) = live (out.streamAt i) ++ [e]
      ∧ (out2.streamAt i).elementCount = (out.streamAt i).elementCount + 1
      ∧ out2.pendingCallbacks = out.pendingCallbacks
      ∧ ((out2.activeStream = out.activeStream ∧ (out.streamAt i).elementCount ≠ 0)
          ∨ out2.activeStream = (updateActiveStreams out2).activeStream) := by
  have hq : (MODDEF_AUDIOOUT_QUEUELENGTH : Int) = 8 := rfl
  have hq2 : MODDEF_AUDIOOUT_QUEUELENGTH = 8 := rfl
  unfold enqueueDone
  simp only
  rw [if_neg (by omega)]
  obtain ⟨s2, hs2⟩ : ∃ s2 : modAudioOutStreamRecord, s2 = ⟨(out.streamAt i).elementCount + 1,
      (out.streamAt i).element.set (out.streamAt i).elementCount.toNat e⟩ := ⟨_, rfl⟩
  rw [← hs2]
  have hlt : (out.streamAt i).elementCount.toNat < (out.streamAt i).element.length := by
    rw [hlen, hq2]; omega
  have hlive2 : live s2 = live (out.streamAt i) ++ [e] := by
    rw [hs2]
    unfold live
    simp only
    have : ((out.streamAt i).elementCount + 1).toNat = (out.streamAt i).elementCount.toNat + 1 := by
      omega
    rw [this, take_set_succ _ _ _ hlt]
  have hec2 : s2.elementCount = (out.streamAt i).elementCount + 1 := by rw [hs2]
  have hel2 : s2.element
      = (out.streamAt i).element.set (out.streamAt i).elementCount.toNat e := by rw [hs2]
  have hsat : (out.setStream i s2).streamAt i = s2 := streamAt_setStream_self _ _ _ hi
  have hoth : ∀ j, j ≠ i → (out.setStream i s2).streamAt j = out.streamAt j :=
    fun j hj => streamAt_setStream_ne _ _ _ _ hj
  rw [hsat]
  have hcfg1 : SameConfig out (out.setStream i s2) := ⟨rfl, rfl, by simp⟩
  have hcfg2 : SameConfig out (updateActiveStreams (out.setStream i s2)) := ⟨rfl, rfl, by simp⟩
  by_cases hone : s2.elementCount = 1
  · rw [if_pos hone]
    refine ⟨_, rfl, hcfg2, ?_, ?_, ?_, ?_, rfl, Or.inr rfl⟩
    · intro j hj; rw [updateActiveStreams_streamAt, hoth j hj]
    · rw [updateActiveStreams_streamAt, hsat]; exact hel2
    · rw [updateActiveStreams_streamAt, hsat]; exact hlive2
    · rw [updateActiveStreams_streamAt, hsat]; exact hec2
  · rw [if_neg hone]
    refine ⟨_, rfl, hcfg1, hoth, ?_, ?_, ?_, rfl, Or.inl ⟨rfl, by omega⟩⟩
    · rw [hsat]; exact hel2
    · rw [hsat]; exact hlive2
    · rw [hsat]; exact hec2

theorem enqueueDone_consistent (out out2 : modAudioOutRecord) (i : Nat)
    (e : modAudioQueueElementRecord) (hc : Consistent out) (hi : i < out.stream.length)
    (hp : e.position = 0) (hs : 0 ≤ e.sampleCount)
    (h : enqueueDone out i e = .done out2) : Consistent out2 := by
  have hq : (MODDEF_AUDIOOUT_QUEUELENGTH : Int) = 8 := rfl
  obtain ⟨⟨hc0, hc8, hlen, hpos, htail⟩, hsettled⟩ := hc.2.2.2.2.1 i hi (by simp)
  have hroom : (out.streamAt i).elementCount < MODDEF_AUDIOOUT_QUEUELENGTH := by
    by_contra hfull
    unfold enqueueDone at h
    simp only at h
    rw [if_pos (Or.inr (by omega))] at h
    simp at h
  obtain ⟨o, hrun, hcfg, hothers, hel, hlive, hec, hpend, hact⟩ :=
    enqueueDone_frame out i e hi hc0 hroom hlen
  rw [hrun] at h
  simp only [Outcome.done.injEq] at h
  subst h
  have hset : QueueSettled (o.streamAt i) := by
    refine ⟨⟨by omega, by omega, by rw [hel]; simpa using hlen, ?_, ?_⟩, ?_⟩
    · intro x hx
      rw [hlive] at hx
      rcases List.mem_append.mp hx with h1 | h1
      · exact hpos x h1
      · rw [List.mem_singleton.mp h1]; omega
    · intro x hx
      rw [hlive] at hx
      cases hl : live (out.streamAt i) with
      | nil => rw [hl] at hx; simp at hx
      | cons a t =>
        rw [hl] at hx
        simp only [List.cons_append, List.drop_succ_cons, List.drop_zero] at hx
        rcases List.mem_append.mp hx with h1 | h1
        · apply htail; rw [hl]; exact h1
        · rw [List.mem_singleton.mp h1]; exact hp
    · intro x hx hsc
      rw [hlive] at hx
      rcases List.mem_append.mp hx with h1 | h1
      · exact hsettled x h1 hsc
      · rw [List.mem_singleton.mp h1] at hsc ⊢; omega
  have := midPass_of_stream out o [] i hc hcfg hothers hset
    (by
      rcases hact with ⟨h1, h2⟩ | h1
      · exact Or.inl ⟨h1, fun _ => h2⟩
      · exact Or.inr h1)
    (by rw [hpend]; exact hc.2.2.2.2.2.2.2)
  exact this

theorem xs_audioout_streamAt (sampleRate numChannels streamCount j : Nat)
    (hj : j < streamCount) :
    (xs_audioout sampleRate numChannels streamCount).streamAt j
      = { elementCount := 0, element := List.replicate MODDEF_AUDIOOUT_QUEUELENGTH default } := by
  simp [xs_audioout, modAudioOutRecord.streamAt, List.getD_eq_getElem?_getD, hj]

theorem xs_audioout_consistent (sampleRate numChannels streamCount : Nat)
    (hch : numChannels = 1 ∨ numChannels = 2)
    (hsc : 1 ≤ streamCount ∧ streamCount ≤ MODDEF_AUDIOOUT_STREAMS) :
    Consistent (xs_audioout sampleRate numChannels streamCount) := by
  have hlen : (xs_audioout sampleRate numChannels streamCount).stream.length = streamCount := by
    simp [xs_audioout]
  refine ⟨?_, ?_, ?_, ?_, ?_, ?_, ?_, ?_⟩
  · rcases hch with h | h <;> subst h <;> rfl
  · show 1 ≤ numChannels
    omega
  · rw [hlen]; exact hsc.2
  · intro j hj
    rw [hlen] at hj
    rw [xs_audioout_streamAt _ _ _ _ hj]
    exact (queueSettled_of_empty _ rfl (by simp)).1
  · intro j hj _
    rw [hlen] at hj
    rw [xs_audioout_streamAt _ _ _ _ hj]
    exact queueSettled_of_empty _ rfl (by simp)
  · exact List.nil_sublist _
  · intro j hj hne
    rw [hlen] at hj
    rw [xs_audioout_streamAt _ _ _ _ hj] at hne
    exact absurd rfl hne
  · exact Nat.zero_le _
/-! ## The counts invariant and the retired markers across the mixer -/

theorem markerIds_append (q1 q2 : List modAudioQueueElementRecord) :
    markerIds (q1 ++ q2) = markerIds q1 ++ markerIds q2 := by
  unfold markerIds
  rw [List.filter_append, List.map_append]

theorem markerIds_cons (e : modAudioQueueElementRecord) (q : List modAudioQueueElementRecord) :
    markerIds (e :: q) = (if e.sampleCount = 0 then [e.samples] else []) ++ markerIds q := by
  unfold markerIds
  by_cases h : e.sampleCount = 0
  · simp [h]
  · simp [h]

theorem markerIds_advanceQueue (use : Int) (q : List modAudioQueueElementRecord) :
    markerIds (advanceQueue use q) = markerIds q := by
  cases q with
  | nil => rfl
  | cons e t =>
    rw [advanceQueue, markerIds_cons, markerIds_cons]

theorem drop_one_advanceQueue (use : Int) (q : List modAudioQueueElementRecord) :
    (advanceQueue use q).drop 1 = q.drop 1 := by
  cases q with
  | nil => rfl
  | cons e t => rfl

theorem queueAll_append (pending ids1 ids2 : List Int) :
    queueAll pending (ids1 ++ ids2) = queueAll (queueAll pending ids1) ids2 := by
  unfold queueAll
  rw [List.foldl_append]

theorem queueAll_no_overflow : ∀ (ids pending : List Int),
    pending.length + ids.length ≤ MODDEF_AUDIOOUT_QUEUELENGTH →
    queueAll pending ids = pending ++ ids := by
  intro ids
  induction ids with
  | nil => intro pending _; simp [queueAll]
  | cons id rest ih =>
    intro pending h
    have hlt : pending.length < MODDEF_AUDIOOUT_QUEUELENGTH := by
      simp only [List.length_cons] at h; omega
    have hstep : queueAll pending (id :: rest) = queueAll (pending ++ [id]) rest := by
      unfold queueAll
      rw [List.foldl_cons, if_pos hlt]
    rw [hstep, ih (pending ++ [id]) (by
      simp only [List.length_append, List.length_cons, List.length_nil] at h ⊢; omega)]
    simp

theorem pendingAfter_eq_queueAll : ∀ (l : List modAudioQueueElementRecord) (pending : List Int),
    pendingAfter pending l = queueAll pending (markerIds l) := by
  intro l
  induction l with
  | nil => intro pending; rfl
  | cons e rest ih =>
    intro pending
    rw [pendingAfter, ih, markerIds_cons]
    by_cases h : e.sampleCount = 0
    · rw [if_pos h, if_pos h]
      unfold queueAll
      rw [List.singleton_append, List.foldl_cons]
    · rw [if_neg h, if_neg h, List.nil_append]

theorem filter_tagged (i j : Nat) : ∀ ids : List Int,
    ((ids.map fun id => ((i, id) : Nat × Int)).filter fun r => decide (r.1 = j)).map
        (fun r => r.2)
      = if i = j then ids else [] := by
  intro ids
  induction ids with
  | nil => simp
  | cons a t ih =>
    by_cases h : i = j
    · simp only [h, if_true] at ih ⊢
      simp [ih]
    · simp only [h, if_false] at ih ⊢
      simp only [List.map_cons, List.filter_cons, h, decide_False]
      simpa using ih

theorem markersRetired_refl (a : modAudioOutRecord) : MarkersRetired a a [] :=
  ⟨fun j => by simp, by simp [queueAll]⟩

theorem markersRetired_trans {a b c : modAudioOutRecord} {r1 r2 : List (Nat × Int)}
    (h1 : MarkersRetired a b r1) (h2 : MarkersRetired b c r2) :
    MarkersRetired a c (r1 ++ r2) := by
  refine ⟨fun j => ?_, ?_⟩
  · rw [h1.1 j, h2.1 j, List.filter_append, List.map_append, List.append_assoc]
  · rw [h2.2, h1.2, List.map_append, queueAll_append]

theorem queueAll_length_le (pending ids : List Int)
    (h : pending.length ≤ MODDEF_AUDIOOUT_QUEUELENGTH) :
    (queueAll pending ids).length ≤ MODDEF_AUDIOOUT_QUEUELENGTH := by
  induction ids generalizing pending with
  | nil => exact h
  | cons id rest ih =>
    unfold queueAll
    rw [List.foldl_cons]
    apply ih
    split
    · rw [List.length_append, List.length_singleton]; omega
    · exact h

theorem countsOK_active (out : modAudioOutRecord) (hc : CountsOK out) :
    (∀ i ∈ out.activeStream, i < out.stream.length) ∧ out.activeStream.Nodup
      ∧ out.activeStream.length ≤ 4 := by
  obtain ⟨_, c, _, f, _, _⟩ := hc
  refine ⟨?_, (List.nodup_range _).sublist f, ?_⟩
  · intro i hi
    exact List.mem_range.mp (f.subset hi)
  · have := f.length_le
    rw [List.length_range] at this
    exact le_trans this c

/-- The state after a change confined to stream `i`, whose count stays within the array. -/
theorem countsOK_of_stream (out out1 : modAudioOutRecord) (i : Nat)
    (hc : CountsOK out) (hcfg : SameConfig out out1)
    (hothers : ∀ j, j ≠ i → out1.streamAt j = out.streamAt j)
    (hq : QueueCounts (out1.streamAt i))
    (hact : (out1.activeStream = out.activeStream
        ∧ ((out1.streamAt i).elementCount ≠ 0 → (out.streamAt i).elementCount ≠ 0))
      ∨ out1.activeStream = (updateActiveStreams out1).activeStream)
    (hpend : out1.pendingCallbacks.length ≤ MODDEF_AUDIOOUT_QUEUELENGTH) :
    CountsOK out1 := by
  obtain ⟨a, c, d, f, g, _⟩ := hc
  obtain ⟨c1, c2, c3⟩ := hcfg
  refine ⟨by rw [c1, c2]; exact a, by rw [c3]; exact c, ?_, ?_, ?_, hpend⟩
  · intro j hj
    by_cases hji : j = i
    · rw [hji]; exact hq
    · rw [hothers j hji]; exact d j (by rw [← c3]; exact hj)
  · rcases hact with ⟨h1, _⟩ | h1
    · rw [h1, c3]; exact f
    · rw [h1]
      exact List.filter_sublist _
  · intro j hj hne
    rcases hact with ⟨h1, h2⟩ | h1
    · rw [h1]
      by_cases hji : j = i
      · rw [hji] at hne ⊢
        exact g i (by rw [← c3, ← hji]; exact hj) (h2 hne)
      · rw [hothers j hji] at hne
        exact g j (by rw [← c3]; exact hj) hne
    · rw [h1]
      simp only [updateActiveStreams, modAudioOutRecord.streamCount, List.mem_filter,
        List.mem_range, decide_eq_true_eq]
      exact ⟨hj, hne⟩

theorem completeIfDone_counts (out out1 : modAudioOutRecord) (i : Nat)
    (hc : CountsOK out) (hi : i < out.stream.length)
    (h : completeIfDone out i = .done out1) :
    CountsOK out1 ∧ SameConfig out out1
      ∧ (∀ j, ∃ k, Retired (out.streamAt j) (out1.streamAt j) k)
      ∧ ∃ retired, MarkersRetired out out1 retired := by
  obtain ⟨hc0, hc8, hlen⟩ := hc.2.2.1 i hi
  have hq2 : MODDEF_AUDIOOUT_QUEUELENGTH = 8 := rfl
  have hlen0 : 0 < (out.streamAt i).element.length := by rw [hlen, hq2]; decide
  have hpend := hc.2.2.2.2.2
  unfold completeIfDone at h
  by_cases hend : (out.frontOf i).position = (out.frontOf i).sampleCount
  · rw [if_pos hend] at h
    by_cases hc1 : 1 ≤ (out.streamAt i).elementCount
    · obtain ⟨out2, hrun, hcfg, hothers, hlen2, hl1, hl2, hnn, hl3, _, hact⟩ :=
        endOfElement_frame out i hi hc1 hc8 hlen
      rw [hrun] at h
      simp only [Outcome.done.injEq] at h
      subst h
      refine ⟨countsOK_of_stream out out2 i hc hcfg hothers ⟨hnn, by rw [hl2]; omega, hlen2⟩
        ?_ ?_, hcfg, ?_, ?_⟩
      · rcases hact with ⟨h1, _⟩ | h1
        · exact Or.inl ⟨h1, fun _ => by omega⟩
        · exact Or.inr h1
      · rw [hl3]; exact pendingAfter_length_le _ _ hpend
      · intro j
        by_cases hji : j = i
        · rw [hji]
          refine ⟨retiredCount
            (completedFront (out.streamAt i) :: (live (out.streamAt i)).drop 1), hl2, ?_⟩
          rw [hl1, List.drop_drop]
          cases hk : retiredCount
              (completedFront (out.streamAt i) :: (live (out.streamAt i)).drop 1) with
          | zero => simp
          | succ m =>
            rw [List.drop_succ_cons, List.drop_drop, Nat.add_comm 1 (m + 1)]
        · rw [hothers j hji]; exact ⟨0, retired_refl _⟩
      · refine ⟨(markerIds ((completedFront (out.streamAt i)
            :: (live (out.streamAt i)).drop 1).take (retiredCount
              (completedFront (out.streamAt i) :: (live (out.streamAt i)).drop 1)))).map
            fun id => ((i, id) : Nat × Int), fun j => ?_, ?_⟩
        · rw [filter_tagged]
          by_cases hji : i = j
          · rw [if_pos hji, ← hji, hl1, ← markerIds_append, List.take_append_drop]
            conv_lhs => rw [live_eq_cons _ hc1 hlen0]
            rw [markerIds_cons, markerIds_cons, completedFront_sampleCount,
              completedFront_samples]
          · rw [if_neg hji, hothers j (fun h => hji h.symm), List.nil_append]
        · rw [hl3, pendingAfter_eq_queueAll, List.map_map]
          congr 1
          simp
    · have hz : (out.streamAt i).elementCount = 0 := by omega
      have h2 := endOfElement_stale out out1 i hz hi h
      subst h2
      have hsat := streamAt_setFrontOf_self out i (completedFront (out.streamAt i)) hi
      have hcfg : SameConfig out (out.setFrontOf i (completedFront (out.streamAt i))) :=
        ⟨rfl, rfl, by simp⟩
      refine ⟨countsOK_of_stream out _ i hc hcfg
        (fun j hj => streamAt_setFrontOf_ne _ _ _ _ hj)
        ⟨by rw [hsat]; exact hc0, by rw [hsat]; exact hc8, by rw [hsat]; simpa using hlen⟩
        (Or.inl ⟨rfl, fun hne => absurd (by rw [hsat]; exact hz) hne⟩) hpend, hcfg, ?_,
        ⟨[], fun j => ?_, by simp [queueAll]⟩⟩
      · intro j
        by_cases hji : j = i
        · rw [hji]
          refine ⟨0, by rw [hsat]; simp, ?_⟩
          rw [live_of_empty _ hz, live_of_empty _ (by rw [hsat]; exact hz)]
        · rw [streamAt_setFrontOf_ne _ _ _ _ hji]; exact ⟨0, retired_refl _⟩
      · by_cases hji : j = i
        · rw [hji, live_of_empty _ hz, live_of_empty _ (by rw [hsat]; exact hz)]
          simp
        · rw [streamAt_setFrontOf_ne _ _ _ _ hji]
          simp
  · rw [if_neg hend] at h
    simp only [Outcome.done.injEq] at h
    subst h
    exact ⟨hc, SameConfig.refl _, fun j => ⟨0, retired_refl _⟩, [], markersRetired_refl _⟩

theorem completeAll_counts : ∀ (todo : List Nat) (out out2 : modAudioOutRecord),
    CountsOK out → (∀ i ∈ todo, i < out.stream.length) →
    completeAll out todo = .done out2 →
    CountsOK out2 ∧ SameConfig out out2
      ∧ (∀ j, ∃ k, Retired (out.streamAt j) (out2.streamAt j) k)
      ∧ ∃ retired, MarkersRetired out out2 retired := by
  intro todo
  induction todo with
  | nil =>
    intro out out2 hc _ h
    simp only [completeAll, Outcome.done.injEq] at h
    subst h
    exact ⟨hc, SameConfig.refl _, fun j => ⟨0, retired_refl _⟩, [], markersRetired_refl _⟩
  | cons i rest ih =>
    intro out out2 hc hb h
    rw [completeAll] at h
    obtain ⟨out1, h1, h2⟩ := Outcome.bind_eq_done h
    obtain ⟨hc1, hcfg1, hret1, r1, hm1⟩ :=
      completeIfDone_counts out out1 i hc (hb i (List.mem_cons_self _ _)) h1
    obtain ⟨hc2, hcfg2, hret2, r2, hm2⟩ := ih out1 out2 hc1
      (fun k hk => by rw [hcfg1.2.2]; exact hb k (List.mem_cons_of_mem _ hk)) h2
    refine ⟨hc2, hcfg1.trans hcfg2, ?_, r1 ++ r2, markersRetired_trans hm1 hm2⟩
    intro j
    obtain ⟨k1, hk1⟩ := hret1 j
    obtain ⟨k2, hk2⟩ := hret2 j
    exact ⟨k1 + k2, retired_trans hk1 hk2⟩

theorem audioMixStep_counts (mem : Memory) (out out2 : modAudioOutRecord) (n n2 : Int)
    (chunk : List Int) (hc : CountsOK out)
    (h : audioMixStep mem out n = .done (out2, n2, chunk)) :
    CountsOK out2 ∧ SameConfig out out2
      ∧ (∀ j, ∃ k, Retired (out.streamAt j) (out2.streamAt j) k)
      ∧ ∃ retired, MarkersRetired out out2 retired := by
  obtain ⟨hvalid, hnodup, hlen4⟩ := countsOK_active out hc
  have hc' := hc
  obtain ⟨hbpf, hsc, hq, hsub, hcontains, hpend⟩ := hc'
  have hq2 : MODDEF_AUDIOOUT_QUEUELENGTH = 8 := rfl
  by_cases hz : out.activeStream = []
  · simp only [audioMixStep, modAudioOutRecord.activeStreamCount, hz, List.length_nil,
      mixCase0] at h
    split at h
    · simp at h
    · simp only [Outcome.done.injEq, Prod.mk.injEq] at h
      obtain ⟨h1, _, _⟩ := h
      subst h1
      exact ⟨hc, SameConfig.refl _, fun j => ⟨0, retired_refl _⟩, [], markersRetired_refl _⟩
  · have h1 : 1 ≤ out.activeStreamCount := by
      unfold modAudioOutRecord.activeStreamCount
      cases hact : out.activeStream with
      | nil => exact absurd hact hz
      | cons a t => simp
    rw [audioMixStep_eq_mixGeneric mem out n hbpf h1 hlen4] at h
    unfold mixGeneric at h
    simp only at h
    split at h
    · simp at h
    · obtain ⟨o, ho, hdone⟩ := Outcome.bind_eq_done h
      simp only [Outcome.done.injEq, Prod.mk.injEq] at hdone
      obtain ⟨e1, _, _⟩ := hdone
      subst e1
      obtain ⟨hX, hXcfg, hXact, hXpend⟩ :=
        advanceAll_frame (framesPerStep out n out.activeStream) out.activeStream out hvalid hnodup
      have hstep : ∀ j, j < out.stream.length →
          ((advanceAll out (framesPerStep out n out.activeStream)
              out.activeStream).streamAt j).elementCount = (out.streamAt j).elementCount
            ∧ ((advanceAll out (framesPerStep out n out.activeStream)
              out.activeStream).streamAt j).element.length = (out.streamAt j).element.length
            ∧ live ((advanceAll out (framesPerStep out n out.activeStream)
              out.activeStream).streamAt j)
                = (if j ∈ out.activeStream
                    then advanceQueue (framesPerStep out n out.activeStream)
                      (live (out.streamAt j))
                    else live (out.streamAt j)) := by
        intro j hj
        rw [hX j]
        have hl0 : 0 < (out.streamAt j).element.length := by
          rw [(hq j hj).2.2, hq2]; decide
        by_cases hm : j ∈ out.activeStream
        · simp only [if_pos hm]
          exact ⟨rfl, by unfold advanceStream; simp, live_advanceStream _ _ hl0⟩
        · simp only [if_neg hm]
          exact ⟨trivial, trivial, trivial⟩
      have hXc : CountsOK (advanceAll out (framesPerStep out n out.activeStream)
          out.activeStream) := by
        obtain ⟨c1, c2, c3⟩ := hXcfg
        refine ⟨by rw [c1, c2]; exact hbpf, by rw [c3]; exact hsc, ?_, ?_, ?_,
          by rw [hXpend]; exact hpend⟩
        · intro j hj
          have hj' : j < out.stream.length := by rw [← c3]; exact hj
          obtain ⟨s1, s2, _⟩ := hstep j hj'
          obtain ⟨q1, q2, q3⟩ := hq j hj'
          exact ⟨by rw [s1]; exact q1, by rw [s1]; exact q2, by rw [s2]; exact q3⟩
        · rw [hXact, c3]; exact hsub
        · intro j hj hne
          have hj' : j < out.stream.length := by rw [← c3]; exact hj
          rw [hXact]
          rw [(hstep j hj').1] at hne
          exact hcontains j hj' hne
      obtain ⟨hc2, hcfg2, hret2, r2, hm2⟩ := completeAll_counts out.activeStream _ o hXc
        (fun i hi => by rw [hXcfg.2.2]; exact hvalid i hi) ho
      have hXj : ∀ j, Retired (out.streamAt j)
            ((advanceAll out (framesPerStep out n out.activeStream)
              out.activeStream).streamAt j) 0
          ∧ markerIds (live ((advanceAll out (framesPerStep out n out.activeStream)
              out.activeStream).streamAt j)) = markerIds (live (out.streamAt j)) := by
        intro j
        by_cases hj : j < out.stream.length
        · obtain ⟨s1, _, s3⟩ := hstep j hj
          rw [s3]
          refine ⟨⟨by rw [s1]; simp, ?_⟩, ?_⟩
          · rw [s3]
            split
            · exact drop_one_advanceQueue _ _
            · rfl
          · split
            · exact markerIds_advanceQueue _ _
            · rfl
        · have hjj : (advanceAll out (framesPerStep out n out.activeStream)
              out.activeStream).streamAt j = out.streamAt j := by
            rw [hX j, if_neg (fun hm => hj (hvalid j hm))]
          rw [hjj]
          exact ⟨retired_refl _, rfl⟩
      refine ⟨hc2, hXcfg.trans hcfg2, ?_, r2, ?_, ?_⟩
      · intro j
        obtain ⟨k, hk⟩ := hret2 j
        exact ⟨0 + k, retired_trans (hXj j).1 hk⟩
      · intro j
        rw [← (hXj j).2]
        exact hm2.1 j
      · rw [hm2.2, hXpend]

theorem audioMix_counts (mem : Memory) : ∀ (fuel : Nat) (out out2 : modAudioOutRecord)
    (n : Int) (output : List Int), CountsOK out →
    audioMix mem fuel out n = .done (out2, output) →
    CountsOK out2 ∧ SameConfig out out2
      ∧ (∀ j, ∃ k, Retired (out.streamAt j) (out2.streamAt j) k)
      ∧ ∃ retired, MarkersRetired out out2 retired := by
  intro fuel
  induction fuel with
  | zero =>
    intro out out2 n output hc h
    by_cases hn : n = 0
    · subst hn
      rw [audioMix_zero] at h
      simp only [Outcome.done.injEq, Prod.mk.injEq] at h
      rw [← h.1]
      exact ⟨hc, SameConfig.refl _, fun j => ⟨0, retired_refl _⟩, [], markersRetired_refl _⟩
    · simp [audioMix, hn] at h
  | succ fuel ih =>
    intro out out2 n output hc h
    by_cases hn : n = 0
    · subst hn
      rw [audioMix_zero] at h
      simp only [Outcome.done.injEq, Prod.mk.injEq] at h
      rw [← h.1]
      exact ⟨hc, SameConfig.refl _, fun j => ⟨0, retired_refl _⟩, [], markersRetired_refl _⟩
    · rw [audioMix_succ mem fuel out n hn] at h
      obtain ⟨r, hr, h2⟩ := Outcome.bind_eq_done h
      obtain ⟨r2, hr2, h3⟩ := Outcome.bind_eq_done h2
      simp only [Outcome.done.injEq, Prod.mk.injEq] at h3
      obtain ⟨o1, n1, chunk⟩ := r
      obtain ⟨o2, rest⟩ := r2
      simp only at h3 hr2
      obtain ⟨e1, _⟩ := h3
      subst e1
      obtain ⟨hc1, hcfg1, hret1, ra, hma⟩ := audioMixStep_counts mem out o1 n n1 chunk hc hr
      obtain ⟨hc2, hcfg2, hret2, rb, hmb⟩ := ih o1 o2 n1 rest hc1 hr2
      refine ⟨hc2, hcfg1.trans hcfg2, ?_, ra ++ rb, markersRetired_trans hma hmb⟩
      intro j
      obtain ⟨k1, hk1⟩ := hret1 j
      obtain ⟨k2, hk2⟩ := hret2 j
      exact ⟨k1 + k2, retired_trans hk1 hk2⟩

theorem audioMixCalls_counts (mem : Memory) (fuel : Nat) : ∀ (ns : List Int)
    (out out2 : modAudioOutRecord) (output : List Int), CountsOK out →
    audioMixCalls mem fuel out ns = .done (out2, output) →
    CountsOK out2 ∧ ∃ retired, MarkersRetired out out2 retired := by
  intro ns
  induction ns with
  | nil =>
    intro out out2 output hc h
    simp only [audioMixCalls, Outcome.done.injEq, Prod.mk.injEq] at h
    rw [← h.1]
    exact ⟨hc, [], markersRetired_refl _⟩
  | cons n rest ih =>
    intro out out2 output hc h
    rw [audioMixCalls] at h
    obtain ⟨r, hr, h2⟩ := Outcome.bind_eq_done h
    obtain ⟨r2, hr2, h3⟩ := Outcome.bind_eq_done h2
    simp only [Outcome.done.injEq, Prod.mk.injEq] at h3
    obtain ⟨o1, out1⟩ := r
    obtain ⟨o2, rest2⟩ := r2
    simp only at h3 hr2
    obtain ⟨e1, _⟩ := h3
    subst e1
    obtain ⟨hc1, _, _, ra, hma⟩ := audioMix_counts mem fuel out o1 n out1 hc hr
    obtain ⟨hc2, rb, hmb⟩ := ih o1 o2 rest2 hc1 hr2
    exact ⟨hc2, ra ++ rb, markersRetired_trans hma hmb⟩

theorem enqueue_counts (out out2 : modAudioOutRecord) (stream : Int) (args : EnqueueArgs)
    (hc : CountsOK out) (h : xs_audioout_enqueue out stream args = .done out2) :
    CountsOK out2 := by
  have hq : (MODDEF_AUDIOOUT_QUEUELENGTH : Int) = 8 := rfl
  unfold xs_audioout_enqueue at h
  split at h
  · simp at h
  rename_i hrange
  split at h
  · simp at h
  rename_i hfull
  have hi : stream.toNat < out.stream.length := by
    unfold modAudioOutRecord.streamCount at hrange
    omega
  obtain ⟨hc0, hc8, hlen⟩ := hc.2.2.1 _ hi
  have key : ∀ e : modAudioQueueElementRecord, enqueueDone out stream.toNat e = .done out2 →
      CountsOK out2 := by
    intro e he
    obtain ⟨o, ho, hcfg, hothers, hel, _, hec, hpend, hact⟩ :=
      enqueueDone_frame out stream.toNat e hi hc0 (by omega) hlen
    rw [ho] at he
    simp only [Outcome.done.injEq] at he
    subst he
    refine countsOK_of_stream out o stream.toNat hc hcfg hothers
      ⟨by omega, by omega, by rw [hel]; simpa using hlen⟩ ?_ (by rw [hpend]; exact hc.2.2.2.2.2)
    rcases hact with ⟨h1, h2⟩ | h1
    · exact Or.inl ⟨h1, fun _ => h2⟩
    · exact Or.inr h1
  cases args with
  | flush =>
    simp only [Outcome.done.injEq] at h
    subst h
    have hsat : (out.setStream stream.toNat
        { out.streamAt stream.toNat with elementCount := 0 }).streamAt stream.toNat
          = { out.streamAt stream.toNat with elementCount := 0 } :=
      streamAt_setStream_self _ _ _ hi
    have hcfg : SameConfig out (out.setStream stream.toNat
        { out.streamAt stream.toNat with elementCount := 0 }) := ⟨rfl, rfl, by simp⟩
    exact countsOK_of_stream out _ stream.toNat hc hcfg
      (fun j hj => streamAt_setStream_ne _ _ _ _ hj)
      (by rw [hsat]; exact ⟨le_refl _, by show (0 : Int) ≤ _; rw [hq]; decide, hlen⟩)
      (Or.inl ⟨rfl, fun hne => absurd (by rw [hsat]) hne⟩) hc.2.2.2.2.2
  | callback id => exact key _ h
  | samples buffer r o c =>
    simp only at h
    split at h
    · simp at h
    split at h
    · simp at h
    split at h
    · simp at h
    exact key _ h

theorem xs_audioout_counts (sampleRate numChannels streamCount : Nat)
    (hsc : streamCount ≤ MODDEF_AUDIOOUT_STREAMS) :
    CountsOK (xs_audioout sampleRate numChannels streamCount) := by
  have hlen : (xs_audioout sampleRate numChannels streamCount).stream.length = streamCount := by
    simp [xs_audioout]
  refine ⟨?_, ?_, ?_, ?_, ?_, ?_⟩
  · show (MODDEF_AUDIOOUT_BITSPERSAMPLE * numChannels) >>> 3 = 2 * numChannels
    rw [Nat.shiftRight_eq_div_pow]
    show 16 * numChannels / 8 = 2 * numChannels
    omega
  · rw [hlen]; exact hsc
  · intro j hj
    rw [hlen] at hj
    rw [xs_audioout_streamAt _ _ _ _ hj]
    exact ⟨le_refl _, by decide, by simp⟩
  · exact List.nil_sublist _
  · intro j hj hne
    rw [hlen] at hj
    rw [xs_audioout_streamAt _ _ _ _ hj] at hne
    exact absurd rfl hne
  · exact Nat.zero_le _

theorem reachable_counts (out : modAudioOutRecord) (h : Reachable out) : CountsOK out := by
  induction h with
  | construct sampleRate numChannels streamCount hch hsc =>
    exact xs_audioout_counts _ _ _ hsc.2
  | enqueue out out2 stream args _ hrun ih => exact enqueue_counts out out2 stream args ih hrun
  | mix mem fuel out out2 n output _ hn hrun ih =>
    exact (audioMix_counts mem fuel out out2 n output ih hrun).1
  | deliver out _ ih =>
    rw [deliverCallbacks_spec]
    obtain ⟨a, b, c, d, e, _⟩ := ih
    exact ⟨a, b, c, d, e, Nat.zero_le _⟩

/-- A state that satisfies the counts invariant and whose queued elements have their
positions settled is consistent. -/
theorem consistent_of_counts (out : modAudioOutRecord) (hc : CountsOK out)
    (hp : PositionsSettled out) : Consistent out := by
  obtain ⟨a, b, c, d, e, f⟩ := hc
  exact ⟨a, hp.1, b, fun j hj => (hp.2 j hj).1, fun j hj _ => hp.2 j hj, d, e, f⟩

theorem positionsSettled_of_consistent (out : modAudioOutRecord) (hc : Consistent out) :
    PositionsSettled out :=
  ⟨hc.2.1, fun j hj => hc.2.2.2.2.1 j hj (by simp)⟩
/-- An accepted enqueue of a callback or of a buffer keeps the positions settled when the
frame count it stores is not negative. -/
theorem enqueue_positionsSettled (out out2 : modAudioOutRecord) (stream : Int)
    (args : EnqueueArgs) (hc : CountsOK out) (hp : PositionsSettled out) (hne : args ≠ .flush)
    (h : xs_audioout_enqueue out stream args = .done out2)
    (hs : ∀ e ∈ live (out2.streamAt stream.toNat), 0 ≤ e.sampleCount) :
    PositionsSettled out2 := by
  have hq : (MODDEF_AUDIOOUT_QUEUELENGTH : Int) = 8 := rfl
  have hcons := consistent_of_counts out hc hp
  unfold xs_audioout_enqueue at h
  split at h
  · simp at h
  rename_i hrange
  split at h
  · simp at h
  rename_i hfull
  have hi : stream.toNat < out.stream.length := by
    unfold modAudioOutRecord.streamCount at hrange
    omega
  obtain ⟨hc0, hc8, hlen⟩ := hc.2.2.1 _ hi
  have hroom : (out.streamAt stream.toNat).elementCount < MODDEF_AUDIOOUT_QUEUELENGTH := by
    omega
  have key : ∀ e : modAudioQueueElementRecord, e.position = 0 →
      enqueueDone out stream.toNat e = .done out2 → PositionsSettled out2 := by
    intro e he0 he
    obtain ⟨o, ho, _, _, _, hlive, _, _, _⟩ :=
      enqueueDone_frame out stream.toNat e hi hc0 hroom hlen
    have heq : o = out2 := by
      rw [ho] at he
      simpa using he
    subst heq
    have hse : 0 ≤ e.sampleCount := hs e (by rw [hlive]; simp)
    exact positionsSettled_of_consistent _
      (enqueueDone_consistent out o stream.toNat e hcons hi he0 hse he)
  cases args with
  | flush => exact absurd rfl hne
  | callback id => exact key _ rfl h
  | samples buffer r o c =>
    simp only at h
    split at h
    · simp at h
    split at h
    · simp at h
    split at h
    · simp at h
    exact key _ rfl h
/-! ## A pass of the mixer in terms of the queues -/

theorem foldr_min_perm {l1 l2 : List Int} (h : l1.Perm l2) (n : Int) :
    l1.foldr min n = l2.foldr min n := by
  induction h with
  | nil => rfl
  | cons x _ ih => simp only [List.foldr_cons, ih]
  | swap x y l => simp only [List.foldr_cons]; exact min_left_comm _ _ _
  | trans _ _ ih1 ih2 => exact ih1.trans ih2

theorem useOf_perm {Q1 Q2 : List (List modAudioQueueElementRecord)} (h : Q1.Perm Q2) (n : Int) :
    useOf n Q1 = useOf n Q2 :=
  foldr_min_perm (h.filterMap _) n

theorem mixedOf_perm (mem : Memory) {s1 s2 : List Int} (h : s1.Perm s2) (j : Nat) :
    mixedOf mem s1 j = mixedOf mem s2 j := by
  unfold mixedOf
  rw [(h.map _).sum_eq]

theorem sourcesOf_perm (bpf : Nat) {Q1 Q2 : List (List modAudioQueueElementRecord)}
    (h : Q1.Perm Q2) : (sourcesOf bpf Q1).Perm (sourcesOf bpf Q2) :=
  h.filterMap _

theorem filter_map_eq_filterMap {α β γ : Type} (p : α → Bool) (f : α → β) (g : α → γ)
    (k : γ → Option β) : ∀ l : List α,
    (∀ i ∈ l, k (g i) = if p i then some (f i) else none) →
    (l.filter p).map f = (l.map g).filterMap k := by
  intro l
  induction l with
  | nil => intro _; rfl
  | cons a t ih =>
    intro H
    have ha := H a (List.mem_cons_self _ _)
    have ht := ih (fun i hi => H i (List.mem_cons_of_mem _ hi))
    by_cases hp : p a = true
    · rw [List.filter_cons_of_pos hp, List.map_cons, List.map_cons, List.filterMap_cons,
        ha, if_pos hp, ht]
    · rw [List.filter_cons_of_neg hp, List.map_cons, List.filterMap_cons, ha, if_neg hp, ht]

theorem stream_eq_map_range (out : modAudioOutRecord) :
    out.stream = (List.range out.stream.length).map out.streamAt := by
  apply List.ext_getElem
  · simp
  · intro n h1 h2
    simp [modAudioOutRecord.streamAt, List.getD_eq_getElem?_getD, h1]

theorem queuesOf_eq (out : modAudioOutRecord) :
    queuesOf out = (List.range out.stream.length).map fun i => live (out.streamAt i) := by
  unfold queuesOf
  conv_lhs => rw [stream_eq_map_range out]
  rw [List.map_map]
  rfl

theorem framesPerStep_eq_foldr (out : modAudioOutRecord) (n : Int) : ∀ l : List Nat,
    framesPerStep out n l = (l.map (availableRun out)).foldr min n := by
  intro l
  induction l with
  | nil => rfl
  | cons a t ih => simp only [framesPerStep, List.map_cons, List.foldr_cons, ih]

theorem mixedSample_eq_mixedOf (mem : Memory) (out : modAudioOutRecord) (l : List Nat) (j : Nat) :
    mixedSample mem out l j = mixedOf mem (l.map (sourceOf out)) j := by
  unfold mixedSample mixedOf
  rw [List.map_map]
  rfl

theorem live_head (out : modAudioOutRecord) (i : Nat) (hwf : WellFormed out)
    (hi : i < out.stream.length) :
    (live (out.streamAt i)).head?
      = if (out.streamAt i).elementCount ≠ 0 then some (out.frontOf i) else none := by
  obtain ⟨hc0, hc8, hlen, _⟩ := hwf.2.2.1 i hi
  have hq2 : MODDEF_AUDIOOUT_QUEUELENGTH = 8 := rfl
  have hlen0 : 0 < (out.streamAt i).element.length := by rw [hlen, hq2]; decide
  by_cases hc : (out.streamAt i).elementCount ≠ 0
  · rw [if_pos hc, live_eq_cons _ (by omega) hlen0]
    rfl
  · rw [if_neg hc, live_of_empty _ (not_not.mp hc)]
    rfl

theorem active_runs (out : modAudioOutRecord) (hwf : WellFormed out) :
    out.activeStream.map (availableRun out) = runsOf (queuesOf out)
      ∧ out.activeStream.map (sourceOf out) = sourcesOf out.bytesPerFrame (queuesOf out) := by
  rw [hwf.2.2.2, queuesOf_eq]
  unfold updateActiveStreams runsOf sourcesOf modAudioOutRecord.streamCount
  simp only
  constructor
  · apply filter_map_eq_filterMap
    intro i hi
    rw [live_head out i hwf (List.mem_range.mp hi)]
    by_cases hc : (out.streamAt i).elementCount ≠ 0
    · rw [if_pos hc, if_pos (by simpa using hc)]
      rfl
    · have h0 : (out.streamAt i).elementCount = 0 := not_not.mp hc
      simp [h0]
  · apply filter_map_eq_filterMap
    intro i hi
    rw [live_head out i hwf (List.mem_range.mp hi)]
    by_cases hc : (out.streamAt i).elementCount ≠ 0
    · rw [if_pos hc, if_pos (by simpa using hc)]
      rfl
    · have h0 : (out.streamAt i).elementCount = 0 := not_not.mp hc
      simp [h0]
/-! ## The queues after a pass -/

theorem completedFront_eq_completedElement (s : modAudioOutStreamRecord) :
    completedFront s = completedElement s.front ((live s).drop 1) := by
  unfold completedFront completedElement laterSamplesQueued live
  rfl

theorem completeIfDone_exact (out : modAudioOutRecord) (i : Nat) (hwf : WellFormed out)
    (hi : i < out.stream.length) (hc1 : 1 ≤ (out.streamAt i).elementCount) :
    ∃ out2, completeIfDone out i = .done out2 ∧ WellFormed out2 ∧ SameConfig out out2
      ∧ (∀ j, j ≠ i → out2.streamAt j = out.streamAt j)
      ∧ live (out2.streamAt i) = settleQueue (live (out.streamAt i)) := by
  obtain ⟨_, _, hlen, _⟩ := hwf.2.2.1 i hi
  have hq2 : MODDEF_AUDIOOUT_QUEUELENGTH = 8 := rfl
  have hlen0 : 0 < (out.streamAt i).element.length := by rw [hlen, hq2]; decide
  have hcons := live_eq_cons (out.streamAt i) hc1 hlen0
  unfold completeIfDone
  by_cases hend : (out.frontOf i).position = (out.frontOf i).sampleCount
  · rw [if_pos hend]
    obtain ⟨out2, hrun, hwf2, hcfg, hothers, hl1, _, _, _⟩ := endOfElement_wf out i hwf hi hc1
    refine ⟨out2, hrun, hwf2, hcfg, hothers, ?_⟩
    rw [hl1, completedFront_eq_completedElement]
    conv_rhs => rw [hcons, settleQueue]
    rw [if_pos (show (out.streamAt i).front.position = (out.streamAt i).front.sampleCount
      from hend)]
  · rw [if_neg hend]
    refine ⟨out, rfl, hwf, SameConfig.refl _, fun _ _ => rfl, ?_⟩
    conv_rhs => rw [hcons, settleQueue]
    rw [if_neg (show ¬(out.streamAt i).front.position = (out.streamAt i).front.sampleCount
      from hend)]
    exact hcons

theorem completeAll_exact : ∀ (streams : List Nat) (out : modAudioOutRecord),
    WellFormed out → streams.Nodup →
    (∀ i ∈ streams, i < out.stream.length ∧ 1 ≤ (out.streamAt i).elementCount) →
    ∃ out2, completeAll out streams = .done out2 ∧ WellFormed out2 ∧ SameConfig out out2
      ∧ (∀ j, j ∉ streams → out2.streamAt j = out.streamAt j)
      ∧ (∀ j, j ∈ streams → live (out2.streamAt j) = settleQueue (live (out.streamAt j))) := by
  intro streams
  induction streams with
  | nil =>
    intro out hwf _ _
    exact ⟨out, rfl, hwf, SameConfig.refl _, fun _ _ => rfl, fun j hj => by simp at hj⟩
  | cons i rest ih =>
    intro out hwf hnd hv
    have hnd2 := List.nodup_cons.mp hnd
    obtain ⟨hi, hc1⟩ := hv i (List.mem_cons_self _ _)
    obtain ⟨out1, hrun1, hwf1, hcfg1, hoth1, hl1⟩ := completeIfDone_exact out i hwf hi hc1
    have hv1 : ∀ k ∈ rest, k < out1.stream.length ∧ 1 ≤ (out1.streamAt k).elementCount := by
      intro k hk
      have hki : k ≠ i := fun h => hnd2.1 (h ▸ hk)
      rw [hoth1 k hki, hcfg1.2.2]
      exact hv k (List.mem_cons_of_mem _ hk)
    obtain ⟨out2, hrun2, hwf2, hcfg2, hoth2, hl2⟩ := ih out1 hwf1 hnd2.2 hv1
    refine ⟨out2, ?_, hwf2, hcfg1.trans hcfg2, ?_, ?_⟩
    · rw [completeAll, hrun1]
      exact hrun2
    · intro j hj
      have hji : j ≠ i := fun h => hj (h ▸ List.mem_cons_self _ _)
      have hjr : j ∉ rest := fun h => hj (List.mem_cons_of_mem _ h)
      rw [hoth2 j hjr, hoth1 j hji]
    · intro j hj
      rcases List.mem_cons.mp hj with h | h
      · rw [h, hoth2 i hnd2.1, hl1]
      · have hji : j ≠ i := fun hh => hnd2.1 (hh ▸ h)
        rw [hl2 j h, hoth1 j hji]

theorem useOf_eq_framesPerStep (out : modAudioOutRecord) (n : Int) (hwf : WellFormed out) :
    useOf n (queuesOf out) = framesPerStep out n out.activeStream := by
  rw [framesPerStep_eq_foldr, (active_runs out hwf).1]
  rfl

theorem queuesOf_map (out out2 : modAudioOutRecord)
    (f : List modAudioQueueElementRecord → List modAudioQueueElementRecord)
    (hlen : out2.stream.length = out.stream.length)
    (h : ∀ j, j < out.stream.length → live (out2.streamAt j) = f (live (out.streamAt j))) :
    queuesOf out2 = (queuesOf out).map f := by
  rw [queuesOf_eq, queuesOf_eq, hlen, List.map_map]
  apply List.map_congr_left
  intro j hj
  exact h j (List.mem_range.mp hj)

theorem mixedOf_nil (mem : Memory) (j : Nat) : mixedOf mem [] j = 0 := by
  unfold mixedOf
  simp only [List.map_nil, List.sum_nil]
  decide

/-- One pass of `audioMix` on a well-formed state, in terms of the queues alone. -/
theorem audioMixStep_exact (mem : Memory) (out : modAudioOutRecord) (n : Int)
    (hwf : WellFormed out) (hn : 0 < n) :
    ∃ out2, audioMixStep mem out n = .done (out2, n - useOf n (queuesOf out),
        (List.range ((useOf n (queuesOf out)).toNat * out.numChannels)).map
          (mixedOf mem (sourcesOf out.bytesPerFrame (queuesOf out))))
      ∧ WellFormed out2 ∧ SameConfig out out2
      ∧ 0 ≤ n - useOf n (queuesOf out)
      ∧ queuesOf out2 = (queuesOf out).map (evolveQueue (useOf n (queuesOf out))) := by
  have huse := useOf_eq_framesPerStep out n hwf
  have hlens : ∀ j, j < out.stream.length → 0 < (out.streamAt j).element.length := by
    intro j hj
    rw [(hwf.2.2.1 j hj).2.2.1]; decide
  by_cases hz : out.activeStream = []
  · have hu : useOf n (queuesOf out) = n := by
      rw [huse, hz]; rfl
    have hs : sourcesOf out.bytesPerFrame (queuesOf out) = [] := by
      rw [← (active_runs out hwf).2, hz]; rfl
    rw [hu, hs]
    refine ⟨out, ?_, hwf, SameConfig.refl _, by omega, ?_⟩
    · simp only [audioMixStep, modAudioOutRecord.activeStreamCount, hz, List.length_nil,
        mixCase0]
      rw [if_neg (by
        have : (0 : Int) ≤ n * (out.numChannels : Int) :=
          mul_nonneg (by omega) (Int.ofNat_nonneg _)
        omega), toNat_mul_natCast n _ (by omega)]
      have hconst : (List.range (n.toNat * out.numChannels)).map (mixedOf mem [])
          = List.replicate (n.toNat * out.numChannels) 0 := by
        apply List.ext_getElem
        · simp
        · intro k h1 h2
          simp [mixedOf_nil]
      rw [hconst]
      simp
    · apply queuesOf_map out out _ rfl
      intro j hj
      have he : (out.streamAt j).elementCount = 0 :=
        inactive_empty out hwf j hj (by rw [hz]; simp)
      rw [live_of_empty _ he]
      rfl
  · obtain ⟨o, n2, chunk, hrun, hwf2, hcfg, hn2, _, _, _, hexact⟩ :=
      audioMixStep_spec mem out n hwf hn
    obtain ⟨hfr, hchunk⟩ := hexact hz
    have hn2eq : n2 = n - useOf n (queuesOf out) := by rw [huse]; omega
    have hdiff : n - n2 = useOf n (queuesOf out) := by omega
    have hchunk2 : chunk = (List.range ((useOf n (queuesOf out)).toNat * out.numChannels)).map
        (mixedOf mem (sourcesOf out.bytesPerFrame (queuesOf out))) := by
      rw [hchunk, hdiff, ← (active_runs out hwf).2]
      apply List.map_congr_left
      intro j _
      exact mixedSample_eq_mixedOf mem out out.activeStream j
    refine ⟨o, by rw [hrun, hn2eq, hchunk2], hwf2, hcfg, by omega, ?_⟩
    -- the state: unfold the generic step
    have hvalid := active_valid out hwf
    have hnodup := active_nodup out hwf
    have hcount := active_count_le out hwf
    have h1 : 1 ≤ out.activeStreamCount := by
      unfold modAudioOutRecord.activeStreamCount
      cases hact : out.activeStream with
      | nil => exact absurd hact hz
      | cons a t => simp
    have hgen := audioMixStep_eq_mixGeneric mem out n hwf.1 h1 hcount
    rw [hgen] at hrun
    unfold mixGeneric at hrun
    simp only at hrun
    split at hrun
    · simp at hrun
    obtain ⟨o', ho', hdone⟩ := Outcome.bind_eq_done hrun
    simp only [Outcome.done.injEq, Prod.mk.injEq] at hdone
    have ho : o' = o := hdone.1
    subst ho
    have hu0 : 0 ≤ framesPerStep out n out.activeStream :=
      framesPerStep_nonneg out n (by omega) _ (availableRun_nonneg_of_active out hwf)
    obtain ⟨hXwf, hXcfg, hXec, _, _⟩ := advanceAll_spec out.activeStream out
      (framesPerStep out n out.activeStream) hwf hnodup hvalid hu0
      (fun i hi => framesPerStep_le_run out n out.activeStream i hi)
    obtain ⟨hX, _, _, _⟩ := advanceAll_frame (framesPerStep out n out.activeStream)
      out.activeStream out (fun i hi => (hvalid i hi).1) hnodup
    obtain ⟨o2, hrun2, _, _, hoth, hl⟩ := completeAll_exact out.activeStream _ hXwf hnodup
      (fun i hi => by
        rw [hXcfg.2.2, hXec i]
        exact hvalid i hi)
    rw [hrun2] at ho'
    simp only [Outcome.done.injEq] at ho'
    subst ho'
    apply queuesOf_map out o2 _ hcfg.2.2
    intro j hj
    rw [huse]
    unfold evolveQueue
    by_cases hm : j ∈ out.activeStream
    · rw [hl j hm, hX j, if_pos hm, live_advanceStream _ _ (hlens j hj)]
    · rw [hoth j hm, hX j, if_neg hm]
      have he : (out.streamAt j).elementCount = 0 := inactive_empty out hwf j hj hm
      rw [live_of_empty _ he]
      rfl
/-! ## Mixing and the order of the streams -/

theorem audioMix_perm (mem : Memory) : ∀ (fuel : Nat) (out out' : modAudioOutRecord) (n : Int)
    (r : modAudioOutRecord × List Int),
    WellFormed out → WellFormed out' → out'.numChannels = out.numChannels →
    (queuesOf out).Perm (queuesOf out') → 0 ≤ n →
    audioMix mem fuel out n = .done r →
    ∃ r', audioMix mem fuel out' n = .done r' ∧ r'.2 = r.2 := by
  intro fuel
  induction fuel with
  | zero =>
    intro out out' n r _ _ _ _ _ h
    by_cases hn : n = 0
    · subst hn
      rw [audioMix_zero] at h
      simp only [Outcome.done.injEq] at h
      exact ⟨(out', []), audioMix_zero mem 0 out', by rw [← h]⟩
    · simp [audioMix, hn] at h
  | succ fuel ih =>
    intro out out' n r hwf hwf' hnc hperm hn0 h
    by_cases hn : n = 0
    · subst hn
      rw [audioMix_zero] at h
      simp only [Outcome.done.injEq] at h
      exact ⟨(out', []), audioMix_zero mem _ out', by rw [← h]⟩
    · have hbpf : out'.bytesPerFrame = out.bytesPerFrame := by rw [hwf'.1, hwf.1, hnc]
      obtain ⟨o1, hs1, hwf1, hcfg1, hn1, hq1⟩ := audioMixStep_exact mem out n hwf (by omega)
      obtain ⟨o2, hs2, hwf2, hcfg2, _, hq2⟩ := audioMixStep_exact mem out' n hwf' (by omega)
      have hu : useOf n (queuesOf out') = useOf n (queuesOf out) := (useOf_perm hperm n).symm
      have hchunk : (List.range ((useOf n (queuesOf out')).toNat * out'.numChannels)).map
            (mixedOf mem (sourcesOf out'.bytesPerFrame (queuesOf out')))
          = (List.range ((useOf n (queuesOf out)).toNat * out.numChannels)).map
            (mixedOf mem (sourcesOf out.bytesPerFrame (queuesOf out))) := by
        rw [hu, hnc, hbpf]
        apply List.map_congr_left
        intro j _
        exact (mixedOf_perm mem (sourcesOf_perm out.bytesPerFrame hperm) j).symm
      rw [hchunk, hu] at hs2
      rw [hu] at hq2
      rw [audioMix_succ mem fuel out n hn, hs1, Outcome.bind_done] at h
      obtain ⟨r2, hr2, h3⟩ := Outcome.bind_eq_done h
      simp only [Outcome.done.injEq] at h3
      obtain ⟨r2', hr2', heq⟩ := ih o1 o2 _ r2 hwf1 hwf2
        (by rw [hcfg2.1, hcfg1.1, hnc])
        (by rw [hq1, hq2]; exact hperm.map _) hn1 hr2
      refine ⟨(r2'.1, (List.range ((useOf n (queuesOf out)).toNat * out.numChannels)).map
            (mixedOf mem (sourcesOf out.bytesPerFrame (queuesOf out))) ++ r2'.2), ?_, ?_⟩
      · rw [audioMix_succ mem fuel out' n hn, hs2, Outcome.bind_done]
        simp only [hr2', Outcome.bind_done]
      · rw [← h3]
        simp only [heq]

theorem withStreams_wellFormed (out : modAudioOutRecord) (streams : List modAudioOutStreamRecord)
    (hwf : WellFormed out) (hperm : out.stream.Perm streams) :
    WellFormed (withStreams out streams) := by
  obtain ⟨a, b, c, _⟩ := hwf
  have hall : ∀ s ∈ out.stream, WellFormedStream s := by
    intro s hs
    obtain ⟨j, hj, hjs⟩ := List.getElem_of_mem hs
    have := c j hj
    simp only [modAudioOutRecord.streamAt, List.getD_eq_getElem?_getD, List.getElem?_eq_getElem hj,
      Option.getD_some, hjs] at this
    exact this
  refine ⟨a, ?_, ?_, rfl⟩
  · show streams.length ≤ MODDEF_AUDIOOUT_STREAMS
    rw [← hperm.length_eq]; exact b
  · intro j hj
    have hj' : j < streams.length := hj
    have hsa : (withStreams out streams).streamAt j = streams[j] := by
      show streams.getD j default = streams[j]
      simp [List.getD_eq_getElem?_getD, hj']
    rw [hsa]
    exact hall _ (hperm.mem_iff.mpr (List.getElem_mem _))

/-! ## Calls without a flush never leave the slot array -/

theorem completeIfDone_total (out : modAudioOutRecord) (i : Nat) (hi : i < out.stream.length)
    (hc1 : 1 ≤ (out.streamAt i).elementCount)
    (hc8 : (out.streamAt i).elementCount ≤ MODDEF_AUDIOOUT_QUEUELENGTH)
    (hlen : (out.streamAt i).element.length = MODDEF_AUDIOOUT_QUEUELENGTH)
    (hex : ActiveExact out) :
    ∃ out1, completeIfDone out i = .done out1
      ∧ (∀ j, j ≠ i → out1.streamAt j = out.streamAt j)
      ∧ out1.stream.length = out.stream.length ∧ ActiveExact out1 := by
  unfold completeIfDone
  by_cases hend : (out.frontOf i).position = (out.frontOf i).sampleCount
  · rw [if_pos hend]
    obtain ⟨out2, hrun, hcfg, hothers, _, _, _, _, _, _, hact⟩ :=
      endOfElement_frame out i hi hc1 hc8 hlen
    refine ⟨out2, hrun, hothers, hcfg.2.2, ?_⟩
    intro k hk
    rcases hact with ⟨h1, h2⟩ | h1
    · by_cases hki : k = i
      · rw [hki]; exact h2
      · rw [hothers k hki]
        exact hex k (by rw [← h1]; exact hk)
    · rw [h1] at hk
      simp only [updateActiveStreams, List.mem_filter, decide_eq_true_eq] at hk
      exact hk.2
  · rw [if_neg hend]
    exact ⟨out, rfl, fun _ _ => rfl, rfl, hex⟩

theorem completeAll_total : ∀ (todo : List Nat) (out : modAudioOutRecord), todo.Nodup →
    (∀ i ∈ todo, i < out.stream.length ∧ 1 ≤ (out.streamAt i).elementCount
      ∧ (out.streamAt i).elementCount ≤ MODDEF_AUDIOOUT_QUEUELENGTH
      ∧ (out.streamAt i).element.length = MODDEF_AUDIOOUT_QUEUELENGTH) →
    ActiveExact out →
    ∃ out2, completeAll out todo = .done out2 ∧ ActiveExact out2 := by
  intro todo
  induction todo with
  | nil =>
    intro out _ _ hex
    exact ⟨out, rfl, hex⟩
  | cons i rest ih =>
    intro out hnd hv hex
    have hnd2 := List.nodup_cons.mp hnd
    obtain ⟨hi, hc1, hc8, hlen⟩ := hv i (List.mem_cons_self _ _)
    obtain ⟨out1, hrun1, hoth1, hlen1, hex1⟩ := completeIfDone_total out i hi hc1 hc8 hlen hex
    obtain ⟨out2, hrun2, hex2⟩ := ih out1 hnd2.2
      (fun k hk => by
        have hki : k ≠ i := fun h => hnd2.1 (h ▸ hk)
        rw [hoth1 k hki, hlen1]
        exact hv k (List.mem_cons_of_mem _ hk)) hex1
    exact ⟨out2, by rw [completeAll, hrun1]; exact hrun2, hex2⟩

theorem audioMixStep_total (mem : Memory) (out : modAudioOutRecord) (n : Int)
    (hc : Consistent out) (hex : ActiveExact out) (hn : 0 < n) :
    ∃ r, audioMixStep mem out n = .done r ∧ ActiveExact r.1 := by
  obtain ⟨hvalid, hnodup, hlen4⟩ := consistent_active out hc
  have hc' := hc
  obtain ⟨hbpf, hnc, hsc, hmidq, hsettled, hsub, hcontains, hpend⟩ := hc'
  have hq2 : MODDEF_AUDIOOUT_QUEUELENGTH = 8 := rfl
  by_cases hz : out.activeStream = []
  · simp only [audioMixStep, modAudioOutRecord.activeStreamCount, hz, List.length_nil,
      mixCase0]
    rw [if_neg (by
      have : (0 : Int) ≤ n * (out.numChannels : Int) :=
        mul_nonneg (by omega) (Int.ofNat_nonneg _)
      omega)]
    exact ⟨_, rfl, hex⟩
  · have h1 : 1 ≤ out.activeStreamCount := by
      unfold modAudioOutRecord.activeStreamCount
      cases hact : out.activeStream with
      | nil => exact absurd hact hz
      | cons a t => simp
    rw [audioMixStep_eq_mixGeneric mem out n hbpf h1 hlen4]
    unfold mixGeneric
    simp only
    have hfacts : ∀ i ∈ out.activeStream, 1 ≤ (out.streamAt i).elementCount
        ∧ 0 ≤ availableRun out i := by
      intro i hi
      obtain ⟨hc0, _, hlen, hpos, _⟩ := hmidq i (hvalid i hi)
      have hne := hex i hi
      have hc1 : 1 ≤ (out.streamAt i).elementCount := by omega
      have hlen0 : 0 < (out.streamAt i).element.length := by rw [hlen, hq2]; decide
      have := hpos _ (front_mem_live _ hc1 hlen0)
      exact ⟨hc1, by unfold availableRun modAudioOutRecord.frontOf; omega⟩
    have hu0 : 0 ≤ framesPerStep out n out.activeStream :=
      framesPerStep_nonneg out n (by omega) _ (fun i hi => (hfacts i hi).2)
    rw [if_neg (by
      have : (0 : Int) ≤ framesPerStep out n out.activeStream * (out.numChannels : Int) :=
        mul_nonneg hu0 (Int.ofNat_nonneg _)
      omega)]
    obtain ⟨hX, hXcfg, hXact, _⟩ :=
      advanceAll_frame (framesPerStep out n out.activeStream) out.activeStream out hvalid hnodup
    have hXs : ∀ j, ((advanceAll out (framesPerStep out n out.activeStream)
          out.activeStream).streamAt j).elementCount = (out.streamAt j).elementCount
        ∧ ((advanceAll out (framesPerStep out n out.activeStream)
          out.activeStream).streamAt j).element.length = (out.streamAt j).element.length := by
      intro j
      rw [hX j]
      split
      · exact ⟨rfl, by unfold advanceStream; simp⟩
      · exact ⟨rfl, rfl⟩
    obtain ⟨out2, hrun2, hex2⟩ := completeAll_total out.activeStream _ hnodup
      (fun i hi => by
        rw [hXcfg.2.2, (hXs i).1, (hXs i).2]
        exact ⟨hvalid i hi, (hfacts i hi).1, (hmidq i (hvalid i hi)).2.1,
          (hmidq i (hvalid i hi)).2.2.1⟩)
      (fun i hi => by
        rw [(hXs i).1]
        exact hex i (by rw [← hXact]; exact hi))
    rw [hrun2]
    exact ⟨_, rfl, hex2⟩

/-- From a consistent state whose active set lists no empty stream, `audioMix` either
returns or is still running when the bound on its passes is reached. -/
theorem audioMix_within_array (mem : Memory) : ∀ (fuel : Nat) (out : modAudioOutRecord)
    (n : Int), Consistent out → ActiveExact out → 0 ≤ n →
    (∃ out2 output, audioMix mem fuel out n = .done (out2, output) ∧ ActiveExact out2)
      ∨ audioMix mem fuel out n = .outOfFuel := by
  intro fuel
  induction fuel with
  | zero =>
    intro out n _ hex _
    by_cases hn : n = 0
    · subst hn
      exact Or.inl ⟨out, [], audioMix_zero mem 0 out, hex⟩
    · right
      simp [audioMix, hn]
  | succ fuel ih =>
    intro out n hc hex hn0
    by_cases hn : n = 0
    · subst hn
      exact Or.inl ⟨out, [], audioMix_zero mem _ out, hex⟩
    · obtain ⟨⟨o1, n1, chunk⟩, hr, hex1⟩ := audioMixStep_total mem out n hc hex (by omega)
      obtain ⟨hc1, _, hn1, _, _⟩ := audioMixStep_consistent mem out o1 n n1 chunk hc (by omega) hr
      rw [audioMix_succ mem fuel out n hn, hr, Outcome.bind_done]
      rcases ih o1 n1 hc1 hex1 hn1 with ⟨o2, rest, h2, hex2⟩ | h2
      · left
        exact ⟨o2, chunk ++ rest, by simp only [h2, Outcome.bind_done], hex2⟩
      · right
        simp only [h2, Outcome.bind]

theorem enqueue_activeExact (out out2 : modAudioOutRecord) (stream : Int) (args : EnqueueArgs)
    (hc : CountsOK out) (hex : ActiveExact out) (hne : args ≠ .flush)
    (h : xs_audioout_enqueue out stream args = .done out2) : ActiveExact out2 := by
  have hq : (MODDEF_AUDIOOUT_QUEUELENGTH : Int) = 8 := rfl
  unfold xs_audioout_enqueue at h
  split at h
  · simp at h
  rename_i hrange
  split at h
  · simp at h
  rename_i hfull
  have hi : stream.toNat < out.stream.length := by
    unfold modAudioOutRecord.streamCount at hrange
    omega
  obtain ⟨hc0, hc8, hlen⟩ := hc.2.2.1 _ hi
  have key : ∀ e : modAudioQueueElementRecord, enqueueDone out stream.toNat e = .done out2 →
      ActiveExact out2 := by
    intro e he
    obtain ⟨o, ho, _, hothers, _, _, hec, _, hact⟩ :=
      enqueueDone_frame out stream.toNat e hi hc0 (by omega) hlen
    rw [ho] at he
    simp only [Outcome.done.injEq] at he
    subst he
    intro k hk
    rcases hact with ⟨h1, _⟩ | h1
    · by_cases hki : k = stream.toNat
      · rw [hki, hec]; omega
      · rw [hothers k hki]
        exact hex k (by rw [← h1]; exact hk)
    · rw [h1] at hk
      simp only [updateActiveStreams, List.mem_filter, decide_eq_true_eq] at hk
      exact hk.2
  cases args with
  | flush => exact absurd rfl hne
  | callback id => exact key _ h
  | samples buffer r o c =>
    simp only at h
    split at h
    · simp at h
    split at h
    · simp at h
    split at h
    · simp at h
    exact key _ h
/-! ## The slice a buffer enqueue stores -/

theorem wrap32_of_range (x : Int) (h0 : -2147483648 ≤ x) (h1 : x ≤ 2147483647) :
    wrap32 x = x := by
  unfold wrap32
  omega

/-- The element an accepted buffer enqueue stores, with the `int` arithmetic of lines 367,
368 and 377: the start offset is below the declared frames and has no lower bound.  When
the offset is not negative and the sum of offset and requested count is within `int`, the
stored frame count is not negative and the slice ends within the declared frames; the count
is then the declared frames minus the offset when the requested count is negative or runs
past the end. -/
theorem buffer_enqueue_slice (out out2 : modAudioOutRecord) (stream : Int)
    (buffer : AudioBuffer) (repeatCount sampleOffset samplesToUse : Int)
    (hc0 : 0 ≤ (out.streamAt stream.toNat).elementCount)
    (hlen : (out.streamAt stream.toNat).element.length = MODDEF_AUDIOOUT_QUEUELENGTH)
    (h : xs_audioout_enqueue out stream
      (.samples buffer repeatCount sampleOffset samplesToUse) = .done out2) :
    ∃ e, live (out2.streamAt stream.toNat) = live (out.streamAt stream.toNat) ++ [e]
      ∧ e.samples = buffer.address + 12 + wrap32 (sampleOffset * out.bytesPerFrame)
      ∧ e.position = 0 ∧ e.repeatCount = repeatCount
      ∧ sampleOffset < buffer.bufferSamples
      ∧ (samplesToUse < 0 ∨ wrap32 (sampleOffset + samplesToUse) > buffer.bufferSamples →
          e.sampleCount = wrap32 (buffer.bufferSamples - sampleOffset))
      ∧ (0 ≤ samplesToUse → wrap32 (sampleOffset + samplesToUse) ≤ buffer.bufferSamples →
          e.sampleCount = samplesToUse)
      ∧ (0 ≤ sampleOffset → buffer.bufferSamples ≤ 2147483647 →
          -2147483648 ≤ samplesToUse → sampleOffset + samplesToUse ≤ 2147483647 →
          0 ≤ e.sampleCount ∧ sampleOffset + e.sampleCount ≤ buffer.bufferSamples
            ∧ (samplesToUse < 0 ∨ sampleOffset + samplesToUse > buffer.bufferSamples →
                e.sampleCount = buffer.bufferSamples - sampleOffset)) := by
  have hq : (MODDEF_AUDIOOUT_QUEUELENGTH : Int) = 8 := rfl
  unfold xs_audioout_enqueue at h
  split at h
  · simp at h
  rename_i hrange
  split at h
  · simp at h
  rename_i hfull
  have hi : stream.toNat < out.stream.length := by
    unfold modAudioOutRecord.streamCount at hrange
    omega
  simp only at h
  split at h
  · simp at h
  split at h
  · simp at h
  split at h
  · simp at h
  rename_i hoff
  have hroom : (out.streamAt stream.toNat).elementCount < MODDEF_AUDIOOUT_QUEUELENGTH := by
    by_contra hfull2
    unfold enqueueDone at h
    simp only at h
    rw [if_pos (Or.inr (by omega))] at h
    simp at h
  obtain ⟨o, ho, _, _, _, hlive, _, _, _⟩ :=
    enqueueDone_frame out stream.toNat _ hi hc0 hroom hlen
  rw [ho] at h
  simp only [Outcome.done.injEq] at h
  subst h
  refine ⟨_, hlive, rfl, rfl, rfl, by omega, ?_, ?_, ?_⟩
  · intro hc
    simp only
    rw [if_pos hc]
  · intro h1 h2
    simp only
    rw [if_neg (by omega)]
  · intro h0 hbs hlo hsum
    have hw1 : wrap32 (sampleOffset + samplesToUse) = sampleOffset + samplesToUse :=
      wrap32_of_range _ (by omega) hsum
    have hw2 : wrap32 (buffer.bufferSamples - sampleOffset)
        = buffer.bufferSamples - sampleOffset :=
      wrap32_of_range _ (by omega) (by omega)
    simp only [hw1, hw2]
    refine ⟨?_, ?_, ?_⟩
    · split <;> omega
    · split <;> omega
    · intro hc
      rw [if_pos hc]

/-- The call `enqueue(0, buffer, 1, 1, 2147483647)` on a buffer of 4 declared frames is
accepted with the requested count kept: the sum `1 + 2147483647` wraps around to a negative
`int`, so the test for a count that runs past the end fails. -/
theorem enqueue_keeps_overlong_count :
    xs_audioout_enqueue (xs_audioout 8000 1 1) 0 (.samples fourFrameBuffer 1 1 2147483647)
        = .done overlongCountEngine
      ∧ live (overlongCountEngine.streamAt 0)
        = [{ samples := 1014, sampleCount := 2147483647, position := 0, repeatCount := 1 }] := by
  decide
/-! ## Splitting a request of audioMix in two -/

theorem framesPerStep_of_le (out : modAudioOutRecord) (n : Int) : ∀ l : List Nat,
    (∀ i ∈ l, n ≤ availableRun out i) → framesPerStep out n l = n := by
  intro l
  induction l with
  | nil => intro _; rfl
  | cons i rest ih =>
    intro h
    simp only [framesPerStep, ih (fun k hk => h k (List.mem_cons_of_mem _ hk))]
    exact min_eq_right (h i (List.mem_cons_self _ _))

theorem enqueueDoneState_eq (out : modAudioOutRecord) (i : Nat) (e : modAudioQueueElementRecord) :
    (∀ out2, enqueueDone out i e = .done out2 ↔ enqueueDoneState out i e = (out2, .done ()))
      ∧ (∀ msg, enqueueDone out i e ≠ .thrown msg)
      ∧ (∀ msg, (enqueueDoneState out i e).2 ≠ .thrown msg) := by
  unfold enqueueDone enqueueDoneState
  simp only
  split
  · simp
  · simp

theorem xs_audioout_enqueue_state_eq (out : modAudioOutRecord) (stream : Int)
    (args : EnqueueArgs) :
    (∀ out2, xs_audioout_enqueue out stream args = .done out2
        ↔ xs_audioout_enqueue_state out stream args = (out2, .done ()))
      ∧ (∀ msg, xs_audioout_enqueue out stream args = .thrown msg
        ↔ (xs_audioout_enqueue_state out stream args).2 = .thrown msg) := by
  unfold xs_audioout_enqueue xs_audioout_enqueue_state
  split
  · simp
  split
  · simp
  cases args with
  | flush => simp
  | callback id =>
    simp only
    have h := enqueueDoneState_eq out stream.toNat ⟨id, 0, 0, 1⟩
    exact ⟨h.1, fun msg => ⟨fun hc => absurd hc (h.2.1 msg), fun hc => absurd hc (h.2.2 msg)⟩⟩
  | samples buffer r o c =>
    simp only
    split
    · simp
    split
    · simp
    split
    · simp
    have h := enqueueDoneState_eq out stream.toNat
      ⟨buffer.address + 12 + wrap32 (o * out.bytesPerFrame),
        if c < 0 ∨ wrap32 (o + c) > buffer.bufferSamples then wrap32 (buffer.bufferSamples - o)
          else c, 0, r⟩
    exact ⟨h.1, fun msg => ⟨fun hc => absurd hc (h.2.1 msg), fun hc => absurd hc (h.2.2 msg)⟩⟩

/-- C13: a call of `xs_audioout_enqueue` that is rejected, for any of its five causes,
ends in the state it started from: the streams with their counts and elements, the active
set and the pending callback queue are those before the call; and the rejection is the
one the other rendering of the function reports. -/
theorem rejected_enqueue_leaves_state (out : modAudioOutRecord) (stream : Int)
    (args : EnqueueArgs) (msg : String)
    (h : (xs_audioout_enqueue_state out stream args).2 = .thrown msg) :
    (xs_audioout_enqueue_state out stream args).1 = out
      ∧ (xs_audioout_enqueue_state out stream args).1.stream = out.stream
      ∧ (xs_audioout_enqueue_state out stream args).1.activeStream = out.activeStream
      ∧ (xs_audioout_enqueue_state out stream args).1.pendingCallbacks = out.pendingCallbacks
      ∧ xs_audioout_enqueue out stream args = .thrown msg
      ∧ msg ∈ ["invalid stream", "queue full", "bad header", "format doesn't match output",
          "invalid offset"] := by
  have hthrown := ((xs_audioout_enqueue_state_eq out stream args).2 msg).mpr h
  have key : (xs_audioout_enqueue_state out stream args).1 = out
      ∧ msg ∈ ["invalid stream", "queue full", "bad header", "format doesn't match output",
          "invalid offset"] := by
    revert h
    unfold xs_audioout_enqueue_state
    split
    · intro h; simp only [Outcome.thrown.injEq] at h; subst h; simp
    split
    · intro h; simp only [Outcome.thrown.injEq] at h; subst h; simp
    cases args with
    | flush => intro h; simp at h
    | callback id =>
      intro h
      exact absurd h ((enqueueDoneState_eq out stream.toNat ⟨id, 0, 0, 1⟩).2.2 msg)
    | samples buffer r o c =>
      simp only
      split
      · intro h; simp only [Outcome.thrown.injEq] at h; subst h; simp
      split
      · intro h; simp only [Outcome.thrown.injEq] at h; subst h; simp
      split
      · intro h; simp only [Outcome.thrown.injEq] at h; subst h; simp
      intro h
      exact absurd h ((enqueueDoneState_eq out stream.toNat _).2.2 msg)
  exact ⟨key.1, by rw [key.1], by rw [key.1], by rw [key.1], hthrown, key.2⟩

theorem rejected_enqueue_leaves_state_witness :
    (xs_audioout_enqueue_state twoStreamEngine 0
        (.samples fourFrameBuffer 1 4 (-1))).2 = .thrown "invalid offset"
      ∧ (xs_audioout_enqueue_state twoStreamEngine 0
          (.samples fourFrameBuffer 1 4 (-1))).1 = twoStreamEngine :=
  ⟨by decide,
    (rejected_enqueue_leaves_state twoStreamEngine 0 (.samples fourFrameBuffer 1 4 (-1))
      "invalid offset" (by decide)).1⟩

/-- C14: on a valid stream that is not full, the buffer form of `xs_audioout_enqueue` is
accepted exactly when the header starts with the bytes 'm' (109), 'a' (97), 1, its
`bitsPerSample`, `sampleRate` and `numChannels` equal the engine's, and the start offset is
below the header's frame count; a wrong magic raises "bad header", otherwise a differing
format field raises "format doesn't match output", otherwise an offset that is not below the
frame count raises "invalid offset". -/
theorem buffer_enqueue_accepted_iff (out : modAudioOutRecord) (stream : Int)
    (buffer : AudioBuffer) (repeatCount sampleOffset samplesToUse : Int)
    (h0 : 0 ≤ stream) (h1 : stream < out.streamCount)
    (hc0 : 0 ≤ (out.streamAt stream.toNat).elementCount)
    (hc8 : (out.streamAt stream.toNat).elementCount < MODDEF_AUDIOOUT_QUEUELENGTH) :
    ((∃ out2, xs_audioout_enqueue out stream
          (.samples buffer repeatCount sampleOffset samplesToUse) = .done out2)
        ↔ ((buffer.magic0 = 109 ∧ buffer.magic1 = 97 ∧ buffer.magic2 = 1)
          ∧ (buffer.bitsPerSample = out.bitsPerSample ∧ buffer.sampleRate = out.sampleRate
            ∧ buffer.numChannels = out.numChannels)
          ∧ sampleOffset < buffer.bufferSamples))
      ∧ (¬(buffer.magic0 = 109 ∧ buffer.magic1 = 97 ∧ buffer.magic2 = 1) →
          xs_audioout_enqueue out stream (.samples buffer repeatCount sampleOffset samplesToUse)
            = .thrown "bad header")
      ∧ ((buffer.magic0 = 109 ∧ buffer.magic1 = 97 ∧ buffer.magic2 = 1) →
          ¬(buffer.bitsPerSample = out.bitsPerSample ∧ buffer.sampleRate = out.sampleRate
            ∧ buffer.numChannels = out.numChannels) →
          xs_audioout_enqueue out stream (.samples buffer repeatCount sampleOffset samplesToUse)
            = .thrown "format doesn't match output")
      ∧ ((buffer.magic0 = 109 ∧ buffer.magic1 = 97 ∧ buffer.magic2 = 1) →
          (buffer.bitsPerSample = out.bitsPerSample ∧ buffer.sampleRate = out.sampleRate
            ∧ buffer.numChannels = out.numChannels) →
          ¬(sampleOffset < buffer.bufferSamples) →
          xs_audioout_enqueue out stream (.samples buffer repeatCount sampleOffset samplesToUse)
            = .thrown "invalid offset") := by
  have hq : (MODDEF_AUDIOOUT_QUEUELENGTH : Int) = 8 := rfl
  have hpre : ¬(stream < 0 ∨ stream ≥ out.streamCount) := by omega
  have hfull : ¬((MODDEF_AUDIOOUT_QUEUELENGTH : Int) = (out.streamAt stream.toNat).elementCount) := by
    omega
  have hslot : ¬((out.streamAt stream.toNat).elementCount < 0
      ∨ (MODDEF_AUDIOOUT_QUEUELENGTH : Int) ≤ (out.streamAt stream.toNat).elementCount) := by
    omega
  unfold xs_audioout_enqueue
  simp only [hpre, hfull, if_false]
  by_cases hm : buffer.magic0 = 109 ∧ buffer.magic1 = 97 ∧ buffer.magic2 = 1
  · have hm2 : ¬(buffer.magic0 ≠ 109 ∨ buffer.magic1 ≠ 97 ∨ buffer.magic2 ≠ 1) := by
      intro h; rcases h with h | h | h
      · exact h hm.1
      · exact h hm.2.1
      · exact h hm.2.2
    simp only [hm2, if_false]
    by_cases hf : buffer.bitsPerSample = out.bitsPerSample ∧ buffer.sampleRate = out.sampleRate
        ∧ buffer.numChannels = out.numChannels
    · have hf2 : ¬(buffer.bitsPerSample ≠ out.bitsPerSample ∨ buffer.sampleRate ≠ out.sampleRate
          ∨ buffer.numChannels ≠ out.numChannels) := by
        intro h; rcases h with h | h | h
        · exact h hf.1
        · exact h hf.2.1
        · exact h hf.2.2
      simp only [hf2, if_false]
      by_cases ho : sampleOffset < buffer.bufferSamples
      · have ho2 : ¬(sampleOffset ≥ buffer.bufferSamples) := by omega
        simp only [ho2, if_false]
        unfold enqueueDone
        simp only [hslot, if_false]
        exact ⟨⟨fun _ => ⟨hm, hf, ho⟩, fun _ => ⟨_, rfl⟩⟩, fun h => absurd hm h,
          fun _ h => absurd hf h, fun _ _ h => absurd ho h⟩
      · have ho2 : sampleOffset ≥ buffer.bufferSamples := by omega
        simp only [ho2, if_true]
        exact ⟨⟨fun h => by obtain ⟨_, h⟩ := h; simp at h, fun h => absurd h.2.2 ho⟩,
          fun h => absurd hm h, fun _ h => absurd hf h, fun _ _ _ => trivial⟩
    · have hf2 : buffer.bitsPerSample ≠ out.bitsPerSample ∨ buffer.sampleRate ≠ out.sampleRate
          ∨ buffer.numChannels ≠ out.numChannels := by
        by_contra hcon
        push_neg at hcon
        exact hf hcon
      simp only [hf2, if_true]
      exact ⟨⟨fun h => by obtain ⟨_, h⟩ := h; simp at h, fun h => absurd h.2.1 hf⟩,
        fun h => absurd hm h, fun _ _ => trivial, fun _ h => absurd h hf⟩
  · have hm2 : buffer.magic0 ≠ 109 ∨ buffer.magic1 ≠ 97 ∨ buffer.magic2 ≠ 1 := by
      by_contra hcon
      push_neg at hcon
      exact hm hcon
    simp only [hm2, if_true]
    exact ⟨⟨fun h => by obtain ⟨_, h⟩ := h; simp at h, fun h => absurd h.1 hm⟩,
      fun _ => trivial, fun h => absurd h hm, fun h => absurd h hm⟩

theorem buffer_enqueue_accepted_iff_witness :
    (∃ out2, xs_audioout_enqueue (xs_audioout 8000 1 1) 0
        (.samples fourFrameBuffer 1 0 (-1)) = .done out2)
      ↔ ((fourFrameBuffer.magic0 = 109 ∧ fourFrameBuffer.magic1 = 97
            ∧ fourFrameBuffer.magic2 = 1)
          ∧ (fourFrameBuffer.bitsPerSample = (xs_audioout 8000 1 1).bitsPerSample
            ∧ fourFrameBuffer.sampleRate = (xs_audioout 8000 1 1).sampleRate
            ∧ fourFrameBuffer.numChannels = (xs_audioout 8000 1 1).numChannels)
          ∧ (0 : Int) < fourFrameBuffer.bufferSamples) :=
  (buffer_enqueue_accepted_iff (xs_audioout 8000 1 1) 0 fourFrameBuffer 1 0 (-1)
    (by decide) (by decide) (by decide) (by decide)).1
/-! ## Counts, positions and the pending queue in reachable states -/

theorem fresh_reachable : Reachable (xs_audioout 8000 1 1) :=
  Reachable.construct 8000 1 1 (Or.inl rfl) ⟨by decide, by decide⟩

theorem pairEngine_reachable : Reachable pairEngine :=
  Reachable.enqueue
    (xs_audioout_enqueue (xs_audioout 8000 1 1) 0 (.samples fourFrameBuffer 1 0 (-1))).stateOr
    pairEngine 0 (.samples twoFrameBuffer 1 0 (-1))
    (Reachable.enqueue (xs_audioout 8000 1 1) _ 0 (.samples fourFrameBuffer 1 0 (-1))
      fresh_reachable (by decide))
    (by decide)

/-- C12: in every reachable state each stream's count lies within 0 and
`MODDEF_AUDIOOUT_QUEUELENGTH`; an accepted enqueue of a callback or of a buffer finds its
stream below capacity, adds exactly one to the stream's count, appends one element to the
queue (the elements already queued stay in place) with position 0 and with repeat 1 for a
callback or the requested repeat count for a buffer, and leaves every other stream as it
was; an enqueue on a stream at capacity raises "queue full"; the count of every stream of
the fresh engine is 0; and a call of `audioMix` that returns lowers each stream's count by
exactly the number `k` of elements it has removed from the head of that stream's queue.
In a sequence of calls without a flush (the active set lists no empty stream), and as long
as the queued elements have their positions within their frames (which an accepted enqueue
that stores a frame count that is not negative keeps, and `audioMix` keeps), `audioMix`
never leaves the slot array: it returns, or is still running at the bound on its passes. -/
theorem enqueue_count_bookkeeping (out : modAudioOutRecord) (h : Reachable out) :
    (∀ j, j < out.streamCount → 0 ≤ (out.streamAt j).elementCount
        ∧ (out.streamAt j).elementCount ≤ MODDEF_AUDIOOUT_QUEUELENGTH)
      ∧ (∀ (stream : Int) (args : EnqueueArgs) (out2 : modAudioOutRecord), args ≠ .flush →
          xs_audioout_enqueue out stream args = .done out2 →
          (out.streamAt stream.toNat).elementCount < MODDEF_AUDIOOUT_QUEUELENGTH
            ∧ (out2.streamAt stream.toNat).elementCount
                = (out.streamAt stream.toNat).elementCount + 1
            ∧ (∃ e, live (out2.streamAt stream.toNat) = live (out.streamAt stream.toNat) ++ [e]
                ∧ (out2.streamAt stream.toNat).element = (out.streamAt stream.toNat).element.set
                    (out.streamAt stream.toNat).elementCount.toNat e
                ∧ e.position = 0
                ∧ (∀ id, args = .callback id → e.repeatCount = 1)
                ∧ (∀ b r o c, args = .samples b r o c → e.repeatCount = r))
            ∧ (∀ j, j ≠ stream.toNat → out2.streamAt j = out.streamAt j))
      ∧ (∀ (stream : Int) (args : EnqueueArgs), 0 ≤ stream → stream < out.streamCount →
          (out.streamAt stream.toNat).elementCount = MODDEF_AUDIOOUT_QUEUELENGTH →
          xs_audioout_enqueue out stream args = .thrown "queue full")
      ∧ (∀ (sampleRate numChannels streamCount j : Nat), j < streamCount →
          ((xs_audioout sampleRate numChannels streamCount).streamAt j).elementCount = 0)
      ∧ (∀ (mem : Memory) (fuel : Nat) (n : Int) (out2 : modAudioOutRecord)
          (output : List Int), 0 ≤ n → audioMix mem fuel out n = .done (out2, output) →
          ∀ j, j < out.streamCount →
            ∃ k : Nat, Retired (out.streamAt j) (out2.streamAt j) k
              ∧ 0 ≤ (out2.streamAt j).elementCount)
      ∧ (∀ (sampleRate numChannels streamCount : Nat),
          ActiveExact (xs_audioout sampleRate numChannels streamCount))
      ∧ (ActiveExact out →
          (∀ (stream : Int) (args : EnqueueArgs) (out2 : modAudioOutRecord), args ≠ .flush →
            xs_audioout_enqueue out stream args = .done out2 → ActiveExact out2)
          ∧ (PositionsSettled out →
              (∀ (stream : Int) (args : EnqueueArgs) (out2 : modAudioOutRecord),
                args ≠ .flush → xs_audioout_enqueue out stream args = .done out2 →
                (∀ e ∈ live (out2.streamAt stream.toNat), 0 ≤ e.sampleCount) →
                PositionsSettled out2)
              ∧ ∀ (mem : Memory) (fuel : Nat) (n : Int), 0 ≤ n →
                (∃ out2 output, audioMix mem fuel out n = .done (out2, output)
                    ∧ ActiveExact out2 ∧ PositionsSettled out2)
                  ∨ audioMix mem fuel out n = .outOfFuel)) := by
  have hc := reachable_counts out h
  have hq : (MODDEF_AUDIOOUT_QUEUELENGTH : Int) = 8 := rfl
  refine ⟨?_, ?_, ?_, ?_, ?_, ?_, ?_⟩
  · intro j hj
    have := hc.2.2.1 j hj
    exact ⟨this.1, this.2.1⟩
  · intro stream args out2 hne hrun
    have hrun0 := hrun
    unfold xs_audioout_enqueue at hrun
    split at hrun
    · simp at hrun
    rename_i hrange
    split at hrun
    · simp at hrun
    rename_i hfull
    have hi : stream.toNat < out.stream.length := by
      unfold modAudioOutRecord.streamCount at hrange
      omega
    obtain ⟨hc0, hc8, hlen⟩ := hc.2.2.1 _ hi
    have hroom : (out.streamAt stream.toNat).elementCount < MODDEF_AUDIOOUT_QUEUELENGTH := by
      omega
    have key : ∀ e : modAudioQueueElementRecord, enqueueDone out stream.toNat e = .done out2 →
        (out2.streamAt stream.toNat).elementCount = (out.streamAt stream.toNat).elementCount + 1
          ∧ live (out2.streamAt stream.toNat) = live (out.streamAt stream.toNat) ++ [e]
          ∧ (out2.streamAt stream.toNat).element = (out.streamAt stream.toNat).element.set
              (out.streamAt stream.toNat).elementCount.toNat e
          ∧ (∀ j, j ≠ stream.toNat → out2.streamAt j = out.streamAt j) := by
      intro e he
      obtain ⟨o, ho, _, hothers, hel, hlive, hec, _, _⟩ :=
        enqueueDone_frame out stream.toNat e hi hc0 hroom hlen
      rw [ho] at he
      simp only [Outcome.done.injEq] at he
      subst he
      exact ⟨hec, hlive, hel, hothers⟩
    cases args with
    | flush => exact absurd rfl hne
    | callback id =>
      obtain ⟨k1, k2, k3, k4⟩ := key _ hrun
      exact ⟨hroom, k1, ⟨_, k2, k3, rfl, fun _ _ => rfl, fun b r o c hh => by simp at hh⟩, k4⟩
    | samples buffer r o c =>
      simp only at hrun
      split at hrun
      · simp at hrun
      split at hrun
      · simp at hrun
      split at hrun
      · simp at hrun
      obtain ⟨k1, k2, k3, k4⟩ := key _ hrun
      refine ⟨hroom, k1, ⟨_, k2, k3, rfl, fun id hh => by simp at hh, ?_⟩, k4⟩
      intro b r2 o2 c2 hh
      simp only [EnqueueArgs.samples.injEq] at hh
      exact hh.2.1
  · intro stream args h0 h1 hfull
    unfold xs_audioout_enqueue
    rw [if_neg (by omega), if_pos hfull.symm]
  · intro sampleRate numChannels streamCount j hj
    rw [xs_audioout_streamAt _ _ _ _ hj]
  · intro mem fuel n out2 output hn hrun j hj
    obtain ⟨hc2, hcfg, hret, _⟩ := audioMix_counts mem fuel out out2 n output hc hrun
    obtain ⟨k, hk⟩ := hret j
    exact ⟨k, hk, (hc2.2.2.1 j (by rw [hcfg.2.2]; exact hj)).1⟩
  · intro sampleRate numChannels streamCount i hi
    simp [xs_audioout] at hi
  · intro hex
    refine ⟨fun stream args out2 hne hrun =>
      enqueue_activeExact out out2 stream args hc hex hne hrun, ?_⟩
    intro hp
    refine ⟨fun stream args out2 hne hrun hs =>
      enqueue_positionsSettled out out2 stream args hc hp hne hrun hs, ?_⟩
    intro mem fuel n hn
    have hcons := consistent_of_counts out hc hp
    rcases audioMix_within_array mem fuel out n hcons hex hn with ⟨out2, output, hrun, hex2⟩ | h2
    · exact Or.inl ⟨out2, output, hrun, hex2, positionsSettled_of_consistent out2
        (audioMix_consistent mem fuel out out2 n output hcons hn hrun).1⟩
    · exact Or.inr h2

theorem enqueue_count_bookkeeping_witness :
    Reachable pairEngine ∧ (0 ≤ (pairEngine.streamAt 0).elementCount
      ∧ (pairEngine.streamAt 0).elementCount ≤ MODDEF_AUDIOOUT_QUEUELENGTH) :=
  ⟨pairEngine_reachable,
    (enqueue_count_bookkeeping pairEngine pairEngine_reachable).1 0 (by decide)⟩

/-- On a consistent state every queued element has `0 <= position <= sampleCount`; and in
the state a call of `audioMix` returns with, every queued element with `sampleCount > 0`
has `position < sampleCount` and every queued element behind the front of its queue has
position 0.  Consistency is kept by an enqueue that stores a frame count that is not
negative (`enqueueDone_consistent`) and by `audioMix`. -/
theorem position_within_element_of_consistent (out : modAudioOutRecord) (hc : Consistent out) :
    (∀ j, j < out.streamCount → ∀ e ∈ live (out.streamAt j),
        0 ≤ e.position ∧ e.position ≤ e.sampleCount)
      ∧ (∀ (mem : Memory) (fuel : Nat) (n : Int) (out2 : modAudioOutRecord)
          (output : List Int), 0 ≤ n → audioMix mem fuel out n = .done (out2, output) →
          ∀ j, j < out2.streamCount →
            (∀ e ∈ live (out2.streamAt j), 0 ≤ e.position ∧ e.position ≤ e.sampleCount)
              ∧ (∀ e ∈ live (out2.streamAt j), 0 < e.sampleCount → e.position < e.sampleCount)
              ∧ (∀ e ∈ (live (out2.streamAt j)).drop 1, e.position = 0)) := by
  refine ⟨fun j hj => (hc.2.2.2.1 j hj).2.2.2.1, ?_⟩
  intro mem fuel n out2 output hn hrun j hj
  have hc2 := (audioMix_consistent mem fuel out out2 n output hc hn hrun).1
  have hs := hc2.2.2.2.2.1 j hj (by simp)
  exact ⟨hs.1.2.2.2.1, hs.2, hs.1.2.2.2.2⟩

theorem wrappedCountEngine_reachable : Reachable wrappedCountEngine :=
  Reachable.enqueue (xs_audioout 8000 1 1) wrappedCountEngine 0
    (.samples fourFrameBuffer 1 (-2147483648) (-1)) fresh_reachable (by decide)

/-- C20: the call `enqueue(0, buffer, 1, -2147483648)` on the fresh engine, for a buffer of 4
declared frames at address 1000 (samples at 1012..1019), is accepted: the offset is below
the declared frames, the frame count is omitted, and `4 - (-2147483648)` wraps around in
`int` to -2147483644, which is stored as the element's frame count.  The state is reachable
by one accepted enqueue, and its queued element has position 0 above its `sampleCount`. -/
theorem enqueue_stores_negative_count :
    xs_audioout_enqueue (xs_audioout 8000 1 1) 0
        (.samples fourFrameBuffer 1 (-2147483648) (-1)) = .done wrappedCountEngine
      ∧ Reachable wrappedCountEngine
      ∧ live (wrappedCountEngine.streamAt 0)
        = [{ samples := 1012, sampleCount := -2147483644, position := 0, repeatCount := 1 }]
      ∧ ¬ (∀ e ∈ live (wrappedCountEngine.streamAt 0),
            0 ≤ e.position ∧ e.position ≤ e.sampleCount) :=
  ⟨by decide, wrappedCountEngine_reachable, by decide, by decide⟩

/-- C16: `queueCallback` on a pending queue of fewer than `MODDEF_AUDIOOUT_QUEUELENGTH`
identifiers appends the identifier behind the earlier ones; on a pending queue at capacity
it returns the state as it was (pending queue, streams, active set), so that `audioMix`
behaves as without the call; it never touches the streams or the active set; it keeps a count that is at most
`MODDEF_AUDIOOUT_QUEUELENGTH` so; and in every reachable state the count is at most
`MODDEF_AUDIOOUT_QUEUELENGTH`. -/
theorem queueCallback_appends_or_drops (out : modAudioOutRecord) (id : Int)
    (h : out.pendingCallbackCount ≤ MODDEF_AUDIOOUT_QUEUELENGTH) :
    (out.pendingCallbackCount < MODDEF_AUDIOOUT_QUEUELENGTH →
        (queueCallback out id).pendingCallbacks = out.pendingCallbacks ++ [id]
          ∧ (queueCallback out id).pendingCallbackCount = out.pendingCallbackCount + 1)
      ∧ (out.pendingCallbackCount = MODDEF_AUDIOOUT_QUEUELENGTH →
          queueCallback out id = out
            ∧ ∀ (mem : Memory) (fuel : Nat) (n : Int),
                audioMix mem fuel (queueCallback out id) n = audioMix mem fuel out n)
      ∧ (queueCallback out id).stream = out.stream
      ∧ (queueCallback out id).activeStream = out.activeStream
      ∧ (queueCallback out id).pendingCallbackCount ≤ MODDEF_AUDIOOUT_QUEUELENGTH
      ∧ (∀ s : modAudioOutRecord, Reachable s →
          s.pendingCallbackCount ≤ MODDEF_AUDIOOUT_QUEUELENGTH) := by
  refine ⟨?_, ?_, by simp, by simp, ?_, ?_⟩
  · intro hlt
    unfold queueCallback
    rw [if_pos hlt]
    simp [modAudioOutRecord.pendingCallbackCount]
  · intro heq
    have hsame : queueCallback out id = out := by
      unfold queueCallback
      rw [if_neg (by omega)]
    exact ⟨hsame, fun mem fuel n => by rw [hsame]⟩
  · unfold queueCallback
    split
    · simp only [modAudioOutRecord.pendingCallbackCount, List.length_append,
        List.length_singleton] at *
      omega
    · exact h
  · intro s hs
    exact (reachable_counts s hs).2.2.2.2.2

theorem queueCallback_appends_or_drops_witness :
    (xs_audioout 8000 1 1).pendingCallbackCount ≤ MODDEF_AUDIOOUT_QUEUELENGTH
      ∧ (queueCallback (xs_audioout 8000 1 1) 7).pendingCallbacks
          = (xs_audioout 8000 1 1).pendingCallbacks ++ [7] :=
  ⟨by decide,
    ((queueCallback_appends_or_drops (xs_audioout 8000 1 1) 7 (by decide)).1 (by decide)).1⟩

/-- C19: `endOfElement` on a non-empty stream within its slot array returns; when it
retires `k >= 1` elements the queue that remains is the old queue without its first `k`
elements (the same records in the same order) and the count is `k` less; and when the
front element's repeat count is 1 and the next element has a non-zero repeat count, the
queue that remains is the old queue without its first element and the count is one less.
The other streams are untouched. -/
theorem endOfElement_leaves_suffix (out : modAudioOutRecord) (i : Nat)
    (hi : i < out.stream.length) (hc1 : 1 ≤ (out.streamAt i).elementCount)
    (hc8 : (out.streamAt i).elementCount ≤ MODDEF_AUDIOOUT_QUEUELENGTH)
    (hlen : (out.streamAt i).element.length = MODDEF_AUDIOOUT_QUEUELENGTH) :
    ∃ (out2 : modAudioOutRecord) (k : Nat), endOfElement out i = .done out2
      ∧ (out2.streamAt i).elementCount = (out.streamAt i).elementCount - k
      ∧ (1 ≤ k → live (out2.streamAt i) = (live (out.streamAt i)).drop k)
      ∧ (k = 0 → live (out2.streamAt i)
          = completedFront (out.streamAt i) :: (live (out.streamAt i)).drop 1)
      ∧ (1 ≤ k ↔ (completedFront (out.streamAt i)).repeatCount = 0)
      ∧ (∀ next rest, (out.frontOf i).repeatCount = 1 →
          (live (out.streamAt i)).drop 1 = next :: rest → next.repeatCount ≠ 0 →
          k = 1 ∧ live (out2.streamAt i) = next :: rest
            ∧ (out2.streamAt i).elementCount = (out.streamAt i).elementCount - 1)
      ∧ (∀ j, j ≠ i → out2.streamAt j = out.streamAt j) := by
  obtain ⟨out2, hrun, _, hothers, _, hl1, hl2, _, _, _, _⟩ :=
    endOfElement_frame out i hi hc1 hc8 hlen
  refine ⟨out2, retiredCount
    (completedFront (out.streamAt i) :: (live (out.streamAt i)).drop 1), hrun, hl2, ?_, ?_, ?_,
    ?_, hothers⟩
  · intro hk
    rw [hl1]
    obtain ⟨m, hm⟩ : ∃ m, retiredCount
        (completedFront (out.streamAt i) :: (live (out.streamAt i)).drop 1) = m + 1 :=
      ⟨_, (Nat.succ_pred_eq_of_pos hk).symm⟩
    rw [hm, List.drop_succ_cons, List.drop_drop, Nat.add_comm 1 m]
  · intro hk
    rw [hl1, hk]
    rfl
  · rw [retiredCount]
    split
    · rename_i h0
      exact ⟨fun _ => h0, fun _ => by omega⟩
    · rename_i h0
      exact ⟨fun hk => by omega, fun h1 => absurd h1 h0⟩
  · intro next rest hrep hnext hne
    have hcf : (completedFront (out.streamAt i)).repeatCount = 0 :=
      completedFront_repeat_of_marker _ hrep
    have hk : retiredCount
        (completedFront (out.streamAt i) :: (live (out.streamAt i)).drop 1) = 1 := by
      rw [retiredCount, if_pos hcf, hnext, retiredCount, if_neg hne]
    rw [hl1, hl2, hk, hnext]
    exact ⟨rfl, rfl, by simp⟩

theorem endOfElement_leaves_suffix_witness :
    ∃ (out2 : modAudioOutRecord) (k : Nat), endOfElement pairEngine 0 = .done out2
      ∧ (out2.streamAt 0).elementCount = (pairEngine.streamAt 0).elementCount - k
      ∧ (1 ≤ k → live (out2.streamAt 0) = (live (pairEngine.streamAt 0)).drop k)
      ∧ (k = 0 → live (out2.streamAt 0)
          = completedFront (pairEngine.streamAt 0) :: (live (pairEngine.streamAt 0)).drop 1)
      ∧ (1 ≤ k ↔ (completedFront (pairEngine.streamAt 0)).repeatCount = 0)
      ∧ (∀ next rest, (pairEngine.frontOf 0).repeatCount = 1 →
          (live (pairEngine.streamAt 0)).drop 1 = next :: rest → next.repeatCount ≠ 0 →
          k = 1 ∧ live (out2.streamAt 0) = next :: rest
            ∧ (out2.streamAt 0).elementCount = (pairEngine.streamAt 0).elementCount - 1)
      ∧ (∀ j, j ≠ 0 → out2.streamAt j = pairEngine.streamAt j) :=
  endOfElement_leaves_suffix pairEngine 0 (by decide) (by decide) (by decide) (by decide)

/-! ## Two defects seen from the invariants -/

/-- C11: with a buffer queued on each of two streams the active set is `[0, 1]`, the
non-empty streams in index order; the accepted flush of stream 0 sets that stream's count
to 0 and leaves the active set `[0, 1]`, with `activeStreamCount == 2`, where
`updateActiveStreams` on the same streams gives `[1]`: flush does not recompute the
active set. -/
theorem flush_keeps_stale_active_set :
    WellFormed twoStreamEngine
      ∧ twoStreamEngine.activeStream = [0, 1]
      ∧ xs_audioout_enqueue twoStreamEngine 0 .flush = .done flushedDuoEngine
      ∧ (flushedDuoEngine.streamAt 0).elementCount = 0
      ∧ (flushedDuoEngine.streamAt 1).elementCount = 1
      ∧ flushedDuoEngine.activeStream = [0, 1]
      ∧ flushedDuoEngine.activeStreamCount = 2
      ∧ (updateActiveStreams flushedDuoEngine).activeStream = [1] := by
  decide

/-- C15: the accepted call `enqueue(0, buffer, 3, 0, 0)` on the fresh engine stores an
element with `sampleCount == 0` and repeat 3, in a reachable state. -/
theorem enqueue_stores_marker_with_repeat :
    xs_audioout_enqueue (xs_audioout 8000 1 1) 0 (.samples fourFrameBuffer 3 0 0)
        = .done emptySliceEngine
      ∧ live (emptySliceEngine.streamAt 0)
        = [{ samples := 1012, sampleCount := 0, position := 0, repeatCount := 3 }]
      ∧ Reachable emptySliceEngine :=
  ⟨by decide, by decide,
    Reachable.enqueue (xs_audioout 8000 1 1) emptySliceEngine 0 (.samples fourFrameBuffer 3 0 0)
      fresh_reachable (by decide)⟩
/-! ## Mixing is independent of the order of the streams -/

/-- C17: for a well-formed state, any rearrangement of its stream records among the stream
indices (the active set being the one `updateActiveStreams` computes for the rearranged
streams) and any request of `n` frames, `audioMix` returns for both states, within the
same number of passes, and writes the same samples. -/
theorem mixing_independent_of_stream_order (mem : Memory) (out : modAudioOutRecord)
    (streams : List modAudioOutStreamRecord) (n : Nat)
    (hwf : WellFormed out) (hperm : out.stream.Perm streams) :
    ∃ fuel r1 r2, audioMix mem fuel out n = .done r1
      ∧ audioMix mem fuel (withStreams out streams) n = .done r2
      ∧ r1.2 = r2.2 ∧ r1.2.length = n * out.numChannels := by
  obtain ⟨fuel, o, output, hrun, _, _, hlen, _⟩ :=
    audioMix_total mem n (engineMeasure out) out n hwf rfl rfl
  obtain ⟨r2, hr2, heq⟩ := audioMix_perm mem fuel out (withStreams out streams) n (o, output)
    hwf (withStreams_wellFormed out streams hwf hperm) rfl (hperm.map live)
    (Int.ofNat_nonneg _) hrun
  exact ⟨fuel, (o, output), r2, hrun, hr2, heq.symm, hlen⟩

theorem mixing_independent_of_stream_order_witness :
    ∃ fuel r1 r2, audioMix addressMemory fuel twoStreamEngine (3 : Nat) = .done r1
      ∧ audioMix addressMemory fuel
          (withStreams twoStreamEngine twoStreamEngine.stream.reverse) (3 : Nat) = .done r2
      ∧ r1.2 = r2.2 ∧ r1.2.length = 3 * twoStreamEngine.numChannels :=
  mixing_independent_of_stream_order addressMemory twoStreamEngine
    twoStreamEngine.stream.reverse 3 (by decide) (List.reverse_perm _).symm
/-! ## A start offset below zero -/

/-- C22: the call `enqueue(0, buffer, 1, -7)` on the fresh engine, for a buffer of 4
declared frames at address 1000 (header at 1000..1011, samples at 1012..1019), is
accepted: the stored element starts at address 998, 7 frames before the first sample
and before the buffer itself, and has 11 frames; `audioMix(1)` then reads the sample at
address 998. -/
theorem enqueue_accepts_negative_offset :
    xs_audioout_enqueue (xs_audioout 8000 1 1) 0 (.samples fourFrameBuffer 1 (-7) (-1))
        = .done negativeOffsetEngine
      ∧ live (negativeOffsetEngine.streamAt 0)
        = [{ samples := 998, sampleCount := 11, position := 0, repeatCount := 1 }]
      ∧ fourFrameBuffer.address = 1000 ∧ fourFrameBuffer.bufferSamples = 4
      ∧ (audioMix addressMemory 1 negativeOffsetEngine 1).bind (fun r => .done r.2)
          = .done [998] := by
  decide
/-! ## Mixing composes across calls -/

theorem audioMixCalls_fuel_mono (mem : Memory) (fuel fuel2 : Nat) (hle : fuel ≤ fuel2) :
    ∀ (ns : List Int) (out : modAudioOutRecord) (r : modAudioOutRecord × List Int),
    audioMixCalls mem fuel out ns = .done r → audioMixCalls mem fuel2 out ns = .done r := by
  intro ns
  induction ns with
  | nil =>
    intro out r h
    exact h
  | cons n rest ih =>
    intro out r h
    rw [audioMixCalls] at h ⊢
    obtain ⟨r1, hr1, h2⟩ := Outcome.bind_eq_done h
    obtain ⟨r2, hr2, h3⟩ := Outcome.bind_eq_done h2
    rw [audioMix_fuel_mono mem fuel out n r1 hr1 fuel2 hle, Outcome.bind_done,
      ih r1.1 r2 hr2, Outcome.bind_done]
    exact h3

/-- On a well-formed state every sequence of `audioMix` calls returns. -/
theorem audioMixCalls_total (mem : Memory) : ∀ (ns : List Int) (out : modAudioOutRecord),
    WellFormed out → (∀ n ∈ ns, 0 ≤ n) →
    ∃ fuel out2 output, audioMixCalls mem fuel out ns = .done (out2, output) := by
  intro ns
  induction ns with
  | nil =>
    intro out _ _
    exact ⟨0, out, [], rfl⟩
  | cons n rest ih =>
    intro out hwf hns
    have hn : 0 ≤ n := hns n (by simp)
    obtain ⟨fuel1, out1, output1, hrun1, hwf1, _⟩ :=
      audioMix_total mem n.toNat (engineMeasure out) out n hwf (by omega) rfl
    obtain ⟨fuel2, out2, output2, hrun2⟩ :=
      ih out1 hwf1 (fun m hm => hns m (List.mem_cons_of_mem _ hm))
    refine ⟨max fuel1 fuel2, out2, output1 ++ output2, ?_⟩
    rw [audioMixCalls,
      audioMix_fuel_mono mem fuel1 out n _ hrun1 (max fuel1 fuel2) (le_max_left _ _),
      Outcome.bind_done,
      audioMixCalls_fuel_mono mem fuel2 (max fuel1 fuel2) (le_max_right _ _) rest out1 _ hrun2,
      Outcome.bind_done]

/-- An accepted enqueue of a callback or of a buffer appends its element to the queue of
its stream and leaves the other streams and the pending identifiers as they were. -/
theorem enqueue_appends (out out2 : modAudioOutRecord) (stream : Int) (args : EnqueueArgs)
    (hc : CountsOK out) (hne : args ≠ .flush)
    (h : xs_audioout_enqueue out stream args = .done out2) :
    ∃ e, live (out2.streamAt stream.toNat) = live (out.streamAt stream.toNat) ++ [e]
      ∧ (∀ id, args = .callback id → e = callbackMarker id)
      ∧ (∀ j, j ≠ stream.toNat → out2.streamAt j = out.streamAt j)
      ∧ out2.pendingCallbacks = out.pendingCallbacks := by
  have hq : (MODDEF_AUDIOOUT_QUEUELENGTH : Int) = 8 := rfl
  unfold xs_audioout_enqueue at h
  split at h
  · simp at h
  rename_i hrange
  split at h
  · simp at h
  rename_i hfull
  have hi : stream.toNat < out.stream.length := by
    unfold modAudioOutRecord.streamCount at hrange
    omega
  obtain ⟨hc0, hc8, hlen⟩ := hc.2.2.1 _ hi
  have hroom : (out.streamAt stream.toNat).elementCount < MODDEF_AUDIOOUT_QUEUELENGTH := by
    omega
  have key : ∀ e : modAudioQueueElementRecord, enqueueDone out stream.toNat e = .done out2 →
      live (out2.streamAt stream.toNat) = live (out.streamAt stream.toNat) ++ [e]
        ∧ (∀ j, j ≠ stream.toNat → out2.streamAt j = out.streamAt j)
        ∧ out2.pendingCallbacks = out.pendingCallbacks := by
    intro e he
    obtain ⟨o, ho, _, hothers, _, hlive, _, hpend, _⟩ :=
      enqueueDone_frame out stream.toNat e hi hc0 hroom hlen
    rw [ho] at he
    simp only [Outcome.done.injEq] at he
    subst he
    exact ⟨hlive, hothers, hpend⟩
  cases args with
  | flush => exact absurd rfl hne
  | callback id =>
    obtain ⟨k1, k2, k3⟩ := key _ h
    refine ⟨_, k1, ?_, k2, k3⟩
    intro id2 hh
    simp only [EnqueueArgs.callback.injEq] at hh
    rw [← hh]
    rfl
  | samples buffer r o c =>
    simp only at h
    split at h
    · simp at h
    split at h
    · simp at h
    split at h
    · simp at h
    obtain ⟨k1, k2, k3⟩ := key _ h
    exact ⟨_, k1, fun id hh => by simp at hh, k2, k3⟩

theorem crossStreamEngine_reachable : Reachable crossStreamEngine :=
  Reachable.enqueue
    (xs_audioout_enqueue (xs_audioout 8000 1 2) 1 (.callback 1)).stateOr
    crossStreamEngine 0 (.callback 2)
    (Reachable.enqueue (xs_audioout 8000 1 2) _ 1 (.callback 1)
      (Reachable.construct 8000 1 2 (Or.inl rfl) ⟨by decide, by decide⟩) (by decide))
    (by decide)

/-- C7 (amended): in every reachable state, the markers of a stream are its queued elements
with `sampleCount == 0`, in queue order.  An accepted callback enqueue puts its identifier
behind the markers queued on its stream; an accepted buffer enqueue that stores a frame
count other than 0 leaves the markers of its stream as they are, and one that stores the
frame count 0 queues a marker whose identifier is the address of the slice; both forms
leave the other streams and the pending identifiers unchanged.  For every sequence of `audioMix` calls that
return there is a list `retired` of (stream, identifier) pairs, the markers the calls
retired in the order in which `queueCallback` ran for them, such that for every stream the
markers queued before the calls are the identifiers retired on that stream, in the order
of `retired`, followed by the markers still queued after the calls; `queueCallback` has
run once for each retired marker, appending the identifier to the pending identifiers unless
`MODDEF_AUDIOOUT_QUEUELENGTH` of them were pending; and the delivery pass that follows
invokes the handler with the pending identifiers in their order and leaves none pending.
When the identifiers pending before the calls and the retired markers together are at most
`MODDEF_AUDIOOUT_QUEUELENGTH`, the handler is invoked with the identifiers pending before
the calls followed by the identifier of every retired marker exactly once, in order of
retirement.  On a well-formed state every sequence of `audioMix` calls returns. -/
theorem markers_delivered_in_retirement_order (out : modAudioOutRecord) (h : Reachable out) :
    (∀ (stream id : Int) (out2 : modAudioOutRecord),
        xs_audioout_enqueue out stream (.callback id) = .done out2 →
        markerIds (live (out2.streamAt stream.toNat))
            = markerIds (live (out.streamAt stream.toNat)) ++ [id]
          ∧ (∀ j, j ≠ stream.toNat → out2.streamAt j = out.streamAt j)
          ∧ out2.pendingCallbacks = out.pendingCallbacks)
      ∧ (∀ (stream : Int) (buffer : AudioBuffer) (r o c : Int) (out2 : modAudioOutRecord),
        xs_audioout_enqueue out stream (.samples buffer r o c) = .done out2 →
        ∃ e, live (out2.streamAt stream.toNat) = live (out.streamAt stream.toNat) ++ [e]
          ∧ (e.sampleCount ≠ 0 → markerIds (live (out2.streamAt stream.toNat))
              = markerIds (live (out.streamAt stream.toNat)))
          ∧ (e.sampleCount = 0 → markerIds (live (out2.streamAt stream.toNat))
              = markerIds (live (out.streamAt stream.toNat)) ++ [e.samples])
          ∧ (∀ j, j ≠ stream.toNat → out2.streamAt j = out.streamAt j)
          ∧ out2.pendingCallbacks = out.pendingCallbacks)
      ∧ (∀ (mem : Memory) (fuel : Nat) (ns : List Int) (out2 : modAudioOutRecord)
          (output : List Int), audioMixCalls mem fuel out ns = .done (out2, output) →
        ∃ retired : List (Nat × Int),
          (∀ j, markerIds (live (out.streamAt j))
              = ((retired.filter fun r => decide (r.1 = j)).map fun r => r.2)
                ++ markerIds (live (out2.streamAt j)))
            ∧ out2.pendingCallbacks = queueAll out.pendingCallbacks (retired.map fun r => r.2)
            ∧ (deliverCallbacks out2).2 = out2.pendingCallbacks
            ∧ (deliverCallbacks out2).1.pendingCallbacks = []
            ∧ (out.pendingCallbacks.length + retired.length ≤ MODDEF_AUDIOOUT_QUEUELENGTH →
                (deliverCallbacks out2).2 = out.pendingCallbacks ++ retired.map fun r => r.2))
      ∧ (WellFormed out → ∀ (mem : Memory) (ns : List Int), (∀ n ∈ ns, 0 ≤ n) →
          ∃ fuel out2 output, audioMixCalls mem fuel out ns = .done (out2, output)) := by
  have hc := reachable_counts out h
  refine ⟨?_, ?_, ?_, ?_⟩
  · intro stream id out2 hrun
    obtain ⟨e, hlive, he, hothers, hpend⟩ :=
      enqueue_appends out out2 stream (.callback id) hc (by simp) hrun
    refine ⟨?_, hothers, hpend⟩
    rw [hlive, markerIds_append, he id rfl]
    rfl
  · intro stream buffer r o c out2 hrun
    obtain ⟨e, hlive, _, hothers, hpend⟩ :=
      enqueue_appends out out2 stream (.samples buffer r o c) hc (by simp) hrun
    refine ⟨e, hlive, ?_, ?_, hothers, hpend⟩
    · intro hne
      rw [hlive, markerIds_append, markerIds_cons, if_neg hne]
      simp [markerIds]
    · intro he0
      rw [hlive, markerIds_append, markerIds_cons, if_pos he0]
      simp [markerIds]
  · intro mem fuel ns out2 output hrun
    obtain ⟨_, retired, hm⟩ := audioMixCalls_counts mem fuel ns out out2 output hc hrun
    refine ⟨retired, hm.1, hm.2, ?_, ?_, ?_⟩
    · rw [deliverCallbacks_spec]
    · rw [deliverCallbacks_spec]
    · intro hlen
      rw [deliverCallbacks_spec]
      show out2.pendingCallbacks = _
      rw [hm.2]
      exact queueAll_no_overflow _ _ (by rw [List.length_map]; exact hlen)
  · intro hwf mem ns hns
    exact audioMixCalls_total mem ns out hwf hns

theorem markers_delivered_in_retirement_order_witness :
    Reachable crossStreamEngine
      ∧ ∃ retired : List (Nat × Int),
          (∀ j, markerIds (live (crossStreamEngine.streamAt j))
              = ((retired.filter fun r => decide (r.1 = j)).map fun r => r.2)
                ++ markerIds (live (crossStreamMixed.streamAt j)))
            ∧ crossStreamMixed.pendingCallbacks
              = queueAll crossStreamEngine.pendingCallbacks (retired.map fun r => r.2)
            ∧ (deliverCallbacks crossStreamMixed).2 = crossStreamMixed.pendingCallbacks :=
  ⟨crossStreamEngine_reachable,
    let ⟨retired, h1, h2, h3, _, _⟩ :=
      (markers_delivered_in_retirement_order crossStreamEngine
        crossStreamEngine_reachable).2.2.1 addressMemory 3 [1] crossStreamMixed [0]
        (by decide)
    ⟨retired, h1, h2, h3⟩⟩

end AudioOut
